import Mathlib

set_option autoImplicit false

namespace Oat

/-!
Shallow embedding of art's `src/oat_writer.cc`: the OAT file writer.

Pass F is the `OatWriter` constructor (offset planning: `InitOatHeader`,
`InitOatDexFiles`, `InitDexFiles`, `InitOatClasses`, `InitOatCode`,
`InitOatCodeDexFiles`); pass G is `OatWriter::Write` (`WriteTables`,
`WriteCode`, `WriteCodeDexFiles`).  External collaborators (compiler, dex
files, verifier, output stream, runtime) are modelled abstractly through an
environment record.  C++ object identity of the compiler-owned byte vectors
is modelled by a numeric blob id (the spec suggests exactly this `BlobId`
strategy for reimplementation).

Every `WriteFully` call and every `OatHeader::UpdateChecksum` call is
recorded as a `Chunk`: one contiguous byte range together with the call site
kind that produced it.  Both passes are additionally instrumented with a
checkpoint list (the planned offset, resp. the stream position, at the
documented checkpoints) so that the pass-F/pass-G agreement can be stated
exactly.
-/

/-- `utils.h` `RoundUp` (not under `src/`), modelled from the spec (§4.A):
the least multiple of `a` that is `≥ n`; all uses have power-of-two `a`, for
which the source's bit trick agrees with this division form. -/
def roundUp (n a : Nat) : Nat := ((n + a - 1) / a) * a

/-- `globals.h` `kPageSize` (not under `src/`), modelled from the spec:
the executable section is page aligned; the page size is 4096. -/
def kPageSize : Nat := 4096

/-- `dex_file.h` `kAccStatic` access-flag bit (not under `src/`). -/
def kAccStatic : Nat := 8

/-- `oat.h` `sizeof(OatHeader)` (not under `src/`), modelled from the spec
(§3): a fixed-size leading record of nine 32-bit fields.  The writer only
ever adds this constant once, so its exact value is immaterial. -/
def sizeOfOatHeader : Nat := 36

/-- A compiler-owned byte/word vector: `id` models C++ object identity (the
dedup tables key on `&vector`), `data` the element contents. -/
structure Blob where
  id : Nat
  data : List Nat
deriving DecidableEq, Repr

/-- `Class::Status` (`object.h`, not under `src/`), modelled from the spec:
only the distinctions used by the writer matter. -/
inductive ClassStatus
  | kStatusError
  | kStatusNotReady
  | kStatusVerified
  | kStatusInitialized
deriving DecidableEq, BEq, Repr

/-- `oat.h` `OatMethodOffsets` (not under `src/`), modelled from the spec
(§3): eight consecutive u32 fields (the non-LLVM configuration, which has no
proxy-stub field).  The default constructor zero-initializes. -/
structure OatMethodOffsets where
  code_offset_ : Nat
  frame_size_in_bytes_ : Nat
  core_spill_mask_ : Nat
  fp_spill_mask_ : Nat
  mapping_table_offset_ : Nat
  vmap_table_offset_ : Nat
  gc_map_offset_ : Nat
  invoke_stub_offset_ : Nat
deriving DecidableEq, Repr

def OatMethodOffsets.zero : OatMethodOffsets := ⟨0, 0, 0, 0, 0, 0, 0, 0⟩

/-- Which call site produced a byte range (instrumentation only). -/
inductive CTag
  | hdrT        -- the OatHeader image
  | locT        -- the image-location string
  | dexRecT     -- an OatDexFile record field
  | payloadT    -- an embedded DEX payload
  | classRecT   -- an OatClass record field
  | sizeT       -- a u32 blob size written before a code/stub payload
  | blobT       -- a code/stub/mapping/vmap/gc-map payload
deriving DecidableEq, BEq, Repr

/-- The contents of one contiguous byte range passed to a single `WriteFully`
or `UpdateChecksum` call.  The constructor fixes the element width, so equal
values denote identical byte ranges. -/
inductive CData
  | hdr (execOff : Nat)                 -- header image, exec offset patched in
  | u8s (bs : List Nat)
  | u16s (vs : List Nat)
  | u32 (v : Nat)
  | u32s (vs : List Nat)
  | cst (s : ClassStatus)               -- the 4-byte class status field
  | mOffs (ms : List OatMethodOffsets)  -- packed OatMethodOffsets array
deriving DecidableEq, Repr

def CData.byteLen : CData → Nat
  | .hdr _ => sizeOfOatHeader
  | .u8s bs => bs.length
  | .u16s vs => 2 * vs.length
  | .u32 _ => 4
  | .u32s vs => 4 * vs.length
  | .cst _ => 4
  | .mOffs ms => 32 * ms.length

/-- True for a zero-length byte range. -/
def CData.isNil : CData → Bool
  | .u8s [] => true
  | .u16s [] => true
  | .u32s [] => true
  | .mOffs [] => true
  | _ => false

structure Chunk where
  tag : CTag
  data : CData
deriving DecidableEq, Repr

def Chunk.byteLen (c : Chunk) : Nat := c.data.byteLen

/-- A dex method as yielded by `ClassDataItemIterator` (`access_flags`,
`method_idx`). -/
structure MethodDef where
  accessFlags : Nat
  methodIdx : Nat
deriving DecidableEq, Repr

/-- The method part of a class_data_item: direct then virtual methods. -/
structure ClassData where
  directMethods : List MethodDef
  virtualMethods : List MethodDef
deriving DecidableEq, Repr

/-- One class_def; `classData = none` models a class with no class data
(e.g. a marker interface). -/
structure ClassDefRec where
  classData : Option ClassData
deriving DecidableEq, Repr

/-- A DEX file, through the interface the writer consumes (§6):
location string, location checksum, header file size, the raw payload
bytes, the class definitions, and the shorty lookup (shorties are opaque
lookup keys, modelled as `Nat`). -/
structure DexFileRec where
  location : List Nat
  locationChecksum : Nat
  fileSize : Nat
  payload : List Nat
  classDefs : List ClassDefRec
  methodShorty : Nat → Nat

/-- `CompiledMethod` (not under `src/`), through the consumed interface (§6). -/
structure CompiledMethod where
  code : Blob
  codeDelta : Nat
  frameSizeInBytes : Nat
  coreSpillMask : Nat
  fpSpillMask : Nat
  mappingTable : Blob  -- u32 words
  vmapTable : Blob     -- u16 words
  gcMap : Blob         -- u8 bytes

/-- `CompiledInvokeStub` (not under `src/`), through the consumed interface. -/
structure CompiledInvokeStub where
  code : Blob
  codeDelta : Nat

/-- What the runtime knows about a resolved method (image mode, §6). -/
structure ImageMethodInfo where
  isStatic : Bool
  isConstructor : Bool
  classInited : Bool

/-- The compiler, through the consumed interface (§6).  `isaAlignment` is the
per-instruction-set code alignment used by `AlignCode` (spec §4.A: "delegates
to a per-instruction-set rule, typically 16"). -/
structure CompilerRec where
  isaAlignment : Nat
  getCompiledClass : Nat → Nat → Option ClassStatus        -- dex idx, class_def idx
  getCompiledMethod : Nat → Nat → Option CompiledMethod    -- dex idx, method idx
  findInvokeStub : Bool → Nat → Option CompiledInvokeStub  -- is_static, shorty
  isImage : Bool

/-- The writer's whole input: dex files, image-location parameters, compiler,
verifier (`IsClassRejected`), runtime method registry (image mode), and the
build-time `kStackAlignment` constant from `globals.h` (not under `src/`;
16 in the source tree). -/
structure Env where
  dexFiles : List DexFileRec
  imageFileLocation : List Nat
  imageFileLocationOatChecksum : Nat
  imageFileLocationOatBegin : Nat
  compiler : CompilerRec
  isClassRejected : Nat → Nat → Bool
  resolveMethod : Nat → Nat → ImageMethodInfo
  resolutionStub : Nat
  kStackAlignment : Nat

inductive InvokeType
  | kStatic
  | kDirect
  | kVirtual
deriving DecidableEq, BEq, Repr

/-- `dex_file.h` `ClassDataItemIterator::GetMethodInvokeType` (not under
`src/`), modelled from the spec (§6): a direct method is `kStatic` exactly
when its static access flag is set, a virtual method is never static. -/
def GetMethodInvokeType (isDirect : Bool) (accessFlags : Nat) : InvokeType :=
  if isDirect then
    (if (accessFlags &&& kAccStatic) != 0 then .kStatic else .kDirect)
  else .kVirtual

/-- Pair each list element with its index starting at `i` (the source's
loop counters `i`, `class_def_index`). -/
def idxFrom {α : Type} (i : Nat) : List α → List (Nat × α)
  | [] => []
  | x :: xs => (i, x) :: idxFrom (i + 1) xs

/-- `SafeMap` lookup by blob identity (`code_offsets_.find(&blob)` etc.). -/
def findOff : List (Nat × Nat) → Nat → Option Nat
  | [], _ => none
  | (k, v) :: t, i => if k = i then some v else findOff t i

/-- One `OatWriter::OatDexFile` record (oat_writer.cc:788-812). -/
structure OatDexFile where
  dex_file_location_size_ : Nat
  dex_file_location_data_ : List Nat
  dex_file_location_checksum_ : Nat
  dex_file_offset_ : Nat
  methods_offsets_ : List Nat
deriving DecidableEq, Repr

/-- oat_writer.cc:788-795: `OatDexFile::OatDexFile(const DexFile&)`. -/
def OatDexFile_new (dex : DexFileRec) : OatDexFile :=
  { dex_file_location_size_ := dex.location.length
  , dex_file_location_data_ := dex.location
  , dex_file_location_checksum_ := dex.locationChecksum
  , dex_file_offset_ := 0
  , methods_offsets_ := List.replicate dex.classDefs.length 0 }

/-- oat_writer.cc:797-803: `OatDexFile::SizeOf`. -/
def OatDexFile.byteSize (r : OatDexFile) : Nat :=
  4 + r.dex_file_location_size_ + 4 + 4 + 4 * r.methods_offsets_.length

/-- oat_writer.cc:805-812: `OatDexFile::UpdateChecksum` — the five byte
ranges folded into the header checksum, in order. -/
def OatDexFile.checksumChunks (r : OatDexFile) : List Chunk :=
  [ ⟨.dexRecT, .u32 r.dex_file_location_size_⟩
  , ⟨.dexRecT, .u8s r.dex_file_location_data_⟩
  , ⟨.dexRecT, .u32 r.dex_file_location_checksum_⟩
  , ⟨.dexRecT, .u32 r.dex_file_offset_⟩
  , ⟨.dexRecT, .u32s r.methods_offsets_⟩ ]

/-- One `OatWriter::OatClass` record (oat_writer.cc:839-853). -/
structure OatClass where
  status_ : ClassStatus
  method_offsets_ : List OatMethodOffsets
deriving DecidableEq, Repr

/-- oat_writer.cc:844-847: `OatClass::SizeOf`. -/
def OatClass.byteSize (c : OatClass) : Nat :=
  4 + 32 * c.method_offsets_.length

/-- oat_writer.cc:849-853: `OatClass::UpdateChecksum` — status, then the
packed method-offsets array. -/
def OatClass.checksumChunks (c : OatClass) : List Chunk :=
  [ ⟨.classRecT, .cst c.status_⟩, ⟨.classRecT, .mOffs c.method_offsets_⟩ ]

/-- The boot-image bridge effect on one registry method
(oat_writer.cc:397-419): the unconditionally stored fields, and either the
code offset (`SetOatCodeOffset`) or the resolution-trampoline code address
(`SetCode`). -/
structure RegistryUpdate where
  dexIdx : Nat
  methodIdx : Nat
  frameSize : Nat
  coreSpill : Nat
  fpSpill : Nat
  mappingOff : Nat
  vmapOff : Nat
  gcOff : Nat
  stubOff : Nat
  codeOffset : Option Nat
  codeAddr : Option Nat
deriving DecidableEq, Repr

/-- The four identity-keyed deduplication tables (oat_writer.cc member
variables `code_offsets_`, `mapping_table_offsets_`, `vmap_table_offsets_`,
`gc_map_offsets_`).  Invoke stubs share `code` with method code. -/
structure DedupMaps where
  code : List (Nat × Nat)
  mapping : List (Nat × Nat)
  vmap : List (Nat × Nat)
  gcMap : List (Nat × Nat)
deriving Repr

/-- The spec's dedup-table signature (§4.B), written from the spec's words:
`Intern(blob, tentative_offset) → (offset, is_new)`. -/
def Intern (m : List (Nat × Nat)) (blobId tentative : Nat) :
    Nat × Bool × List (Nat × Nat) :=
  match findOff m blobId with
  | some stored => (stored, false, m)
  | none => (tentative, true, (blobId, tentative) :: m)

/-! ### Pass F, phase 6 building blocks -/

/-- oat_writer.cc:252-269 (method code) and 337-354 (invoke stub): align the
cursor, form the tentative offset `offset + sizeof(u32) + code_delta`, then
deduplicate through the shared code map; a fresh blob advances the cursor by
the size prefix plus the payload and folds the payload (only) into the
checksum.  Returns (recorded offset, map, checksum trace, cursor). -/
def codeLikePart (al : Nat) (blob : Blob) (delta : Nat)
    (m : List (Nat × Nat)) (csum : List Chunk) (offset : Nat) :
    Nat × List (Nat × Nat) × List Chunk × Nat :=
  let offset := roundUp offset al
  let codeSize := blob.data.length
  let tentative := offset + 4 + delta
  match findOff m blob.id with
  | some stored => (stored, m, csum, offset)
  | none =>
      (tentative, (blob.id, tentative) :: m,
       csum ++ [⟨.blobT, .u8s blob.data⟩], offset + 4 + codeSize)

/-- oat_writer.cc:274-286: the mapping table (u32 words): tentative offset is
the cursor (0 for a zero-length table), no size prefix, no code delta. -/
def mappingTablePart (blob : Blob) (m : List (Nat × Nat))
    (csum : List Chunk) (offset : Nat) :
    Nat × List (Nat × Nat) × List Chunk × Nat :=
  let size := 4 * blob.data.length
  let tentative := if size = 0 then 0 else offset
  match findOff m blob.id with
  | some stored => (stored, m, csum, offset)
  | none =>
      (tentative, (blob.id, tentative) :: m,
       csum ++ [⟨.blobT, .u32s blob.data⟩], offset + size)

/-- oat_writer.cc:288-300: the vmap table (u16 words), same pattern. -/
def vmapTablePart (blob : Blob) (m : List (Nat × Nat))
    (csum : List Chunk) (offset : Nat) :
    Nat × List (Nat × Nat) × List Chunk × Nat :=
  let size := 2 * blob.data.length
  let tentative := if size = 0 then 0 else offset
  match findOff m blob.id with
  | some stored => (stored, m, csum, offset)
  | none =>
      (tentative, (blob.id, tentative) :: m,
       csum ++ [⟨.blobT, .u16s blob.data⟩], offset + size)

/-- oat_writer.cc:302-330: the GC map (u8 bytes), same pattern. -/
def gcMapPart (blob : Blob) (m : List (Nat × Nat))
    (csum : List Chunk) (offset : Nat) :
    Nat × List (Nat × Nat) × List Chunk × Nat :=
  let size := blob.data.length
  let tentative := if size = 0 then 0 else offset
  match findOff m blob.id with
  | some stored => (stored, m, csum, offset)
  | none =>
      (tentative, (blob.id, tentative) :: m,
       csum ++ [⟨.blobT, .u8s blob.data⟩], offset + size)

/-- oat_writer.cc:229-422: `OatWriter::InitOatCodeMethod`.  Returns the
updated dedup maps, checksum trace, registry-update trace, checkpoint list
(one checkpoint after each blob part), cursor, and the populated
`OatMethodOffsets` record.  A checkpoint is appended after each of the
code, mapping-table, vmap-table, gc-map and invoke-stub parts that run. -/
def InitOatCodeMethod (env : Env) (di : Nat) (dex : DexFileRec)
    (type : InvokeType) (methodIdx : Nat)
    (maps : DedupMaps) (csum : List Chunk) (regs : List RegistryUpdate)
    (cks : List Nat) (offset : Nat) :
    DedupMaps × List Chunk × List RegistryUpdate × List Nat × Nat ×
      OatMethodOffsets :=
  let al := env.compiler.isaAlignment
  -- derived from CompiledMethod if available (defaults otherwise)
  let (code_offset, frame_size_in_bytes, core_spill_mask, fp_spill_mask,
       mapping_table_offset, vmap_table_offset, gc_map_offset,
       maps, csum, cks, offset) :=
    match env.compiler.getCompiledMethod di methodIdx with
    | none =>
        (0, env.kStackAlignment, 0, 0, 0, 0, 0, maps, csum, cks, offset)
    | some cm =>
        let (code_offset, codeM, csum, offset) :=
          codeLikePart al cm.code cm.codeDelta maps.code csum offset
        let cks := cks ++ [offset]
        let (mapping_table_offset, mapM, csum, offset) :=
          mappingTablePart cm.mappingTable maps.mapping csum offset
        let cks := cks ++ [offset]
        let (vmap_table_offset, vmapM, csum, offset) :=
          vmapTablePart cm.vmapTable maps.vmap csum offset
        let cks := cks ++ [offset]
        let (gc_map_offset, gcM, csum, offset) :=
          gcMapPart cm.gcMap maps.gcMap csum offset
        let cks := cks ++ [offset]
        (code_offset, cm.frameSizeInBytes, cm.coreSpillMask, cm.fpSpillMask,
         mapping_table_offset, vmap_table_offset, gc_map_offset,
         ⟨codeM, mapM, vmapM, gcM⟩, csum, cks, offset)
  let shorty := dex.methodShorty methodIdx
  let (invoke_stub_offset, maps, csum, cks, offset) :=
    match env.compiler.findInvokeStub (type == InvokeType.kStatic) shorty with
    | none => (0, maps, csum, cks, offset)
    | some stub =>
        let (so, codeM, csum, offset) :=
          codeLikePart al stub.code stub.codeDelta maps.code csum offset
        (so, { maps with code := codeM }, csum, cks ++ [offset], offset)
  let mrec : OatMethodOffsets :=
    ⟨code_offset, frame_size_in_bytes, core_spill_mask, fp_spill_mask,
     mapping_table_offset, vmap_table_offset, gc_map_offset,
     invoke_stub_offset⟩
  let regs :=
    if env.compiler.isImage then
      let info := env.resolveMethod di methodIdx
      let storeCode := !info.isStatic || info.isConstructor || info.classInited
      regs ++ [{ dexIdx := di, methodIdx := methodIdx
               , frameSize := frame_size_in_bytes
               , coreSpill := core_spill_mask, fpSpill := fp_spill_mask
               , mappingOff := mapping_table_offset
               , vmapOff := vmap_table_offset, gcOff := gc_map_offset
               , stubOff := invoke_stub_offset
               , codeOffset := if storeCode then some code_offset else none
               , codeAddr := if storeCode then none
                             else some env.resolutionStub }]
    else regs
  (maps, csum, regs, cks, offset, mrec)

/-- The method iteration order of `InitOatCodeClassDef` /
`WriteCodeClassDef`: direct methods then virtual methods, tagged with
whether they came from the direct loop. -/
def taggedMethods (data : ClassData) : List (Bool × MethodDef) :=
  data.directMethods.map (fun m => (true, m)) ++
    data.virtualMethods.map (fun m => (false, m))

/-- The method loops of oat_writer.cc:207-225, producing the per-method
records in `class_def_method_index` order (the source writes them into the
pre-sized `method_offsets_` vector at exactly these indices). -/
def InitOatCodeMethods (env : Env) (di : Nat) (dex : DexFileRec) :
    List (Bool × MethodDef) → DedupMaps → List Chunk →
    List RegistryUpdate → List Nat → Nat →
    List OatMethodOffsets × DedupMaps × List Chunk × List RegistryUpdate ×
      List Nat × Nat
  | [], maps, csum, regs, cks, offset => ([], maps, csum, regs, cks, offset)
  | (isDirect, m) :: rest, maps, csum, regs, cks, offset =>
      let type := GetMethodInvokeType isDirect m.accessFlags
      let (maps, csum, regs, cks, offset, mrec) :=
        InitOatCodeMethod env di dex type m.methodIdx maps csum regs cks offset
      let (mrecs, maps, csum, regs, cks, offset) :=
        InitOatCodeMethods env di dex rest maps csum regs cks offset
      (mrec :: mrecs, maps, csum, regs, cks, offset)

/-- oat_writer.cc:188-227: `OatWriter::InitOatCodeClassDef`.  A class with no
class data is an early return; otherwise the method records computed by the
method loop replace the pre-sized defaults (the source's CHECK_EQ at line
198 asserts both have the same length). -/
def InitOatCodeClassDef (env : Env) (di : Nat) (dex : DexFileRec)
    (cd : ClassDefRec) (oc : OatClass)
    (maps : DedupMaps) (csum : List Chunk) (regs : List RegistryUpdate)
    (cks : List Nat) (offset : Nat) :
    OatClass × DedupMaps × List Chunk × List RegistryUpdate × List Nat ×
      Nat :=
  match cd.classData with
  | none => (oc, maps, csum, regs, cks, offset)
  | some data =>
      let (mrecs, maps, csum, regs, cks, offset) :=
        InitOatCodeMethods env di dex (taggedMethods data)
          maps csum regs cks offset
      ({ oc with method_offsets_ := mrecs }, maps, csum, regs, cks, offset)

/-- oat_writer.cc:175-186: `OatWriter::InitOatCodeDexFile`: every class def
of one dex, consuming the phase-4 `oat_classes_` records positionally (the
source indexes them with the running `oat_class_index`); after each class
its OatClass record is folded into the header checksum.  Returns the updated
class records and the unconsumed tail. -/
def InitOatCodeDexFile (env : Env) (di : Nat) (dex : DexFileRec) :
    List ClassDefRec → List OatClass → DedupMaps → List Chunk →
    List RegistryUpdate → List Nat → Nat →
    List OatClass × List OatClass × DedupMaps × List Chunk ×
      List RegistryUpdate × List Nat × Nat
  | [], pend, maps, csum, regs, cks, offset =>
      ([], pend, maps, csum, regs, cks, offset)
  | _ :: _, [], maps, csum, regs, cks, offset =>
      ([], [], maps, csum, regs, cks, offset)
  | cd :: crest, oc :: orest, maps, csum, regs, cks, offset =>
      let (oc, maps, csum, regs, cks, offset) :=
        InitOatCodeClassDef env di dex cd oc maps csum regs cks offset
      let csum := csum ++ OatClass.checksumChunks oc
      let (done, pend, maps, csum, regs, cks, offset) :=
        InitOatCodeDexFile env di dex crest orest maps csum regs cks offset
      (oc :: done, pend, maps, csum, regs, cks, offset)

/-- oat_writer.cc:165-173: `OatWriter::InitOatCodeDexFiles`. -/
def InitOatCodeDexFiles (env : Env) :
    List (Nat × DexFileRec) → List OatClass → DedupMaps → List Chunk →
    List RegistryUpdate → List Nat → Nat →
    List OatClass × DedupMaps × List Chunk × List RegistryUpdate ×
      List Nat × Nat
  | [], pend, maps, csum, regs, cks, offset =>
      (pend, maps, csum, regs, cks, offset)
  | (di, dex) :: drest, ocs, maps, csum, regs, cks, offset =>
      let (done, pend, maps, csum, regs, cks, offset) :=
        InitOatCodeDexFile env di dex dex.classDefs ocs
          maps csum regs cks offset
      let (ocs, maps, csum, regs, cks, offset) :=
        InitOatCodeDexFiles env drest pend maps csum regs cks offset
      (done ++ ocs, maps, csum, regs, cks, offset)

/-! ### Pass F, phases 1-5 -/

/-- oat_writer.cc:77-87: `OatWriter::InitOatHeader`: header size plus the
image-location string length. -/
def InitOatHeader (env : Env) : Nat :=
  sizeOfOatHeader + env.imageFileLocation.length

/-- oat_writer.cc:89-99: `OatWriter::InitOatDexFiles`: create the OatDexFile
records and advance by their sizes.  Returns (records, checkpoints, offset). -/
def InitOatDexFiles : List DexFileRec → Nat →
    List OatDexFile × List Nat × Nat
  | [], offset => ([], [], offset)
  | dex :: rest, offset =>
      let r := OatDexFile_new dex
      let offset := offset + OatDexFile.byteSize r
      let (rs, cks, offOut) := InitOatDexFiles rest offset
      (r :: rs, offset :: cks, offOut)

/-- oat_writer.cc:101-114: `OatWriter::InitDexFiles`: 4-align, record the
embedded-DEX offset in each OatDexFile record, advance by the dex header's
`file_size_`. -/
def InitDexFiles : List DexFileRec → List OatDexFile → Nat →
    List OatDexFile × List Nat × Nat
  | [], _, offset => ([], [], offset)
  | _ :: _, [], offset => ([], [], offset)
  | dex :: drest, r :: rrest, offset =>
      let offset := roundUp offset 4
      let r := { r with dex_file_offset_ := offset }
      let offset := offset + dex.fileSize
      let (rs, cks, offOut) := InitDexFiles drest rrest offset
      (r :: rs, offset :: cks, offOut)

/-- The class_def loop of oat_writer.cc:121-149: per class def, record the
table offset, determine the class status (compiled-class status, else error
when the verifier rejected the class, else not-ready), create the OatClass
pre-sized with zeroed records, and advance by its size.  Returns
(`methods_offsets_` entries, OatClass records, checkpoints, offset). -/
def InitOatClassesLoop (env : Env) (di : Nat) :
    List (Nat × ClassDefRec) → Nat →
    List Nat × List OatClass × List Nat × Nat
  | [], offset => ([], [], [], offset)
  | (ci, cd) :: rest, offset =>
      let num_methods :=
        match cd.classData with
        | none => 0  -- an empty class, such as a marker interface
        | some data => data.directMethods.length + data.virtualMethods.length
      let status :=
        match env.compiler.getCompiledClass di ci with
        | some s => s
        | none =>
            if env.isClassRejected di ci then ClassStatus.kStatusError
            else ClassStatus.kStatusNotReady
      let oc : OatClass := ⟨status, List.replicate num_methods .zero⟩
      let offset' := offset + OatClass.byteSize oc
      let (moffs, ocs, cks, offOut) := InitOatClassesLoop env di rest offset'
      (offset :: moffs, oc :: ocs, offset' :: cks, offOut)

/-- oat_writer.cc:116-153: `OatWriter::InitOatClasses`: run the class_def
loop per dex (the computed table offsets replace the pre-sized
`methods_offsets_`, which the source fills at exactly these indices), then
fold the dex's OatDexFile record into the header checksum. -/
def InitOatClasses (env : Env) :
    List (Nat × DexFileRec) → List OatDexFile → Nat →
    List OatDexFile × List OatClass × List Chunk × List Nat × Nat
  | [], _, offset => ([], [], [], [], offset)
  | _ :: _, [], offset => ([], [], [], [], offset)
  | (di, dex) :: drest, r :: rrest, offset =>
      let (moffs, ocs, cks, offset) :=
        InitOatClassesLoop env di (idxFrom 0 dex.classDefs) offset
      let r := { r with methods_offsets_ := moffs }
      let (rs, ocs2, csum2, cks2, offOut) :=
        InitOatClasses env drest rrest offset
      (r :: rs, ocs ++ ocs2, OatDexFile.checksumChunks r ++ csum2,
       cks ++ cks2, offOut)

/-- oat_writer.cc:155-163: `OatWriter::InitOatCode`: page-align, record the
executable offset and the padding length.  Returns (executable offset,
padding, offset). -/
def InitOatCode (offset : Nat) : Nat × Nat × Nat :=
  let old_offset := offset
  let offset := roundUp offset kPageSize
  (offset, offset - old_offset, offset)

/-- Everything pass F (the `OatWriter` constructor, oat_writer.cc:48-69)
produces: the frozen records, dedup tables, executable offset and padding,
plus the instrumentation traces (checksum updates, registry updates,
checkpoints) and the final planned offset. -/
structure OatWriterS where
  oat_dex_files_ : List OatDexFile
  oat_classes_ : List OatClass
  code_offsets_ : List (Nat × Nat)
  mapping_table_offsets_ : List (Nat × Nat)
  vmap_table_offsets_ : List (Nat × Nat)
  gc_map_offsets_ : List (Nat × Nat)
  executable_offset_ : Nat
  executable_offset_padding_length_ : Nat
  csum : List Chunk
  regUpdates : List RegistryUpdate
  ckpts : List Nat
  finalOffset : Nat
deriving Repr

/-- oat_writer.cc:48-69: the `OatWriter` constructor — pass F: the six
phases in order, seeded at 0 (phase 1 returns the absolute offset). -/
def OatWriter_new (env : Env) : OatWriterS :=
  let offset := InitOatHeader env
  let cks0 : List Nat := [sizeOfOatHeader, offset]
  let (rs, cks1, offset) := InitOatDexFiles env.dexFiles offset
  let (rs, cks2, offset) := InitDexFiles env.dexFiles rs offset
  let (rs, ocs, csum4, cks3, offset) :=
    InitOatClasses env (idxFrom 0 env.dexFiles) rs offset
  let (executable_offset, pad, offset) := InitOatCode offset
  let (ocs, maps, csum6, regs, cks6, offset) :=
    InitOatCodeDexFiles env (idxFrom 0 env.dexFiles) ocs ⟨[], [], [], []⟩
      [] [] [] offset
  { oat_dex_files_ := rs
  , oat_classes_ := ocs
  , code_offsets_ := maps.code
  , mapping_table_offsets_ := maps.mapping
  , vmap_table_offsets_ := maps.vmap
  , gc_map_offsets_ := maps.gcMap
  , executable_offset_ := executable_offset
  , executable_offset_padding_length_ := pad
  , csum := csum4 ++ csum6
  , regUpdates := regs
  , ckpts := cks0 ++ cks1 ++ cks2 ++ cks3 ++ [executable_offset] ++ cks6
  , finalOffset := offset }

/-! ### Pass G: the output stream model -/

/-- The output stream's fault model: whether the k-th `WriteFully` call
fails, and where the k-th `Seek` actually lands (`none` = at its target).
The `honest` oracle models fault-free I/O on a regular file. -/
structure Oracle where
  writeFails : Nat → Bool
  seekLand : Nat → Option Nat

def honest : Oracle := ⟨fun _ => false, fun _ => none⟩

/-- The output stream plus instrumentation: position, the successfully
written chunks in order, the outcome of every write and of every seek check
(`events`), call counters for the oracle, and pass G's checkpoint list. -/
structure GS where
  pos : Nat
  writes : List Chunk
  events : List Bool
  wIdx : Nat
  sIdx : Nat
  ckpts : List Nat
deriving Repr

def GS.init : GS := ⟨0, [], [], 0, 0, []⟩

/-- `OutputStream::WriteFully`: on success the chunk is stored at the
current position and the position advances by its byte length. -/
def writeFully (ora : Oracle) (gs : GS) (c : Chunk) : Bool × GS :=
  if ora.writeFails gs.wIdx then
    (false, { gs with wIdx := gs.wIdx + 1, events := gs.events ++ [false] })
  else
    (true, { gs with pos := gs.pos + c.byteLen,
                     writes := gs.writes ++ [c],
                     wIdx := gs.wIdx + 1,
                     events := gs.events ++ [true] })

/-- `OutputStream::Seek` to an absolute target (`kSeekSet` passes the target
directly, `kSeekCurrent` passes position + delta) followed by the source's
check of the returned position against the expected offset; the check's
outcome is recorded as an event. -/
def seekChecked (ora : Oracle) (gs : GS) (target expected : Nat) :
    Bool × GS :=
  let landed := (ora.seekLand gs.sIdx).getD target
  let ok := landed == expected
  (ok, { gs with pos := landed, sIdx := gs.sIdx + 1,
                 events := gs.events ++ [ok] })

/-- Append a pass-G checkpoint (the current stream position). -/
def GS.ck (gs : GS) : GS := { gs with ckpts := gs.ckpts ++ [gs.pos] }

/-! ### Pass G, code phase building blocks -/

/-- The alignment seek shared by oat_writer.cc:585-596 and 695-707: when the
aligned offset differs from the cursor, seek forward by the difference; the
landing position must equal the aligned offset. -/
def wAlignCode (ora : Oracle) (al : Nat) (gs : GS) (c : Nat) :
    Bool × GS × Nat :=
  let aligned := roundUp c al
  let adelta := aligned - c
  if adelta != 0 then
    let (ok, gs) := seekChecked ora gs (gs.pos + adelta) aligned
    (ok, gs, aligned)
  else (true, gs, c)

/-- oat_writer.cc:584-621 (method code) and 694-733 (invoke stub): seek
forward to the code alignment (checking the landing position), then the
dedup branch: a blob found in the (final) code map whose freshly recomputed
tentative offset differs from the recorded field was deduplicated and emits
nothing; otherwise the u32 size prefix and the payload are written. -/
def wCodeLikePart (ora : Oracle) (al : Nat) (blob : Blob) (delta : Nat)
    (mF : List (Nat × Nat)) (recorded : Nat) (gs : GS) (c : Nat) :
    Option Nat × GS :=
  let (ok, gs, c) := wAlignCode ora al gs c
  if !ok then (none, gs) else
  let codeSize := blob.data.length
  let offset := c + 4 + delta
  if (findOff mF blob.id).isSome && (offset != recorded) then
    (some c, gs)  -- deduplicated: nothing is emitted
  else
    let (ok, gs) := writeFully ora gs ⟨.sizeT, .u32 codeSize⟩
    if !ok then (none, gs) else
    let c := c + 4
    let (ok, gs) := writeFully ora gs ⟨.blobT, .u8s blob.data⟩
    if !ok then (none, gs) else
    (some (c + codeSize), gs)

/-- oat_writer.cc:623-643: the mapping-table part of `WriteCodeMethod`. -/
def wMappingTablePart (ora : Oracle) (blob : Blob)
    (mF : List (Nat × Nat)) (recorded : Nat) (gs : GS) (c : Nat) :
    Option Nat × GS :=
  let size := 4 * blob.data.length
  if (findOff mF blob.id).isSome && (c != recorded) then
    (some c, gs)
  else
    let (ok, gs) := writeFully ora gs ⟨.blobT, .u32s blob.data⟩
    if !ok then (none, gs) else (some (c + size), gs)

/-- oat_writer.cc:646-666: the vmap-table part of `WriteCodeMethod`. -/
def wVmapTablePart (ora : Oracle) (blob : Blob)
    (mF : List (Nat × Nat)) (recorded : Nat) (gs : GS) (c : Nat) :
    Option Nat × GS :=
  let size := 2 * blob.data.length
  if (findOff mF blob.id).isSome && (c != recorded) then
    (some c, gs)
  else
    let (ok, gs) := writeFully ora gs ⟨.blobT, .u16s blob.data⟩
    if !ok then (none, gs) else (some (c + size), gs)

/-- oat_writer.cc:669-690: the GC-map part of `WriteCodeMethod`. -/
def wGcMapPart (ora : Oracle) (blob : Blob)
    (mF : List (Nat × Nat)) (recorded : Nat) (gs : GS) (c : Nat) :
    Option Nat × GS :=
  let size := blob.data.length
  if (findOff mF blob.id).isSome && (c != recorded) then
    (some c, gs)
  else
    let (ok, gs) := writeFully ora gs ⟨.blobT, .u8s blob.data⟩
    if !ok then (none, gs) else (some (c + size), gs)

/-- oat_writer.cc:574-786: `OatWriter::WriteCodeMethod`.  Reads this
method's frozen `OatMethodOffsets` record (passed in positionally) and the
final dedup maps from pass F; returns the updated cursor, or 0 on failure.
A pass-G checkpoint is appended after each part that runs (the source's
`DCHECK_CODE_OFFSET` points). -/
def WriteCodeMethod (env : Env) (fs : OatWriterS) (ora : Oracle)
    (di : Nat) (dex : DexFileRec) (is_static : Bool) (methodIdx : Nat)
    (mrec : OatMethodOffsets) (gs : GS) (c : Nat) : Nat × GS :=
  let al := env.compiler.isaAlignment
  let (co, gs) :=
    match env.compiler.getCompiledMethod di methodIdx with
    | none => (some c, gs)  -- ie. not an abstract method: no code section
    | some cm =>
        match wCodeLikePart ora al cm.code cm.codeDelta fs.code_offsets_
            mrec.code_offset_ gs c with
        | (none, gs) => (none, gs)
        | (some c, gs) =>
        let gs := gs.ck
        match wMappingTablePart ora cm.mappingTable fs.mapping_table_offsets_
            mrec.mapping_table_offset_ gs c with
        | (none, gs) => (none, gs)
        | (some c, gs) =>
        let gs := gs.ck
        match wVmapTablePart ora cm.vmapTable fs.vmap_table_offsets_
            mrec.vmap_table_offset_ gs c with
        | (none, gs) => (none, gs)
        | (some c, gs) =>
        let gs := gs.ck
        match wGcMapPart ora cm.gcMap fs.gc_map_offsets_
            mrec.gc_map_offset_ gs c with
        | (none, gs) => (none, gs)
        | (some c, gs) => (some c, gs.ck)
  match co with
  | none => (0, gs)
  | some c =>
      let shorty := dex.methodShorty methodIdx
      match env.compiler.findInvokeStub is_static shorty with
      | none => (c, gs)
      | some stub =>
          match wCodeLikePart ora al stub.code stub.codeDelta
              fs.code_offsets_ mrec.invoke_stub_offset_ gs c with
          | (none, gs) => (0, gs)
          | (some c, gs) => (c, gs.ck)

/-- The method loops of oat_writer.cc:551-570: direct methods pass
`is_static` from the access flags, virtual methods pass `false`; the frozen
per-method records are consumed positionally (the source indexes
`method_offsets_` with the same running `class_def_method_index`).
A record/method length mismatch cannot arise (the constructor checked it);
that dead branch fails. -/
def WriteCodeMethods (env : Env) (fs : OatWriterS) (ora : Oracle)
    (di : Nat) (dex : DexFileRec) :
    List (Bool × MethodDef) → List OatMethodOffsets → GS → Nat → Nat × GS
  | [], _, gs, c => (c, gs)
  | _ :: _, [], gs, _ => (0, gs)
  | (isDirect, m) :: rest, mrec :: mrest, gs, c =>
      let is_static :=
        if isDirect then (m.accessFlags &&& kAccStatic) != 0 else false
      let (c, gs) :=
        WriteCodeMethod env fs ora di dex is_static m.methodIdx mrec gs c
      if c == 0 then (0, gs)
      else WriteCodeMethods env fs ora di dex rest mrest gs c

/-- oat_writer.cc:533-572: `OatWriter::WriteCodeClassDef`: a class with no
class data is an early return; otherwise run the method loops against this
class's frozen record. -/
def WriteCodeClassDef (env : Env) (fs : OatWriterS) (ora : Oracle)
    (di : Nat) (dex : DexFileRec) (cd : ClassDefRec) (oc : OatClass)
    (gs : GS) (c : Nat) : Nat × GS :=
  match cd.classData with
  | none => (c, gs)  -- ie. an empty class such as a marker interface
  | some data =>
      WriteCodeMethods env fs ora di dex (taggedMethods data)
        oc.method_offsets_ gs c

/-- oat_writer.cc:514-525: `OatWriter::WriteCodeDexFile`: every class def of
one dex, consuming the frozen `oat_classes_` positionally with the running
`oat_class_index`.  Returns the unconsumed class tail as well. -/
def WriteCodeDexFile (env : Env) (fs : OatWriterS) (ora : Oracle)
    (di : Nat) (dex : DexFileRec) :
    List ClassDefRec → List OatClass → GS → Nat →
    Nat × List OatClass × GS
  | [], pend, gs, c => (c, pend, gs)
  | _ :: _, [], gs, _ => (0, [], gs)
  | cd :: crest, oc :: orest, gs, c =>
      let (c, gs) := WriteCodeClassDef env fs ora di dex cd oc gs c
      if c == 0 then (0, orest, gs)
      else WriteCodeDexFile env fs ora di dex crest orest gs c

/-- oat_writer.cc:501-512: `OatWriter::WriteCodeDexFiles`. -/
def WriteCodeDexFiles (env : Env) (fs : OatWriterS) (ora : Oracle) :
    List (Nat × DexFileRec) → List OatClass → GS → Nat → Nat × GS
  | [], _, gs, c => (c, gs)
  | (di, dex) :: drest, ocs, gs, c =>
      let (c, pend, gs) :=
        WriteCodeDexFile env fs ora di dex dex.classDefs ocs gs c
      if c == 0 then (0, gs)
      else WriteCodeDexFiles env fs ora drest pend gs c

/-! ### Pass G, tables and top level -/

/-- oat_writer.cc:814-837: `OatDexFile::Write`: the five record fields, in
the same order `UpdateChecksum` folds them. -/
def OatDexFile_Write (ora : Oracle) (r : OatDexFile) (gs : GS) :
    Bool × GS :=
  let (ok, gs) := writeFully ora gs ⟨.dexRecT, .u32 r.dex_file_location_size_⟩
  if !ok then (false, gs) else
  let (ok, gs) := writeFully ora gs ⟨.dexRecT, .u8s r.dex_file_location_data_⟩
  if !ok then (false, gs) else
  let (ok, gs) := writeFully ora gs
    ⟨.dexRecT, .u32 r.dex_file_location_checksum_⟩
  if !ok then (false, gs) else
  let (ok, gs) := writeFully ora gs ⟨.dexRecT, .u32 r.dex_file_offset_⟩
  if !ok then (false, gs) else
  let (ok, gs) := writeFully ora gs ⟨.dexRecT, .u32s r.methods_offsets_⟩
  (ok, gs)

/-- oat_writer.cc:855-866: `OatClass::Write`: status, then the packed
method-offsets array. -/
def OatClass_Write (ora : Oracle) (oc : OatClass) (gs : GS) : Bool × GS :=
  let (ok, gs) := writeFully ora gs ⟨.classRecT, .cst oc.status_⟩
  if !ok then (false, gs) else
  let (ok, gs) := writeFully ora gs ⟨.classRecT, .mOffs oc.method_offsets_⟩
  (ok, gs)

/-- The first loop of `WriteTables` (oat_writer.cc:459-464): every
OatDexFile record, with a checkpoint after each. -/
def writeDexRecs (ora : Oracle) : List OatDexFile → GS → Bool × GS
  | [], gs => (true, gs)
  | r :: rest, gs =>
      let (ok, gs) := OatDexFile_Write ora r gs
      if !ok then (false, gs) else writeDexRecs ora rest gs.ck

/-- The second loop of `WriteTables` (oat_writer.cc:465-479): seek to each
recorded `dex_file_offset_` (the landing position must equal it), then write
the embedded DEX payload; checkpoint after each payload. -/
def writeDexPayloads (ora : Oracle) :
    List DexFileRec → List OatDexFile → GS → Bool × GS
  | [], _, gs => (true, gs)
  | _ :: _, [], gs => (false, gs)
  | dex :: drest, r :: rrest, gs =>
      let (ok, gs) := seekChecked ora gs r.dex_file_offset_ r.dex_file_offset_
      if !ok then (false, gs) else
      let (ok, gs) := writeFully ora gs ⟨.payloadT, .u8s dex.payload⟩
      if !ok then (false, gs) else writeDexPayloads ora drest rrest gs.ck

/-- The third loop of `WriteTables` (oat_writer.cc:480-485): every OatClass
record, with a checkpoint after each. -/
def writeClassRecs (ora : Oracle) : List OatClass → GS → Bool × GS
  | [], gs => (true, gs)
  | oc :: rest, gs =>
      let (ok, gs) := OatClass_Write ora oc gs
      if !ok then (false, gs) else writeClassRecs ora rest gs.ck

/-- oat_writer.cc:458-487: `OatWriter::WriteTables`. -/
def WriteTables (env : Env) (fs : OatWriterS) (ora : Oracle) (gs : GS) :
    Bool × GS :=
  let (ok, gs) := writeDexRecs ora fs.oat_dex_files_ gs
  if !ok then (false, gs) else
  let (ok, gs) := writeDexPayloads ora env.dexFiles fs.oat_dex_files_ gs
  if !ok then (false, gs) else
  writeClassRecs ora fs.oat_classes_ gs

/-- oat_writer.cc:489-499: `OatWriter::WriteCode`: seek forward over the
executable-gap padding; the landing position must equal the executable
offset, which seeds the code-phase cursor.  Returns 0 on failure. -/
def WriteCode (fs : OatWriterS) (ora : Oracle) (gs : GS) : Nat × GS :=
  let code_offset := fs.executable_offset_
  let (ok, gs) := seekChecked ora gs
    (gs.pos + fs.executable_offset_padding_length_) code_offset
  if !ok then (0, gs) else (code_offset, gs.ck)

/-- oat_writer.cc:427-456: `OatWriter::Write` — pass G: header image,
image-location string, tables, executable gap, code. -/
def Write (env : Env) (fs : OatWriterS) (ora : Oracle) : Bool × GS :=
  let gs := GS.init
  let (ok, gs) := writeFully ora gs ⟨.hdrT, .hdr fs.executable_offset_⟩
  if !ok then (false, gs) else
  let gs := gs.ck
  let (ok, gs) := writeFully ora gs ⟨.locT, .u8s env.imageFileLocation⟩
  if !ok then (false, gs) else
  let gs := gs.ck
  let (ok, gs) := WriteTables env fs ora gs
  if !ok then (false, gs) else
  let (code_offset, gs) := WriteCode fs ora gs
  if code_offset == 0 then (false, gs) else
  let (code_offset, gs) :=
    WriteCodeDexFiles env fs ora (idxFrom 0 env.dexFiles) fs.oat_classes_ gs
      code_offset
  if code_offset == 0 then (false, gs) else (true, gs)

/-- oat_writer.cc:34-46: `OatWriter::Create`: construct (pass F) then write
(pass G). -/
def OatWriter_Create (env : Env) (ora : Oracle) : Bool × GS :=
  Write env (OatWriter_new env) ora

/-! ### Admissible inputs

The source's construction-time `CHECK`s abort on violated preconditions
(spec §7); the claims quantify over inputs that do not abort.  `d` is the
instruction-set code delta: `CodeDelta()` is a function of the (single,
global) target instruction set, so it is uniform across all compiled
methods and stubs of one build. -/
structure Admissible (env : Env) (d : Nat) : Prop where
  alignPos : 0 < env.compiler.isaAlignment
  payloadLen : ∀ dex ∈ env.dexFiles, dex.payload.length = dex.fileSize
  methodOk : ∀ di mi cm, env.compiler.getCompiledMethod di mi = some cm →
      cm.codeDelta = d ∧ 0 < cm.code.data.length
  stubOk : ∀ b sh st, env.compiler.findInvokeStub b sh = some st →
      st.codeDelta = d ∧ 0 < st.code.data.length

/-! ### Basic facts -/

theorem le_roundUp (n : Nat) {a : Nat} (ha : 0 < a) : n ≤ roundUp n a := by
  unfold roundUp
  have h1 := Nat.div_add_mod (n + a - 1) a
  have h2 : (n + a - 1) % a < a := Nat.mod_lt _ ha
  have h3 : ((n + a - 1) / a) * a = a * ((n + a - 1) / a) := Nat.mul_comm _ _
  omega

theorem roundUp_mod (n a : Nat) : roundUp n a % a = 0 := by
  unfold roundUp; simp [Nat.mul_mod_left]

theorem findOff_cons (k v i : Nat) (m : List (Nat × Nat)) :
    findOff ((k, v) :: m) i = if k = i then some v else findOff m i := rfl

/-- Pass F only ever inserts blob ids that are absent, so lookups are
preserved by every later state of a dedup map. -/
def MapExt (m M : List (Nat × Nat)) : Prop :=
  ∀ i o, findOff m i = some o → findOff M i = some o

theorem MapExt.self (m : List (Nat × Nat)) : MapExt m m := fun _ _ h => h

theorem MapExt.comp {a b c : List (Nat × Nat)} (h1 : MapExt a b)
    (h2 : MapExt b c) : MapExt a c := fun i o h => h2 i o (h1 i o h)

theorem MapExt.consFresh {m : List (Nat × Nat)} {k v : Nat}
    (h : findOff m k = none) : MapExt m ((k, v) :: m) := by
  intro i o hi
  rw [findOff_cons]
  split
  · next hk => rw [hk] at h; rw [h] at hi; cases hi
  · exact hi

/-- Invariant of the shared code/stub dedup map at cursor `c` with uniform
code delta `d`: every stored offset is below every future tentative
offset. -/
def CodeInv (m : List (Nat × Nat)) (c d : Nat) : Prop :=
  ∀ i o, findOff m i = some o → o < c + 4 + d

/-- Invariant of a table dedup map at cursor `c`: every stored offset is 0
(zero-length table) or below the cursor. -/
def TblInv (m : List (Nat × Nat)) (c : Nat) : Prop :=
  ∀ i o, findOff m i = some o → o = 0 ∨ o < c

theorem CodeInv.widen {m : List (Nat × Nat)} {c c' d : Nat}
    (h : CodeInv m c d) (hc : c ≤ c') : CodeInv m c' d :=
  fun i o hi => lt_of_lt_of_le (h i o hi) (by omega)

theorem TblInv.relax {m : List (Nat × Nat)} {c c' : Nat}
    (h : TblInv m c) (hc : c ≤ c') : TblInv m c' :=
  fun i o hi => (h i o hi).imp id (fun h' => lt_of_lt_of_le h' hc)

/-- What pass F folds into the checksum for one code-like blob. -/
def fBlobChunksCode (blob : Blob) (m : List (Nat × Nat)) : List Chunk :=
  match findOff m blob.id with
  | some _ => []
  | none => [⟨.blobT, .u8s blob.data⟩]

/-- What pass G emits for one code-like blob. -/
def wBlobChunksCode (blob : Blob) (m : List (Nat × Nat)) : List Chunk :=
  match findOff m blob.id with
  | some _ => []
  | none => [⟨.sizeT, .u32 blob.data.length⟩, ⟨.blobT, .u8s blob.data⟩]

/-- What pass F folds into the checksum for one table blob. -/
def fBlobChunksTbl (mk : List Nat → CData) (blob : Blob)
    (m : List (Nat × Nat)) : List Chunk :=
  match findOff m blob.id with
  | some _ => []
  | none => [⟨.blobT, mk blob.data⟩]

/-- What pass G emits for one table blob. -/
def wBlobChunksTbl (mk : List Nat → CData) (blob : Blob)
    (m : List (Nat × Nat)) : List Chunk :=
  match findOff m blob.id with
  | some _ => []
  | none =>
      if blob.data.length = 0 then [] else [⟨.blobT, mk blob.data⟩]

@[simp] theorem ck_pos (gs : GS) : gs.ck.pos = gs.pos := rfl
@[simp] theorem ck_writes (gs : GS) : gs.ck.writes = gs.writes := rfl
@[simp] theorem ck_ckpts (gs : GS) : gs.ck.ckpts = gs.ckpts ++ [gs.pos] := rfl

theorem writeFully_honest (gs : GS) (c : Chunk) :
    writeFully honest gs c =
      (true, ⟨gs.pos + c.byteLen, gs.writes ++ [c], gs.events ++ [true],
              gs.wIdx + 1, gs.sIdx, gs.ckpts⟩) := rfl

theorem seekChecked_honest (gs : GS) (t e : Nat) :
    seekChecked honest gs t e =
      ((t == e), ⟨t, gs.writes, gs.events ++ [t == e],
                  gs.wIdx, gs.sIdx + 1, gs.ckpts⟩) := rfl

/-! ### Per-part simulation: pass G replays the plan of pass F -/

theorem wAlignCode_honest (al : Nat) (gs : GS) (c : Nat) (hal : 0 < al)
    (hpos : gs.pos = c) :
    ∃ gs', wAlignCode honest al gs c = (true, gs', roundUp c al) ∧
      gs'.pos = roundUp c al ∧ gs'.writes = gs.writes ∧
      gs'.ckpts = gs.ckpts := by
  have hA : c ≤ roundUp c al := le_roundUp c hal
  unfold wAlignCode
  by_cases hz : roundUp c al - c = 0
  · have hAc : roundUp c al = c := by omega
    refine ⟨gs, ?_, ?_, rfl, rfl⟩
    · simp [hAc, hz]
    · omega
  · have hland : gs.pos + (roundUp c al - c) = roundUp c al := by omega
    refine ⟨⟨roundUp c al, gs.writes, gs.events ++ [true], gs.wIdx,
             gs.sIdx + 1, gs.ckpts⟩, ?_, rfl, rfl, rfl⟩
    simp [seekChecked_honest, hz, hland, bne_iff_ne]

theorem wCodeLikePart_sim (al : Nat) (blob : Blob) (d : Nat)
    (m : List (Nat × Nat)) (csum : List Chunk) (c : Nat)
    (rOff : Nat) (m' : List (Nat × Nat)) (csum' : List Chunk) (off' : Nat)
    (hal : 0 < al) (hinv : CodeInv m c d)
    (heq : codeLikePart al blob d m csum c = (rOff, m', csum', off')) :
    csum' = csum ++ fBlobChunksCode blob m ∧
    MapExt m m' ∧ CodeInv m' off' d ∧ c ≤ off' ∧
    ∀ M gs, MapExt m' M → gs.pos = c →
      ∃ gs', wCodeLikePart honest al blob d M rOff gs c = (some off', gs') ∧
        gs'.pos = off' ∧
        gs'.writes = gs.writes ++ wBlobChunksCode blob m ∧
        gs'.ckpts = gs.ckpts := by
  have hA : c ≤ roundUp c al := le_roundUp c hal
  unfold codeLikePart at heq
  unfold fBlobChunksCode wBlobChunksCode
  rcases hf : findOff m blob.id with _ | stored
  · -- fresh blob: inserted, size prefix plus payload planned and emitted
    simp only [hf, Prod.mk.injEq] at heq ⊢
    obtain ⟨h1, h2, h3, h4⟩ := heq
    subst h1 h2 h3 h4
    refine ⟨rfl, MapExt.consFresh hf, ?_, by omega, ?_⟩
    · intro i o hi
      rw [findOff_cons] at hi
      split at hi
      · cases hi; omega
      · have := hinv i o hi; omega
    · intro M gs hext hpos
      have hMf : findOff M blob.id = some (roundUp c al + 4 + d) := by
        apply hext
        rw [findOff_cons]
        simp
      obtain ⟨gs1, hpre, hp1, hw1, hk1⟩ := wAlignCode_honest al gs c hal hpos
      unfold wCodeLikePart
      rw [hpre]
      simp only [Bool.not_true, Bool.false_eq_true, if_false, hMf,
        Option.isSome_some, Bool.true_and, bne_self_eq_false,
        writeFully_honest]
      refine ⟨_, rfl, ?_, ?_, ?_⟩ <;>
        simp [Chunk.byteLen, CData.byteLen, hp1, hw1, hk1]
  · -- duplicate blob: the stored offset is reused, nothing is emitted
    simp only [hf, Prod.mk.injEq] at heq ⊢
    obtain ⟨h1, h2, h3, h4⟩ := heq
    subst h1 h2 h3 h4
    refine ⟨by simp, MapExt.self m, CodeInv.widen hinv hA, hA, ?_⟩
    intro M gs hext hpos
    have hMf : findOff M blob.id = some stored := hext _ _ hf
    have hne : (roundUp c al + 4 + d != stored) = true := by
      have := hinv _ _ hf
      simp only [bne_iff_ne, ne_eq]
      omega
    obtain ⟨gs1, hpre, hp1, hw1, hk1⟩ := wAlignCode_honest al gs c hal hpos
    unfold wCodeLikePart
    rw [hpre]
    simp only [Bool.not_true, Bool.false_eq_true, if_false, hMf,
      Option.isSome_some, Bool.true_and, hne, if_true]
    exact ⟨gs1, by simp, hp1, by simp [hw1], hk1⟩

theorem wMappingTablePart_sim (blob : Blob)
    (m : List (Nat × Nat)) (csum : List Chunk) (c : Nat)
    (rOff : Nat) (m' : List (Nat × Nat)) (csum' : List Chunk) (off' : Nat)
    (hc : 0 < c) (hinv : TblInv m c)
    (heq : mappingTablePart blob m csum c = (rOff, m', csum', off')) :
    csum' = csum ++ fBlobChunksTbl .u32s blob m ∧
    MapExt m m' ∧ TblInv m' off' ∧ c ≤ off' ∧
    ∀ M gs, MapExt m' M → gs.pos = c →
      ∃ gs', wMappingTablePart honest blob M rOff gs c = (some off', gs') ∧
        gs'.pos = off' ∧
        gs'.writes = gs.writes ++ wBlobChunksTbl .u32s blob m ∧
        gs'.ckpts = gs.ckpts := by
  unfold mappingTablePart at heq
  unfold fBlobChunksTbl wBlobChunksTbl
  rcases hf : findOff m blob.id with _ | stored
  · simp only [hf, Prod.mk.injEq] at heq ⊢
    obtain ⟨h1, h2, h3, h4⟩ := heq
    subst h1 h2 h3 h4
    by_cases hn : blob.data.length = 0
    · have hs : 4 * blob.data.length = 0 := by omega
      refine ⟨by simp [hs], MapExt.consFresh hf, ?_, by omega, ?_⟩
      · intro i o hi
        rw [findOff_cons] at hi
        split at hi
        · cases hi; simp [hs]
        · exact (hinv i o hi).imp id (by omega)
      · intro M gs hext hpos
        have hMf : findOff M blob.id = some 0 := by
          have := hext blob.id (if 4 * blob.data.length = 0 then 0 else c)
            (by rw [findOff_cons]; simp)
          simpa [hs] using this
        have hne : (c != (if 4 * blob.data.length = 0 then 0 else c)) = true := by
          simp [hs, bne_iff_ne]; omega
        unfold wMappingTablePart
        simp only [hMf, Option.isSome_some, Bool.true_and, hne, if_true]
        exact ⟨gs, by simp [hn], by simp [hpos, hn], by simp [hn], rfl⟩
    · have hs : ¬(4 * blob.data.length = 0) := by omega
      refine ⟨by simp [hs], MapExt.consFresh hf, ?_, by omega, ?_⟩
      · intro i o hi
        rw [findOff_cons] at hi
        split at hi
        · cases hi; simp [hs]; omega
        · exact (hinv i o hi).imp id (by omega)
      · intro M gs hext hpos
        have hMf : findOff M blob.id = some c := by
          have := hext blob.id (if 4 * blob.data.length = 0 then 0 else c)
            (by rw [findOff_cons]; simp)
          simpa [hs] using this
        unfold wMappingTablePart
        simp only [hMf, Option.isSome_some, Bool.true_and, hs, if_neg,
          if_false, bne_self_eq_false, Bool.false_eq_true,
          writeFully_honest]
        refine ⟨_, rfl, ?_, ?_, ?_⟩ <;>
          simp [Chunk.byteLen, CData.byteLen, hpos, hn]
  · simp only [hf, Prod.mk.injEq] at heq ⊢
    obtain ⟨h1, h2, h3, h4⟩ := heq
    subst h1 h2 h3 h4
    refine ⟨by simp, MapExt.self m, hinv, le_refl c, ?_⟩
    intro M gs hext hpos
    have hMf : findOff M blob.id = some stored := hext _ _ hf
    have hne : (c != stored) = true := by
      rcases hinv _ _ hf with h | h <;> (simp [bne_iff_ne]; omega)
    unfold wMappingTablePart
    simp only [hMf, Option.isSome_some, Bool.true_and, hne, if_true]
    exact ⟨gs, rfl, hpos, by simp, rfl⟩

theorem wVmapTablePart_sim (blob : Blob)
    (m : List (Nat × Nat)) (csum : List Chunk) (c : Nat)
    (rOff : Nat) (m' : List (Nat × Nat)) (csum' : List Chunk) (off' : Nat)
    (hc : 0 < c) (hinv : TblInv m c)
    (heq : vmapTablePart blob m csum c = (rOff, m', csum', off')) :
    csum' = csum ++ fBlobChunksTbl .u16s blob m ∧
    MapExt m m' ∧ TblInv m' off' ∧ c ≤ off' ∧
    ∀ M gs, MapExt m' M → gs.pos = c →
      ∃ gs', wVmapTablePart honest blob M rOff gs c = (some off', gs') ∧
        gs'.pos = off' ∧
        gs'.writes = gs.writes ++ wBlobChunksTbl .u16s blob m ∧
        gs'.ckpts = gs.ckpts := by
  unfold vmapTablePart at heq
  unfold fBlobChunksTbl wBlobChunksTbl
  rcases hf : findOff m blob.id with _ | stored
  · simp only [hf, Prod.mk.injEq] at heq ⊢
    obtain ⟨h1, h2, h3, h4⟩ := heq
    subst h1 h2 h3 h4
    by_cases hn : blob.data.length = 0
    · have hs : 2 * blob.data.length = 0 := by omega
      refine ⟨by simp [hs], MapExt.consFresh hf, ?_, by omega, ?_⟩
      · intro i o hi
        rw [findOff_cons] at hi
        split at hi
        · cases hi; simp [hs]
        · exact (hinv i o hi).imp id (by omega)
      · intro M gs hext hpos
        have hMf : findOff M blob.id = some 0 := by
          have := hext blob.id (if 2 * blob.data.length = 0 then 0 else c)
            (by rw [findOff_cons]; simp)
          simpa [hs] using this
        have hne : (c != (if 2 * blob.data.length = 0 then 0 else c)) = true := by
          simp [hs, bne_iff_ne]; omega
        unfold wVmapTablePart
        simp only [hMf, Option.isSome_some, Bool.true_and, hne, if_true]
        exact ⟨gs, by simp [hn], by simp [hpos, hn], by simp [hn], rfl⟩
    · have hs : ¬(2 * blob.data.length = 0) := by omega
      refine ⟨by simp [hs], MapExt.consFresh hf, ?_, by omega, ?_⟩
      · intro i o hi
        rw [findOff_cons] at hi
        split at hi
        · cases hi; simp [hs]; omega
        · exact (hinv i o hi).imp id (by omega)
      · intro M gs hext hpos
        have hMf : findOff M blob.id = some c := by
          have := hext blob.id (if 2 * blob.data.length = 0 then 0 else c)
            (by rw [findOff_cons]; simp)
          simpa [hs] using this
        unfold wVmapTablePart
        simp only [hMf, Option.isSome_some, Bool.true_and, hs, if_neg,
          if_false, bne_self_eq_false, Bool.false_eq_true,
          writeFully_honest]
        refine ⟨_, rfl, ?_, ?_, ?_⟩ <;>
          simp [Chunk.byteLen, CData.byteLen, hpos, hn]
  · simp only [hf, Prod.mk.injEq] at heq ⊢
    obtain ⟨h1, h2, h3, h4⟩ := heq
    subst h1 h2 h3 h4
    refine ⟨by simp, MapExt.self m, hinv, le_refl c, ?_⟩
    intro M gs hext hpos
    have hMf : findOff M blob.id = some stored := hext _ _ hf
    have hne : (c != stored) = true := by
      rcases hinv _ _ hf with h | h <;> (simp [bne_iff_ne]; omega)
    unfold wVmapTablePart
    simp only [hMf, Option.isSome_some, Bool.true_and, hne, if_true]
    exact ⟨gs, rfl, hpos, by simp, rfl⟩

theorem wGcMapPart_sim (blob : Blob)
    (m : List (Nat × Nat)) (csum : List Chunk) (c : Nat)
    (rOff : Nat) (m' : List (Nat × Nat)) (csum' : List Chunk) (off' : Nat)
    (hc : 0 < c) (hinv : TblInv m c)
    (heq : gcMapPart blob m csum c = (rOff, m', csum', off')) :
    csum' = csum ++ fBlobChunksTbl .u8s blob m ∧
    MapExt m m' ∧ TblInv m' off' ∧ c ≤ off' ∧
    ∀ M gs, MapExt m' M → gs.pos = c →
      ∃ gs', wGcMapPart honest blob M rOff gs c = (some off', gs') ∧
        gs'.pos = off' ∧
        gs'.writes = gs.writes ++ wBlobChunksTbl .u8s blob m ∧
        gs'.ckpts = gs.ckpts := by
  unfold gcMapPart at heq
  unfold fBlobChunksTbl wBlobChunksTbl
  rcases hf : findOff m blob.id with _ | stored
  · simp only [hf, Prod.mk.injEq] at heq ⊢
    obtain ⟨h1, h2, h3, h4⟩ := heq
    subst h1 h2 h3 h4
    by_cases hn : blob.data.length = 0
    · refine ⟨by simp [hn], MapExt.consFresh hf, ?_, by omega, ?_⟩
      · intro i o hi
        rw [findOff_cons] at hi
        split at hi
        · cases hi; simp [hn]
        · exact (hinv i o hi).imp id (by omega)
      · intro M gs hext hpos
        have hMf : findOff M blob.id = some 0 := by
          have := hext blob.id (if blob.data.length = 0 then 0 else c)
            (by rw [findOff_cons]; simp)
          simpa [hn] using this
        have hne : (c != (if blob.data.length = 0 then 0 else c)) = true := by
          simp [hn, bne_iff_ne]; omega
        unfold wGcMapPart
        simp only [hMf, Option.isSome_some, Bool.true_and, hne, if_true]
        exact ⟨gs, by simp [hn], by simp [hpos, hn], by simp [hn], rfl⟩
    · refine ⟨by simp [hn], MapExt.consFresh hf, ?_, by omega, ?_⟩
      · intro i o hi
        rw [findOff_cons] at hi
        split at hi
        · cases hi; simp [hn]; omega
        · exact (hinv i o hi).imp id (by omega)
      · intro M gs hext hpos
        have hMf : findOff M blob.id = some c := by
          have := hext blob.id (if blob.data.length = 0 then 0 else c)
            (by rw [findOff_cons]; simp)
          simpa [hn] using this
        unfold wGcMapPart
        simp only [hMf, Option.isSome_some, Bool.true_and, hn, if_neg,
          if_false, bne_self_eq_false, Bool.false_eq_true,
          writeFully_honest]
        refine ⟨_, rfl, ?_, ?_, ?_⟩ <;>
          simp [Chunk.byteLen, CData.byteLen, hpos, hn]
  · simp only [hf, Prod.mk.injEq] at heq ⊢
    obtain ⟨h1, h2, h3, h4⟩ := heq
    subst h1 h2 h3 h4
    refine ⟨by simp, MapExt.self m, hinv, le_refl c, ?_⟩
    intro M gs hext hpos
    have hMf : findOff M blob.id = some stored := hext _ _ hf
    have hne : (c != stored) = true := by
      rcases hinv _ _ hf with h | h <;> (simp [bne_iff_ne]; omega)
    unfold wGcMapPart
    simp only [hMf, Option.isSome_some, Bool.true_and, hne, if_true]
    exact ⟨gs, rfl, hpos, by simp, rfl⟩

/-! ### Method-level simulation -/

def MapsInvD (maps : DedupMaps) (c d : Nat) : Prop :=
  CodeInv maps.code c d ∧ TblInv maps.mapping c ∧ TblInv maps.vmap c ∧
    TblInv maps.gcMap c

def MapsExt (a b : DedupMaps) : Prop :=
  MapExt a.code b.code ∧ MapExt a.mapping b.mapping ∧
    MapExt a.vmap b.vmap ∧ MapExt a.gcMap b.gcMap

theorem MapsExt.same (a : DedupMaps) : MapsExt a a :=
  ⟨MapExt.self _, MapExt.self _, MapExt.self _, MapExt.self _⟩

theorem MapsExt.chain {a b c : DedupMaps} (h1 : MapsExt a b)
    (h2 : MapsExt b c) : MapsExt a c :=
  ⟨h1.1.comp h2.1, h1.2.1.comp h2.2.1, h1.2.2.1.comp h2.2.2.1,
   h1.2.2.2.comp h2.2.2.2⟩

/-- Pass F's `GetMethodInvokeType(...) == kStatic` and pass G's access-flag
test agree, for direct and for virtual methods. -/
theorem invokeType_static (isDirect : Bool) (flags : Nat) :
    (GetMethodInvokeType isDirect flags == InvokeType.kStatic) =
      (if isDirect then (flags &&& kAccStatic) != 0 else false) := by
  unfold GetMethodInvokeType
  cases isDirect
  · rfl
  · by_cases h : (flags &&& kAccStatic) != 0
    · simp [h]; rfl
    · simp [h]; rfl

@[simp] theorem ctagBeq_self (a : CTag) : (a == a) = true := by
  cases a <;> rfl

@[simp] theorem ctag_size_blob : (CTag.sizeT == CTag.blobT) = false := rfl

@[simp] theorem ctag_blob_class :
    (CTag.blobT == CTag.classRecT) = false := rfl

@[simp] theorem ctag_size_class :
    (CTag.sizeT == CTag.classRecT) = false := rfl

@[simp] theorem ctag_class_blob :
    (CTag.classRecT == CTag.blobT) = false := rfl

@[simp] theorem isNil_u8s (bs : List Nat) :
    (CData.u8s bs).isNil = decide (bs.length = 0) := by cases bs <;> rfl

@[simp] theorem isNil_u16s (bs : List Nat) :
    (CData.u16s bs).isNil = decide (bs.length = 0) := by cases bs <;> rfl

@[simp] theorem isNil_u32s (bs : List Nat) :
    (CData.u32s bs).isNil = decide (bs.length = 0) := by cases bs <;> rfl

theorem blobFilter_code (blob : Blob) (m : List (Nat × Nat))
    (h : 0 < blob.data.length) :
    (wBlobChunksCode blob m).filter (fun ch => ch.tag == CTag.blobT) =
    (fBlobChunksCode blob m).filter (fun ch => !ch.data.isNil) := by
  unfold wBlobChunksCode fBlobChunksCode
  rcases findOff m blob.id
  · have hn : ¬(blob.data.length = 0) := by omega
    simp [hn]
  · simp

theorem blobFilter_tbl (mk : List Nat → CData) (blob : Blob)
    (m : List (Nat × Nat))
    (hmk : (mk blob.data).isNil = decide (blob.data.length = 0)) :
    (wBlobChunksTbl mk blob m).filter (fun ch => ch.tag == CTag.blobT) =
    (fBlobChunksTbl mk blob m).filter (fun ch => !ch.data.isNil) := by
  unfold wBlobChunksTbl fBlobChunksTbl
  rcases findOff m blob.id
  · by_cases h : blob.data.length = 0 <;> simp [h, hmk]
  · simp

theorem fBlobChunksCode_tags (blob : Blob) (m : List (Nat × Nat)) :
    ∀ ch ∈ fBlobChunksCode blob m, ch.tag = CTag.blobT := by
  unfold fBlobChunksCode
  rcases findOff m blob.id <;> simp

theorem wBlobChunksCode_tags (blob : Blob) (m : List (Nat × Nat)) :
    ∀ ch ∈ wBlobChunksCode blob m,
      ch.tag = CTag.sizeT ∨ ch.tag = CTag.blobT := by
  unfold wBlobChunksCode
  rcases findOff m blob.id <;> simp

theorem fBlobChunksTbl_tags (mk : List Nat → CData) (blob : Blob)
    (m : List (Nat × Nat)) :
    ∀ ch ∈ fBlobChunksTbl mk blob m, ch.tag = CTag.blobT := by
  unfold fBlobChunksTbl
  rcases findOff m blob.id <;> simp

theorem wBlobChunksTbl_tags (mk : List Nat → CData) (blob : Blob)
    (m : List (Nat × Nat)) :
    ∀ ch ∈ wBlobChunksTbl mk blob m,
      ch.tag = CTag.sizeT ∨ ch.tag = CTag.blobT := by
  unfold wBlobChunksTbl
  rcases findOff m blob.id
  · simp
  · split <;> simp

/-- One method: pass G's `WriteCodeMethod`, driven by the frozen record and
the final dedup maps, succeeds, ends at pass F's offset, appends the same
checkpoints, and emits exactly the blob payloads pass F checksummed (plus
their u32 size prefixes for code-like blobs, minus zero-length tables). -/
theorem writeCodeMethod_sim (env : Env) (d : Nat)
    (di : Nat) (dex : DexFileRec) (isDirect : Bool) (md : MethodDef)
    (maps : DedupMaps) (csum : List Chunk) (regs : List RegistryUpdate)
    (cks : List Nat) (c : Nat)
    (maps' : DedupMaps) (csum' : List Chunk) (regs' : List RegistryUpdate)
    (cks' : List Nat) (off' : Nat) (mrec : OatMethodOffsets)
    (hal : 0 < env.compiler.isaAlignment)
    (hcm : ∀ cm, env.compiler.getCompiledMethod di md.methodIdx = some cm →
        cm.codeDelta = d ∧ 0 < cm.code.data.length)
    (hstub : ∀ b sh st, env.compiler.findInvokeStub b sh = some st →
        st.codeDelta = d ∧ 0 < st.code.data.length)
    (hc : 0 < c) (hinv : MapsInvD maps c d)
    (heq : InitOatCodeMethod env di dex
        (GetMethodInvokeType isDirect md.accessFlags)
        md.methodIdx maps csum regs cks c =
        (maps', csum', regs', cks', off', mrec)) :
    ∃ Δc Δk, csum' = csum ++ Δc ∧ cks' = cks ++ Δk ∧
      (∀ ch ∈ Δc, ch.tag = CTag.blobT) ∧
      MapsExt maps maps' ∧ MapsInvD maps' off' d ∧ c ≤ off' ∧
      ∀ fs gs, MapsExt maps' ⟨fs.code_offsets_, fs.mapping_table_offsets_,
          fs.vmap_table_offsets_, fs.gc_map_offsets_⟩ → gs.pos = c →
        ∃ gs' Δw,
          WriteCodeMethod env fs honest di dex
            (if isDirect then (md.accessFlags &&& kAccStatic) != 0
             else false)
            md.methodIdx mrec gs c = (off', gs') ∧
          gs'.pos = off' ∧ gs'.writes = gs.writes ++ Δw ∧
          gs'.ckpts = gs.ckpts ++ Δk ∧
          (∀ ch ∈ Δw, ch.tag = CTag.sizeT ∨ ch.tag = CTag.blobT) ∧
          Δw.filter (fun ch => ch.tag == CTag.blobT) =
            Δc.filter (fun ch => !ch.data.isNil) := by
  obtain ⟨hicode, himap, hivmap, higc⟩ := hinv
  have hstatic := invokeType_static isDirect md.accessFlags
  unfold InitOatCodeMethod at heq
  rcases hgm : env.compiler.getCompiledMethod di md.methodIdx with _ | cm
  · -- abstract / not-compiled method: only the invoke stub can emit
    simp only [hgm] at heq
    rcases hfs : env.compiler.findInvokeStub
        (GetMethodInvokeType isDirect md.accessFlags == InvokeType.kStatic)
        (dex.methodShorty md.methodIdx) with _ | stub
    · simp only [hfs, Prod.mk.injEq] at heq
      obtain ⟨h1, h2, h3, h4, h5, h6⟩ := heq
      subst h1 h2 h3 h4 h5 h6
      refine ⟨[], [], by simp, by simp, by simp, MapsExt.same maps,
        ⟨hicode, himap, hivmap, higc⟩, le_refl c, ?_⟩
      intro fs gs hM hpos
      refine ⟨gs, [], ?_, hpos, by simp, by simp, by simp, by simp⟩
      unfold WriteCodeMethod
      rw [← hstatic]
      simp only [hgm, hfs]
    · obtain ⟨hd, hlen⟩ := hstub _ _ _ hfs
      subst hd
      rcases hcl : codeLikePart env.compiler.isaAlignment stub.code
          stub.codeDelta maps.code csum c with ⟨so, mS, csS, oS⟩
      obtain ⟨hcs, hmx, hciv, hle, hG⟩ :=
        wCodeLikePart_sim _ _ _ _ _ _ _ _ _ _ hal hicode hcl
      simp only [hfs, hcl, Prod.mk.injEq] at heq
      obtain ⟨h1, h2, h3, h4, h5, h6⟩ := heq
      subst h1 h2 h3 h4 h5 h6
      refine ⟨fBlobChunksCode stub.code maps.code, [oS], by simp [hcs],
        by simp, fBlobChunksCode_tags _ _, ⟨hmx, MapExt.self _, MapExt.self _,
          MapExt.self _⟩,
        ⟨hciv, himap.relax hle, hivmap.relax hle, higc.relax hle⟩, hle, ?_⟩
      intro fs gs hM hpos
      obtain ⟨gs1, hw, hp1, hw1, hk1⟩ := hG fs.code_offsets_ gs hM.1 hpos
      refine ⟨gs1.ck, wBlobChunksCode stub.code maps.code, ?_, by simp [hp1],
        by simp [hw1], by simp [hk1, hp1], wBlobChunksCode_tags _ _,
        blobFilter_code _ _ hlen⟩
      unfold WriteCodeMethod
      rw [← hstatic]
      simp only [hgm, hfs, hw]
  · -- compiled method: code, mapping, vmap, gc map, then the invoke stub
    obtain ⟨hd, hlen⟩ := hcm _ hgm
    subst hd
    rcases hcl : codeLikePart env.compiler.isaAlignment cm.code
        cm.codeDelta maps.code csum c with ⟨co1, m1, cs1, o1⟩
    obtain ⟨hcs1, hmx1, hciv1, hle1, hG1⟩ :=
      wCodeLikePart_sim _ _ _ _ _ _ _ _ _ _ hal hicode hcl
    rcases hmt : mappingTablePart cm.mappingTable maps.mapping cs1 o1 with
      ⟨co2, m2, cs2, o2⟩
    obtain ⟨hcs2, hmx2, htiv2, hle2, hG2⟩ :=
      wMappingTablePart_sim _ _ _ _ _ _ _ _ (by omega)
        (himap.relax hle1) hmt
    rcases hvt : vmapTablePart cm.vmapTable maps.vmap cs2 o2 with
      ⟨co3, m3, cs3, o3⟩
    obtain ⟨hcs3, hmx3, htiv3, hle3, hG3⟩ :=
      wVmapTablePart_sim _ _ _ _ _ _ _ _ (by omega)
        (hivmap.relax (by omega)) hvt
    rcases hgt : gcMapPart cm.gcMap maps.gcMap cs3 o3 with
      ⟨co4, m4, cs4, o4⟩
    obtain ⟨hcs4, hmx4, htiv4, hle4, hG4⟩ :=
      wGcMapPart_sim _ _ _ _ _ _ _ _ (by omega)
        (higc.relax (by omega)) hgt
    simp only [hgm, hcl, hmt, hvt, hgt] at heq
    rcases hfs : env.compiler.findInvokeStub
        (GetMethodInvokeType isDirect md.accessFlags == InvokeType.kStatic)
        (dex.methodShorty md.methodIdx) with _ | stub
    · simp only [hfs, Prod.mk.injEq] at heq
      obtain ⟨h1, h2, h3, h4, h5, h6⟩ := heq
      subst h1 h2 h3 h4 h5 h6
      refine ⟨fBlobChunksCode cm.code maps.code ++
          (fBlobChunksTbl .u32s cm.mappingTable maps.mapping ++
           (fBlobChunksTbl .u16s cm.vmapTable maps.vmap ++
            fBlobChunksTbl .u8s cm.gcMap maps.gcMap)),
        [o1, o2, o3, o4], ?_, by simp, ?_,
        ⟨hmx1, hmx2, hmx3, hmx4⟩,
        ⟨hciv1.widen (by omega), htiv2.relax (by omega), htiv3.relax (by omega),
         htiv4⟩, by omega, ?_⟩
      · simp [hcs1, hcs2, hcs3, hcs4]
      · intro ch hch
        simp only [List.mem_append] at hch
        rcases hch with h | h | h | h
        · exact fBlobChunksCode_tags _ _ ch h
        · exact fBlobChunksTbl_tags _ _ _ ch h
        · exact fBlobChunksTbl_tags _ _ _ ch h
        · exact fBlobChunksTbl_tags _ _ _ ch h
      · intro fs gs hM hpos
        obtain ⟨gs1, hw1, hp1, hww1, hk1⟩ := hG1 fs.code_offsets_ gs hM.1 hpos
        obtain ⟨gs2, hw2, hp2, hww2, hk2⟩ :=
          hG2 fs.mapping_table_offsets_ gs1.ck hM.2.1 (by simp [hp1])
        obtain ⟨gs3, hw3, hp3, hww3, hk3⟩ :=
          hG3 fs.vmap_table_offsets_ gs2.ck hM.2.2.1 (by simp [hp2])
        obtain ⟨gs4, hw4, hp4, hww4, hk4⟩ :=
          hG4 fs.gc_map_offsets_ gs3.ck hM.2.2.2 (by simp [hp3])
        refine ⟨gs4.ck, wBlobChunksCode cm.code maps.code ++
            (wBlobChunksTbl .u32s cm.mappingTable maps.mapping ++
             (wBlobChunksTbl .u16s cm.vmapTable maps.vmap ++
              wBlobChunksTbl .u8s cm.gcMap maps.gcMap)),
          ?_, by simp [hp4], ?_, ?_, ?_, ?_⟩
        · unfold WriteCodeMethod
          rw [← hstatic]
          simp only [hgm, hfs, hw1, hw2, hw3, hw4]
        · simp [hww4, hww3, hww2, hww1]
        · simp [hk4, hk3, hk2, hk1, hp1, hp2, hp3, hp4]
        · intro ch hch
          simp only [List.mem_append] at hch
          rcases hch with h | h | h | h
          · exact wBlobChunksCode_tags _ _ ch h
          · exact wBlobChunksTbl_tags _ _ _ ch h
          · exact wBlobChunksTbl_tags _ _ _ ch h
          · exact wBlobChunksTbl_tags _ _ _ ch h
        · simp only [List.filter_append]
          rw [blobFilter_code _ _ hlen, blobFilter_tbl _ _ _ (by simp),
            blobFilter_tbl _ _ _ (by simp), blobFilter_tbl _ _ _ (by simp)]
    · obtain ⟨hd2, hslen⟩ := hstub _ _ _ hfs
      rcases hsl : codeLikePart env.compiler.isaAlignment stub.code
          stub.codeDelta m1 cs4 o4 with ⟨so, mS, csS, oS⟩
      have hciv4S : CodeInv m1 o4 stub.codeDelta := by
        rw [hd2]; exact hciv1.widen (by omega)
      obtain ⟨hcsS, hmxS, hcivS, hleS, hGS⟩ :=
        wCodeLikePart_sim _ _ _ _ _ _ _ _ _ _ hal hciv4S hsl
      have hcivS' : CodeInv mS oS cm.codeDelta := by
        rw [← hd2]; exact hcivS
      simp only [hfs, hsl, Prod.mk.injEq] at heq
      obtain ⟨h1, h2, h3, h4, h5, h6⟩ := heq
      subst h1 h2 h3 h4 h5 h6
      refine ⟨fBlobChunksCode cm.code maps.code ++
          (fBlobChunksTbl .u32s cm.mappingTable maps.mapping ++
           (fBlobChunksTbl .u16s cm.vmapTable maps.vmap ++
            (fBlobChunksTbl .u8s cm.gcMap maps.gcMap ++
             fBlobChunksCode stub.code m1))),
        [o1, o2, o3, o4, oS], ?_, by simp, ?_,
        ⟨hmx1.comp hmxS, hmx2, hmx3, hmx4⟩,
        ⟨hcivS', htiv2.relax (by omega), htiv3.relax (by omega),
         htiv4.relax (by omega)⟩, by omega, ?_⟩
      · simp [hcs1, hcs2, hcs3, hcs4, hcsS]
      · intro ch hch
        simp only [List.mem_append] at hch
        rcases hch with h | h | h | h | h
        · exact fBlobChunksCode_tags _ _ ch h
        · exact fBlobChunksTbl_tags _ _ _ ch h
        · exact fBlobChunksTbl_tags _ _ _ ch h
        · exact fBlobChunksTbl_tags _ _ _ ch h
        · exact fBlobChunksCode_tags _ _ ch h
      · intro fs gs hM hpos
        obtain ⟨gs1, hw1, hp1, hww1, hk1⟩ :=
          hG1 fs.code_offsets_ gs (hmxS.comp hM.1) hpos
        obtain ⟨gs2, hw2, hp2, hww2, hk2⟩ :=
          hG2 fs.mapping_table_offsets_ gs1.ck hM.2.1 (by simp [hp1])
        obtain ⟨gs3, hw3, hp3, hww3, hk3⟩ :=
          hG3 fs.vmap_table_offsets_ gs2.ck hM.2.2.1 (by simp [hp2])
        obtain ⟨gs4, hw4, hp4, hww4, hk4⟩ :=
          hG4 fs.gc_map_offsets_ gs3.ck hM.2.2.2 (by simp [hp3])
        obtain ⟨gsS, hwS, hpS, hwwS, hkS⟩ :=
          hGS fs.code_offsets_ gs4.ck hM.1 (by simp [hp4])
        refine ⟨gsS.ck, wBlobChunksCode cm.code maps.code ++
            (wBlobChunksTbl .u32s cm.mappingTable maps.mapping ++
             (wBlobChunksTbl .u16s cm.vmapTable maps.vmap ++
              (wBlobChunksTbl .u8s cm.gcMap maps.gcMap ++
               wBlobChunksCode stub.code m1))),
          ?_, by simp [hpS], ?_, ?_, ?_, ?_⟩
        · unfold WriteCodeMethod
          rw [← hstatic]
          simp only [hgm, hfs, hw1, hw2, hw3, hw4, hwS]
        · simp [hwwS, hww4, hww3, hww2, hww1]
        · simp [hkS, hk4, hk3, hk2, hk1, hp1, hp2, hp3, hp4, hpS]
        · intro ch hch
          simp only [List.mem_append] at hch
          rcases hch with h | h | h | h | h
          · exact wBlobChunksCode_tags _ _ ch h
          · exact wBlobChunksTbl_tags _ _ _ ch h
          · exact wBlobChunksTbl_tags _ _ _ ch h
          · exact wBlobChunksTbl_tags _ _ _ ch h
          · exact wBlobChunksCode_tags _ _ ch h
        · simp only [List.filter_append]
          rw [blobFilter_code _ _ hlen, blobFilter_tbl _ _ _ (by simp),
            blobFilter_tbl _ _ _ (by simp), blobFilter_tbl _ _ _ (by simp),
            blobFilter_code _ _ hslen]

/-- The number of per-method records the class phase reserves for one class
def (oat_writer.cc:127-133). -/
def numMethodsOfClassDef (cd : ClassDefRec) : Nat :=
  match cd.classData with
  | none => 0
  | some data => data.directMethods.length + data.virtualMethods.length

theorem writeCodeMethods_sim (env : Env) (d : Nat) (di : Nat)
    (dex : DexFileRec)
    (hal : 0 < env.compiler.isaAlignment)
    (hcm : ∀ dj mi cm, env.compiler.getCompiledMethod dj mi = some cm →
        cm.codeDelta = d ∧ 0 < cm.code.data.length)
    (hstub : ∀ b sh st, env.compiler.findInvokeStub b sh = some st →
        st.codeDelta = d ∧ 0 < st.code.data.length) :
    ∀ (tms : List (Bool × MethodDef))
      (maps : DedupMaps) (csum : List Chunk) (regs : List RegistryUpdate)
      (cks : List Nat) (c : Nat)
      (mrecs : List OatMethodOffsets) (maps' : DedupMaps)
      (csum' : List Chunk) (regs' : List RegistryUpdate) (cks' : List Nat)
      (off' : Nat),
      0 < c → MapsInvD maps c d →
      InitOatCodeMethods env di dex tms maps csum regs cks c =
        (mrecs, maps', csum', regs', cks', off') →
      ∃ Δc Δk, csum' = csum ++ Δc ∧ cks' = cks ++ Δk ∧
        (∀ ch ∈ Δc, ch.tag = CTag.blobT) ∧
        MapsExt maps maps' ∧ MapsInvD maps' off' d ∧ c ≤ off' ∧
        mrecs.length = tms.length ∧
        ∀ fs gs, MapsExt maps' ⟨fs.code_offsets_, fs.mapping_table_offsets_,
            fs.vmap_table_offsets_, fs.gc_map_offsets_⟩ → gs.pos = c →
          ∃ gs' Δw,
            WriteCodeMethods env fs honest di dex tms mrecs gs c =
              (off', gs') ∧
            gs'.pos = off' ∧ gs'.writes = gs.writes ++ Δw ∧
            gs'.ckpts = gs.ckpts ++ Δk ∧
            (∀ ch ∈ Δw, ch.tag = CTag.sizeT ∨ ch.tag = CTag.blobT) ∧
            Δw.filter (fun ch => ch.tag == CTag.blobT) =
              Δc.filter (fun ch => !ch.data.isNil) := by
  intro tms
  induction tms with
  | nil =>
      intro maps csum regs cks c mrecs maps' csum' regs' cks' off' hc hinv heq
      simp only [InitOatCodeMethods, Prod.mk.injEq] at heq
      obtain ⟨h0, h1, h2, h3, h4, h5⟩ := heq
      subst h0 h1 h2 h3 h4 h5
      refine ⟨[], [], by simp, by simp, by simp, MapsExt.same maps, hinv,
        le_refl c, rfl, ?_⟩
      intro fs gs hM hpos
      exact ⟨gs, [], rfl, hpos, by simp, by simp, by simp, by simp⟩
  | cons hd rest ih =>
      obtain ⟨isDirect, md⟩ := hd
      intro maps csum regs cks c mrecs maps' csum' regs' cks' off' hc hinv heq
      rcases hM : InitOatCodeMethod env di dex
          (GetMethodInvokeType isDirect md.accessFlags) md.methodIdx
          maps csum regs cks c with ⟨mapsM, csM, regsM, cksM, offM, mrecM⟩
      rcases hR : InitOatCodeMethods env di dex rest mapsM csM regsM cksM
          offM with ⟨mrecsR, mapsR, csR, regsR, cksR, offR⟩
      simp only [InitOatCodeMethods, hM, hR, Prod.mk.injEq] at heq
      obtain ⟨h0, h1, h2, h3, h4, h5⟩ := heq
      subst h0 h1 h2 h3 h4 h5
      obtain ⟨ΔcM, ΔkM, hcsM, hckM, htagM, hextM, hinvM, hleM, hGM⟩ :=
        writeCodeMethod_sim env d di dex isDirect md maps csum regs cks c
          mapsM csM regsM cksM offM mrecM hal (hcm di md.methodIdx) hstub
          hc hinv hM
      obtain ⟨ΔcR, ΔkR, hcsR, hckR, htagR, hextR, hinvR, hleR, hlenR, hGR⟩ :=
        ih mapsM csM regsM cksM offM mrecsR mapsR csR regsR cksR offR
          (by omega) hinvM hR
      refine ⟨ΔcM ++ ΔcR, ΔkM ++ ΔkR, ?_, ?_, ?_, hextM.chain hextR,
        hinvR, by omega, by simp [hlenR], ?_⟩
      · simp [hcsR, hcsM]
      · simp [hckR, hckM]
      · intro ch hch
        rcases List.mem_append.1 hch with h | h
        · exact htagM ch h
        · exact htagR ch h
      · intro fs gs hMx hpos
        obtain ⟨gs1, Δw1, hw1, hp1, hww1, hk1, hwt1, hwf1⟩ :=
          hGM fs gs (hextR.chain hMx) hpos
        obtain ⟨gs2, Δw2, hw2, hp2, hww2, hk2, hwt2, hwf2⟩ :=
          hGR fs gs1 hMx hp1
        have hne : (offM == 0) = false := by
          simp only [beq_eq_false_iff_ne, ne_eq]
          omega
        refine ⟨gs2, Δw1 ++ Δw2, ?_, hp2, ?_, ?_, ?_, ?_⟩
        · simp only [WriteCodeMethods, hw1, hne, Bool.false_eq_true,
            if_false, hw2]
        · simp [hww2, hww1]
        · simp [hk2, hk1]
        · intro ch hch
          rcases List.mem_append.1 hch with h | h
          · exact hwt1 ch h
          · exact hwt2 ch h
        · simp only [List.filter_append, hwf1, hwf2]

@[simp] theorem classChunks_filter_blob (oc : OatClass) :
    (OatClass.checksumChunks oc).filter
      (fun ch => ch.tag == CTag.blobT) = [] := rfl

@[simp] theorem classChunks_filter_class (oc : OatClass) :
    (OatClass.checksumChunks oc).filter
      (fun ch => ch.tag == CTag.classRecT) = OatClass.checksumChunks oc := rfl

theorem classChunks_tags (oc : OatClass) :
    ∀ ch ∈ OatClass.checksumChunks oc, ch.tag = CTag.classRecT := by
  unfold OatClass.checksumChunks
  simp

theorem writeCodeClassDef_sim (env : Env) (d : Nat) (di : Nat)
    (dex : DexFileRec) (cd : ClassDefRec) (oc : OatClass)
    (maps : DedupMaps) (csum : List Chunk) (regs : List RegistryUpdate)
    (cks : List Nat) (c : Nat)
    (oc' : OatClass) (maps' : DedupMaps) (csum' : List Chunk)
    (regs' : List RegistryUpdate) (cks' : List Nat) (off' : Nat)
    (hal : 0 < env.compiler.isaAlignment)
    (hcm : ∀ dj mi cm, env.compiler.getCompiledMethod dj mi = some cm →
        cm.codeDelta = d ∧ 0 < cm.code.data.length)
    (hstub : ∀ b sh st, env.compiler.findInvokeStub b sh = some st →
        st.codeDelta = d ∧ 0 < st.code.data.length)
    (hc : 0 < c) (hinv : MapsInvD maps c d)
    (hocLen : oc.method_offsets_.length = numMethodsOfClassDef cd)
    (heq : InitOatCodeClassDef env di dex cd oc maps csum regs cks c =
        (oc', maps', csum', regs', cks', off')) :
    ∃ Δc Δk, csum' = csum ++ Δc ∧ cks' = cks ++ Δk ∧
      (∀ ch ∈ Δc, ch.tag = CTag.blobT) ∧
      MapsExt maps maps' ∧ MapsInvD maps' off' d ∧ c ≤ off' ∧
      oc'.method_offsets_.length = oc.method_offsets_.length ∧
      oc'.status_ = oc.status_ ∧
      ∀ fs gs, MapsExt maps' ⟨fs.code_offsets_, fs.mapping_table_offsets_,
          fs.vmap_table_offsets_, fs.gc_map_offsets_⟩ → gs.pos = c →
        ∃ gs' Δw,
          WriteCodeClassDef env fs honest di dex cd oc' gs c = (off', gs') ∧
          gs'.pos = off' ∧ gs'.writes = gs.writes ++ Δw ∧
          gs'.ckpts = gs.ckpts ++ Δk ∧
          (∀ ch ∈ Δw, ch.tag = CTag.sizeT ∨ ch.tag = CTag.blobT) ∧
          Δw.filter (fun ch => ch.tag == CTag.blobT) =
            Δc.filter (fun ch => !ch.data.isNil) := by
  unfold InitOatCodeClassDef at heq
  rcases hcd : cd.classData with _ | data
  · simp only [hcd, Prod.mk.injEq] at heq
    obtain ⟨h0, h1, h2, h3, h4, h5⟩ := heq
    subst h0 h1 h2 h3 h4 h5
    refine ⟨[], [], by simp, by simp, by simp, MapsExt.same maps, hinv,
      le_refl c, rfl, rfl, ?_⟩
    intro fs gs hM hpos
    refine ⟨gs, [], ?_, hpos, by simp, by simp, by simp, by simp⟩
    unfold WriteCodeClassDef
    simp only [hcd]
  · rcases hms : InitOatCodeMethods env di dex (taggedMethods data) maps
        csum regs cks c with ⟨mrecs, mapsR, csR, regsR, cksR, offR⟩
    simp only [hcd, hms, Prod.mk.injEq] at heq
    obtain ⟨h0, h1, h2, h3, h4, h5⟩ := heq
    subst h0 h1 h2 h3 h4 h5
    obtain ⟨Δc, Δk, hcs, hck, htag, hext, hinv', hle, hlen, hG⟩ :=
      writeCodeMethods_sim env d di dex hal hcm hstub (taggedMethods data)
        maps csum regs cks c mrecs mapsR csR regsR cksR offR hc hinv hms
    have hlen' : mrecs.length = oc.method_offsets_.length := by
      rw [hlen, hocLen]
      unfold taggedMethods numMethodsOfClassDef
      simp [hcd]
    refine ⟨Δc, Δk, hcs, hck, htag, hext, hinv', hle, by simp [hlen'],
      rfl, ?_⟩
    intro fs gs hM hpos
    obtain ⟨gs', Δw, hw, hp, hww, hk, hwt, hwf⟩ := hG fs gs hM hpos
    refine ⟨gs', Δw, ?_, hp, hww, hk, hwt, hwf⟩
    unfold WriteCodeClassDef
    simp only [hcd, hw]

/-- The coupling between a dex list and the class-record list the class
phase created for it: one record per class def, sized by the class's
method count, consumed in order. -/
def ClassesMatch : List (Nat × DexFileRec) → List OatClass → Prop
  | [], ocs => ocs = []
  | (_, dex) :: rest, ocs =>
      ∃ pre post, ocs = pre ++ post ∧
        List.Forall₂
          (fun cd oc => oc.method_offsets_.length = numMethodsOfClassDef cd)
          dex.classDefs pre ∧
        ClassesMatch rest post

theorem writeCodeDexFile_sim (env : Env) (d : Nat) (di : Nat)
    (dex : DexFileRec)
    (hal : 0 < env.compiler.isaAlignment)
    (hcm : ∀ dj mi cm, env.compiler.getCompiledMethod dj mi = some cm →
        cm.codeDelta = d ∧ 0 < cm.code.data.length)
    (hstub : ∀ b sh st, env.compiler.findInvokeStub b sh = some st →
        st.codeDelta = d ∧ 0 < st.code.data.length) :
    ∀ (cds : List ClassDefRec) (pre post : List OatClass)
      (maps : DedupMaps) (csum : List Chunk) (regs : List RegistryUpdate)
      (cks : List Nat) (c : Nat)
      (done pend' : List OatClass) (maps' : DedupMaps) (csum' : List Chunk)
      (regs' : List RegistryUpdate) (cks' : List Nat) (off' : Nat),
      0 < c → MapsInvD maps c d →
      List.Forall₂
        (fun cd oc => oc.method_offsets_.length = numMethodsOfClassDef cd)
        cds pre →
      InitOatCodeDexFile env di dex cds (pre ++ post) maps csum regs cks c =
        (done, pend', maps', csum', regs', cks', off') →
      pend' = post ∧
      ∃ Δc Δk, csum' = csum ++ Δc ∧ cks' = cks ++ Δk ∧
        (∀ ch ∈ Δc, ch.tag = CTag.blobT ∨ ch.tag = CTag.classRecT) ∧
        Δc.filter (fun ch => ch.tag == CTag.classRecT) =
          (done.map OatClass.checksumChunks).flatten ∧
        List.Forall₂ (fun oc oc' =>
          oc'.method_offsets_.length = oc.method_offsets_.length ∧
          oc'.status_ = oc.status_) pre done ∧
        MapsExt maps maps' ∧ MapsInvD maps' off' d ∧ c ≤ off' ∧
        ∀ fs gs X, MapsExt maps' ⟨fs.code_offsets_,
            fs.mapping_table_offsets_, fs.vmap_table_offsets_,
            fs.gc_map_offsets_⟩ → gs.pos = c →
          ∃ gs' Δw,
            WriteCodeDexFile env fs honest di dex cds (done ++ X) gs c =
              (off', X, gs') ∧
            gs'.pos = off' ∧ gs'.writes = gs.writes ++ Δw ∧
            gs'.ckpts = gs.ckpts ++ Δk ∧
            (∀ ch ∈ Δw, ch.tag = CTag.sizeT ∨ ch.tag = CTag.blobT) ∧
            Δw.filter (fun ch => ch.tag == CTag.blobT) =
              (Δc.filter (fun ch => ch.tag == CTag.blobT)).filter
                (fun ch => !ch.data.isNil) := by
  intro cds
  induction cds with
  | nil =>
      intro pre post maps csum regs cks c done pend' maps' csum' regs' cks'
        off' hc hinv hpre heq
      cases hpre
      simp only [List.nil_append, InitOatCodeDexFile, Prod.mk.injEq] at heq
      obtain ⟨h0, h1, h2, h3, h4, h5, h6⟩ := heq
      subst h0 h1 h2 h3 h4 h5 h6
      refine ⟨rfl, [], [], by simp, by simp, by simp, by simp,
        List.Forall₂.nil, MapsExt.same maps, hinv, le_refl c, ?_⟩
      intro fs gs X hM hpos
      exact ⟨gs, [], rfl, hpos, by simp, by simp, by simp, by simp⟩
  | cons cd crest ih =>
      intro pre post maps csum regs cks c done pend' maps' csum' regs' cks'
        off' hc hinv hpre heq
      rcases pre with _ | ⟨oc, pre'⟩
      · cases hpre
      rcases hpre with _ | ⟨hocLen, hpre'⟩
      rcases hcs : InitOatCodeClassDef env di dex cd oc maps csum regs cks c
        with ⟨oc1, maps1, csum1, regs1, cks1, off1⟩
      rcases hrest : InitOatCodeDexFile env di dex crest (pre' ++ post)
          maps1 (csum1 ++ OatClass.checksumChunks oc1) regs1 cks1 off1 with
        ⟨doneR, pendR, mapsR, csumR, regsR, cksR, offR⟩
      simp only [List.cons_append, InitOatCodeDexFile, hcs, List.append_eq,
        hrest, Prod.mk.injEq] at heq
      obtain ⟨h0, h1, h2, h3, h4, h5, h6⟩ := heq
      subst h0 h1 h2 h3 h4 h5 h6
      obtain ⟨ΔcC, ΔkC, hccs, hcck, hctag, hcext, hcinv, hcle, hclen,
        hcstat, hcG⟩ :=
        writeCodeClassDef_sim env d di dex cd oc maps csum regs cks c
          oc1 maps1 csum1 regs1 cks1 off1 hal hcm hstub hc hinv hocLen hcs
      obtain ⟨hpend, ΔcR, ΔkR, hrcs, hrck, hrtag, hrfil, hrF2, hrext,
        hrinv, hrle, hrG⟩ :=
        ih pre' post maps1 (csum1 ++ OatClass.checksumChunks oc1) regs1
          cks1 off1 doneR pendR mapsR csumR regsR cksR offR (by omega)
          hcinv hpre' hrest
      subst hpend
      refine ⟨rfl, (ΔcC ++ OatClass.checksumChunks oc1) ++ ΔcR, ΔkC ++ ΔkR,
        ?_, ?_, ?_, ?_, List.Forall₂.cons ⟨hclen, hcstat⟩ hrF2,
        hcext.chain hrext, hrinv, by omega, ?_⟩
      · simp [hrcs, hccs]
      · simp [hrck, hcck]
      · intro ch hch
        simp only [List.mem_append] at hch
        rcases hch with (h | h) | h
        · exact Or.inl (hctag ch h)
        · exact Or.inr (classChunks_tags oc1 ch h)
        · exact hrtag ch h
      · have hcC : ΔcC.filter (fun ch => ch.tag == CTag.classRecT) = [] := by
          rw [List.filter_eq_nil_iff]
          intro ch hch
          have := hctag ch hch
          simp [this]
        simp only [List.filter_append, hcC, classChunks_filter_class,
          hrfil, List.map_cons, List.flatten_cons, List.nil_append]
      · intro fs gs X hM hpos
        obtain ⟨gs1, Δw1, hw1, hp1, hww1, hk1, hwt1, hwf1⟩ :=
          hcG fs gs (hrext.chain hM) hpos
        obtain ⟨gs2, Δw2, hw2, hp2, hww2, hk2, hwt2, hwf2⟩ :=
          hrG fs gs1 X hM hp1
        have hne : (off1 == 0) = false := by
          simp only [beq_eq_false_iff_ne, ne_eq]
          omega
        refine ⟨gs2, Δw1 ++ Δw2, ?_, hp2, ?_, ?_, ?_, ?_⟩
        · simp only [List.cons_append, WriteCodeDexFile, hw1, hne,
            Bool.false_eq_true, if_false, List.append_eq, hw2]
        · simp [hww2, hww1]
        · simp [hk2, hk1]
        · intro ch hch
          rcases List.mem_append.1 hch with h | h
          · exact hwt1 ch h
          · exact hwt2 ch h
        · have hcC : ΔcC.filter (fun ch => ch.tag == CTag.blobT) = ΔcC := by
            rw [List.filter_eq_self]
            intro ch hch
            have := hctag ch hch
            simp [this]
          simp only [List.filter_append, hwf1, hwf2, hcC,
            classChunks_filter_blob, List.append_nil, List.nil_append]

theorem writeCodeDexFiles_sim (env : Env) (d : Nat)
    (hal : 0 < env.compiler.isaAlignment)
    (hcm : ∀ dj mi cm, env.compiler.getCompiledMethod dj mi = some cm →
        cm.codeDelta = d ∧ 0 < cm.code.data.length)
    (hstub : ∀ b sh st, env.compiler.findInvokeStub b sh = some st →
        st.codeDelta = d ∧ 0 < st.code.data.length) :
    ∀ (dexes : List (Nat × DexFileRec)) (ocs : List OatClass)
      (maps : DedupMaps) (csum : List Chunk) (regs : List RegistryUpdate)
      (cks : List Nat) (c : Nat)
      (ocsOut : List OatClass) (maps' : DedupMaps) (csum' : List Chunk)
      (regs' : List RegistryUpdate) (cks' : List Nat) (off' : Nat),
      0 < c → MapsInvD maps c d → ClassesMatch dexes ocs →
      InitOatCodeDexFiles env dexes ocs maps csum regs cks c =
        (ocsOut, maps', csum', regs', cks', off') →
      ∃ Δc Δk, csum' = csum ++ Δc ∧ cks' = cks ++ Δk ∧
        (∀ ch ∈ Δc, ch.tag = CTag.blobT ∨ ch.tag = CTag.classRecT) ∧
        Δc.filter (fun ch => ch.tag == CTag.classRecT) =
          (ocsOut.map OatClass.checksumChunks).flatten ∧
        List.Forall₂ (fun oc oc' =>
          oc'.method_offsets_.length = oc.method_offsets_.length ∧
          oc'.status_ = oc.status_) ocs ocsOut ∧
        MapsExt maps maps' ∧ MapsInvD maps' off' d ∧ c ≤ off' ∧
        ∀ fs gs, MapsExt maps' ⟨fs.code_offsets_,
            fs.mapping_table_offsets_, fs.vmap_table_offsets_,
            fs.gc_map_offsets_⟩ → gs.pos = c →
          ∃ gs' Δw,
            WriteCodeDexFiles env fs honest dexes ocsOut gs c =
              (off', gs') ∧
            gs'.pos = off' ∧ gs'.writes = gs.writes ++ Δw ∧
            gs'.ckpts = gs.ckpts ++ Δk ∧
            (∀ ch ∈ Δw, ch.tag = CTag.sizeT ∨ ch.tag = CTag.blobT) ∧
            Δw.filter (fun ch => ch.tag == CTag.blobT) =
              (Δc.filter (fun ch => ch.tag == CTag.blobT)).filter
                (fun ch => !ch.data.isNil) := by
  intro dexes
  induction dexes with
  | nil =>
      intro ocs maps csum regs cks c ocsOut maps' csum' regs' cks' off'
        hc hinv hmatch heq
      have hocs : ocs = [] := hmatch
      subst hocs
      simp only [InitOatCodeDexFiles, Prod.mk.injEq] at heq
      obtain ⟨h0, h1, h2, h3, h4, h5⟩ := heq
      subst h0 h1 h2 h3 h4 h5
      refine ⟨[], [], by simp, by simp, by simp, by simp,
        List.Forall₂.nil, MapsExt.same maps, hinv, le_refl c, ?_⟩
      intro fs gs hM hpos
      exact ⟨gs, [], rfl, hpos, by simp, by simp, by simp, by simp⟩
  | cons hd drest ih =>
      obtain ⟨di, dex⟩ := hd
      intro ocs maps csum regs cks c ocsOut maps' csum' regs' cks' off'
        hc hinv hmatch heq
      obtain ⟨pre, post, hsplit, hpre, hmatch'⟩ := hmatch
      subst hsplit
      rcases hdx : InitOatCodeDexFile env di dex dex.classDefs (pre ++ post)
          maps csum regs cks c with
        ⟨done1, pend1, maps1, csum1, regs1, cks1, off1⟩
      rcases hrest : InitOatCodeDexFiles env drest pend1 maps1 csum1 regs1
          cks1 off1 with ⟨ocsR, mapsR, csumR, regsR, cksR, offR⟩
      simp only [InitOatCodeDexFiles, hdx, hrest, Prod.mk.injEq] at heq
      obtain ⟨h0, h1, h2, h3, h4, h5⟩ := heq
      subst h0 h1 h2 h3 h4 h5
      obtain ⟨hpend, ΔcD, ΔkD, hdcs, hdck, hdtag, hdfil, hdF2, hdext,
        hdinv, hdle, hdG⟩ :=
        writeCodeDexFile_sim env d di dex hal hcm hstub dex.classDefs
          pre post maps csum regs cks c done1 pend1 maps1 csum1 regs1 cks1
          off1 hc hinv hpre hdx
      subst hpend
      obtain ⟨ΔcR, ΔkR, hrcs, hrck, hrtag, hrfil, hrF2, hrext, hrinv,
        hrle, hrG⟩ :=
        ih pend1 maps1 csum1 regs1 cks1 off1 ocsR mapsR csumR regsR cksR
          offR (by omega) hdinv hmatch' hrest
      refine ⟨ΔcD ++ ΔcR, ΔkD ++ ΔkR, ?_, ?_, ?_, ?_,
        List.rel_append hdF2 hrF2, hdext.chain hrext, hrinv,
        by omega, ?_⟩
      · simp [hrcs, hdcs]
      · simp [hrck, hdck]
      · intro ch hch
        rcases List.mem_append.1 hch with h | h
        · exact hdtag ch h
        · exact hrtag ch h
      · simp only [List.filter_append, hdfil, hrfil, List.map_append,
          List.flatten_append]
      · intro fs gs hM hpos
        obtain ⟨gs1, Δw1, hw1, hp1, hww1, hk1, hwt1, hwf1⟩ :=
          hdG fs gs ocsR (hrext.chain hM) hpos
        obtain ⟨gs2, Δw2, hw2, hp2, hww2, hk2, hwt2, hwf2⟩ :=
          hrG fs gs1 hM hp1
        have hne : (off1 == 0) = false := by
          simp only [beq_eq_false_iff_ne, ne_eq]
          omega
        refine ⟨gs2, Δw1 ++ Δw2, ?_, hp2, ?_, ?_, ?_, ?_⟩
        · simp only [WriteCodeDexFiles, hw1, hne, Bool.false_eq_true,
            if_false, hw2]
        · simp [hww2, hww1]
        · simp [hk2, hk1]
        · intro ch hch
          rcases List.mem_append.1 hch with h | h
          · exact hwt1 ch h
          · exact hwt2 ch h
        · simp only [List.filter_append, hwf1, hwf2]

/-! ### Phases 1-5 simulation -/

/-- The number of bytes `OatDexFile::Write` emits for a record. -/
def OatDexFile.writeLen (r : OatDexFile) : Nat :=
  4 + r.dex_file_location_data_.length + 4 + 4 + 4 * r.methods_offsets_.length

/-- Fields of an OatDexFile record that later phases never change (the
methods-offsets vector is replaced, length-preservingly). -/
def RecPres (r r' : OatDexFile) : Prop :=
  r'.dex_file_location_size_ = r.dex_file_location_size_ ∧
  r'.dex_file_location_data_ = r.dex_file_location_data_ ∧
  r'.dex_file_location_checksum_ = r.dex_file_location_checksum_ ∧
  r'.methods_offsets_.length = r.methods_offsets_.length

theorem RecPres.triv (r : OatDexFile) : RecPres r r := ⟨rfl, rfl, rfl, rfl⟩

theorem RecPres.concat {a b c : OatDexFile} (h1 : RecPres a b)
    (h2 : RecPres b c) : RecPres a c := by
  obtain ⟨x1, x2, x3, x4⟩ := h1
  obtain ⟨y1, y2, y3, y4⟩ := h2
  exact ⟨y1.trans x1, y2.trans x2, y3.trans x3, y4.trans x4⟩

theorem RecPres.writeLen_eq {a b : OatDexFile} (h : RecPres a b) :
    OatDexFile.writeLen b = OatDexFile.writeLen a := by
  obtain ⟨x1, x2, x3, x4⟩ := h
  unfold OatDexFile.writeLen
  rw [x2, x4]

theorem OatDexFile_Write_honest (r : OatDexFile) (gs : GS) :
    ∃ gs', OatDexFile_Write honest r gs = (true, gs') ∧
      gs'.pos = gs.pos + OatDexFile.writeLen r ∧
      gs'.writes = gs.writes ++ OatDexFile.checksumChunks r ∧
      gs'.ckpts = gs.ckpts := by
  unfold OatDexFile_Write OatDexFile.writeLen OatDexFile.checksumChunks
  simp only [writeFully_honest, Bool.not_true, Bool.false_eq_true, if_false]
  refine ⟨_, rfl, ?_, ?_, rfl⟩
  · simp [Chunk.byteLen, CData.byteLen]
    omega
  · simp

theorem OatClass_Write_honest (oc : OatClass) (gs : GS) :
    ∃ gs', OatClass_Write honest oc gs = (true, gs') ∧
      gs'.pos = gs.pos + OatClass.byteSize oc ∧
      gs'.writes = gs.writes ++ OatClass.checksumChunks oc ∧
      gs'.ckpts = gs.ckpts := by
  unfold OatClass_Write OatClass.byteSize OatClass.checksumChunks
  simp only [writeFully_honest, Bool.not_true, Bool.false_eq_true, if_false]
  refine ⟨_, rfl, ?_, ?_, rfl⟩
  · simp [Chunk.byteLen, CData.byteLen]
    omega
  · simp

/-- Phase 2 against the first `WriteTables` loop: writing the (later-frozen)
records emits the five ranges per record and lands on each planned
checkpoint. -/
theorem writeDexRecs_sim :
    ∀ (ds : List DexFileRec) (o : Nat) (rs1 : List OatDexFile)
      (cks1 : List Nat) (o1 : Nat),
      InitOatDexFiles ds o = (rs1, cks1, o1) →
      List.Forall₂ (fun dex r =>
        r.methods_offsets_.length = dex.classDefs.length ∧
        OatDexFile.writeLen r = OatDexFile.byteSize r) ds rs1 ∧
      o ≤ o1 ∧
      ∀ (rsG : List OatDexFile),
        List.Forall₂ (fun r rG =>
          OatDexFile.writeLen rG = OatDexFile.byteSize r) rs1 rsG →
        ∀ gs, gs.pos = o →
          ∃ gs', writeDexRecs honest rsG gs = (true, gs') ∧
            gs'.pos = o1 ∧
            gs'.writes = gs.writes ++
              (rsG.map OatDexFile.checksumChunks).flatten ∧
            gs'.ckpts = gs.ckpts ++ cks1 := by
  intro ds
  induction ds with
  | nil =>
      intro o rs1 cks1 o1 heq
      simp only [InitOatDexFiles, Prod.mk.injEq] at heq
      obtain ⟨h0, h1, h2⟩ := heq
      subst h0 h1 h2
      refine ⟨List.Forall₂.nil, le_refl o, ?_⟩
      intro rsG hF2 gs hpos
      cases hF2
      exact ⟨gs, rfl, hpos, by simp, by simp⟩
  | cons dex drest ih =>
      intro o rs1 cks1 o1 heq
      rcases hrest : InitOatDexFiles drest
          (o + OatDexFile.byteSize (OatDexFile_new dex)) with ⟨rsR, cksR, oR⟩
      simp only [InitOatDexFiles, hrest, Prod.mk.injEq] at heq
      obtain ⟨h0, h1, h2⟩ := heq
      subst h0 h1 h2
      obtain ⟨hF2R, hleR, hGR⟩ := ih _ rsR cksR oR hrest
      have hwf : OatDexFile.writeLen (OatDexFile_new dex) =
          OatDexFile.byteSize (OatDexFile_new dex) := by
        unfold OatDexFile.writeLen OatDexFile.byteSize OatDexFile_new
        simp
      refine ⟨List.Forall₂.cons ⟨by simp [OatDexFile_new], hwf⟩ hF2R,
        by omega, ?_⟩
      intro rsG hF2 gs hpos
      rcases rsG with _ | ⟨rG, rsG'⟩
      · cases hF2
      rcases hF2 with _ | ⟨hlen, hF2'⟩
      obtain ⟨gs1, hw1, hp1, hww1, hk1⟩ := OatDexFile_Write_honest rG gs
      obtain ⟨gs2, hw2, hp2, hww2, hk2⟩ := hGR rsG' hF2' gs1.ck
        (by simp [hp1, hpos, hlen])
      refine ⟨gs2, ?_, hp2, ?_, ?_⟩
      · simp only [writeDexRecs, hw1, Bool.not_true, Bool.false_eq_true,
          if_false, hw2]
      · simp [hww2, hww1]
      · simp only [hk2, ck_ckpts, hk1, hp1, hpos, hlen]
        simp

/-- Phase 3 against the second `WriteTables` loop: each seek lands at the
recorded embedded-DEX offset and the payload write ends at the planned
checkpoint. -/
theorem writeDexPayloads_sim :
    ∀ (ds : List DexFileRec) (rs : List OatDexFile) (o : Nat)
      (rs3 : List OatDexFile) (cks3 : List Nat) (o3 : Nat),
      InitDexFiles ds rs o = (rs3, cks3, o3) →
      rs.length = ds.length →
      (∀ dex ∈ ds, dex.payload.length = dex.fileSize) →
      List.Forall₂ RecPres rs rs3 ∧ o ≤ o3 ∧
      ∀ (rsG : List OatDexFile),
        List.Forall₂ (fun r3 rG =>
          rG.dex_file_offset_ = r3.dex_file_offset_) rs3 rsG →
        ∀ gs, gs.pos = o →
          ∃ gs', writeDexPayloads honest ds rsG gs = (true, gs') ∧
            gs'.pos = o3 ∧
            gs'.writes = gs.writes ++ ds.map (fun dex =>
              (⟨CTag.payloadT, CData.u8s dex.payload⟩ : Chunk)) ∧
            gs'.ckpts = gs.ckpts ++ cks3 := by
  intro ds
  induction ds with
  | nil =>
      intro rs o rs3 cks3 o3 heq hlen hpl
      rcases rs with _ | _
      · simp only [InitDexFiles, Prod.mk.injEq] at heq
        obtain ⟨h0, h1, h2⟩ := heq
        subst h0 h1 h2
        refine ⟨List.Forall₂.nil, le_refl o, ?_⟩
        intro rsG hF2 gs hpos
        cases hF2
        exact ⟨gs, rfl, hpos, by simp, by simp⟩
      · simp at hlen
  | cons dex drest ih =>
      intro rs o rs3 cks3 o3 heq hlen hpl
      rcases rs with _ | ⟨r, rrest⟩
      · simp at hlen
      rcases hrest : InitDexFiles drest rrest
          (roundUp o 4 + dex.fileSize) with ⟨rsR, cksR, oR⟩
      simp only [InitDexFiles, hrest, Prod.mk.injEq] at heq
      obtain ⟨h0, h1, h2⟩ := heq
      subst h0 h1 h2
      obtain ⟨hF2R, hleR, hGR⟩ := ih rrest _ rsR cksR oR hrest
        (by simpa using hlen)
        (fun dx hdx => hpl dx (List.mem_cons_of_mem _ hdx))
      have hru : o ≤ roundUp o 4 := le_roundUp o (by omega)
      refine ⟨List.Forall₂.cons ⟨rfl, rfl, rfl, rfl⟩ hF2R, by omega, ?_⟩
      intro rsG hF2 gs hpos
      rcases rsG with _ | ⟨rG, rsG'⟩
      · cases hF2
      rcases hF2 with _ | ⟨hdfo, hF2'⟩
      have hplen : dex.payload.length = dex.fileSize :=
        hpl dex (List.mem_cons_self _ _)
      obtain ⟨gs2, hw2, hp2, hww2, hk2⟩ :=
        hGR rsG' hF2' ⟨roundUp o 4 + dex.payload.length,
          gs.writes ++ [⟨CTag.payloadT, CData.u8s dex.payload⟩],
          gs.events ++ [true, true], gs.wIdx + 1, gs.sIdx + 1,
          gs.ckpts ++ [roundUp o 4 + dex.payload.length]⟩
        (by simp [hplen])
      refine ⟨gs2, ?_, hp2, ?_, ?_⟩
      · simp only [writeDexPayloads, seekChecked_honest, hdfo]
        simp only [beq_self_eq_true, Bool.not_true, Bool.false_eq_true,
          if_false, writeFully_honest]
        rw [← hw2]
        congr 1
        simp [GS.ck, Chunk.byteLen, CData.byteLen, hplen]
      · simp [hww2]
      · simp only [hk2]
        simp [hplen]

/-- The class-status rule the spec states for phase 4 (§4.F step 4),
written standalone so the pass can be compared against it. -/
def classStatusOf (env : Env) (di ci : Nat) : ClassStatus :=
  match env.compiler.getCompiledClass di ci with
  | some s => s
  | none =>
      if env.isClassRejected di ci then ClassStatus.kStatusError
      else ClassStatus.kStatusNotReady

theorem forall₂_compose {α β γ : Type} {R : α → β → Prop}
    {S : β → γ → Prop} {T : α → γ → Prop}
    (h : ∀ a b c, R a b → S b c → T a c) :
    ∀ {la : List α} {lb : List β} {lc : List γ},
      List.Forall₂ R la lb → List.Forall₂ S lb lc →
      List.Forall₂ T la lc := by
  intro la lb lc h1
  induction h1 generalizing lc with
  | nil =>
      intro h2
      cases h2
      exact List.Forall₂.nil
  | cons hr hrest ih =>
      intro h2
      rcases h2 with _ | ⟨hs, h2'⟩
      exact List.Forall₂.cons (h _ _ _ hr hs) (ih h2')

@[simp] theorem idxFrom_length {α : Type} :
    ∀ (i : Nat) (l : List α), (idxFrom i l).length = l.length := by
  intro i l
  induction l generalizing i with
  | nil => rfl
  | cons x xs ih => simp [idxFrom, ih]

theorem forall₂_of_idxFrom {α β : Type} {R : α → β → Prop} :
    ∀ {i : Nat} {l : List α} {l' : List β},
      List.Forall₂ (fun (p : Nat × α) b => R p.2 b) (idxFrom i l) l' →
      List.Forall₂ R l l' := by
  intro i l
  induction l generalizing i with
  | nil =>
      intro l' h
      cases h
      exact List.Forall₂.nil
  | cons x xs ih =>
      intro l' h
      rcases h with _ | ⟨hr, h'⟩
      exact List.Forall₂.cons hr (ih h')

theorem forall₂_append_split {α β : Type} {R : α → β → Prop} :
    ∀ {l₁ l₂ : List α} {l : List β}, List.Forall₂ R (l₁ ++ l₂) l →
      ∃ m₁ m₂, l = m₁ ++ m₂ ∧ List.Forall₂ R l₁ m₁ ∧
        List.Forall₂ R l₂ m₂ := by
  intro l₁
  induction l₁ with
  | nil =>
      intro l₂ l h
      exact ⟨[], l, rfl, List.Forall₂.nil, h⟩
  | cons x xs ih =>
      intro l₂ l h
      rcases l with _ | ⟨b, bs⟩
      · cases h
      · rcases h with _ | ⟨hr, h'⟩
        obtain ⟨m₁, m₂, hbs, h1, h2⟩ := ih h'
        subst hbs
        exact ⟨b :: m₁, m₂, rfl, List.Forall₂.cons hr h1, h2⟩

theorem writeClassRecs_append (ora : Oracle) (a b : List OatClass) :
    ∀ gs, writeClassRecs ora (a ++ b) gs =
      match writeClassRecs ora a gs with
      | (true, gs') => writeClassRecs ora b gs'
      | (false, gs') => (false, gs') := by
  induction a with
  | nil =>
      intro gs
      simp [writeClassRecs]
  | cons oc rest ih =>
      intro gs
      simp only [List.cons_append, writeClassRecs]
      rcases h : OatClass_Write ora oc gs with ⟨ok, gs1⟩
      rcases ok with _ | _
      · simp
      · simp only [Bool.not_true, Bool.false_eq_true, if_false]
        exact ih gs1.ck

/-- One dex's class_def loop of phase 4 against a slice of the third
`WriteTables` loop. -/
theorem initOatClassesLoop_sim (env : Env) (di : Nat) :
    ∀ (l : List (Nat × ClassDefRec)) (o : Nat) (moffs : List Nat)
      (ocs : List OatClass) (cks : List Nat) (oOut : Nat),
      InitOatClassesLoop env di l o = (moffs, ocs, cks, oOut) →
      moffs.length = l.length ∧
      List.Forall₂ (fun (p : Nat × ClassDefRec) oc =>
        oc.method_offsets_.length = numMethodsOfClassDef p.2 ∧
        oc.status_ = classStatusOf env di p.1) l ocs ∧
      o ≤ oOut ∧
      ∀ (ocsG : List OatClass),
        List.Forall₂ (fun oc oc' =>
          oc'.method_offsets_.length = oc.method_offsets_.length ∧
          oc'.status_ = oc.status_) ocs ocsG →
        ∀ gs, gs.pos = o →
          ∃ gs', writeClassRecs honest ocsG gs = (true, gs') ∧
            gs'.pos = oOut ∧
            gs'.writes = gs.writes ++
              (ocsG.map OatClass.checksumChunks).flatten ∧
            gs'.ckpts = gs.ckpts ++ cks := by
  intro l
  induction l with
  | nil =>
      intro o moffs ocs cks oOut heq
      simp only [InitOatClassesLoop, Prod.mk.injEq] at heq
      obtain ⟨h0, h1, h2, h3⟩ := heq
      subst h0 h1 h2 h3
      refine ⟨rfl, List.Forall₂.nil, le_refl o, ?_⟩
      intro ocsG hF2 gs hpos
      cases hF2
      exact ⟨gs, rfl, hpos, by simp, by simp⟩
  | cons p rest ih =>
      obtain ⟨ci, cd⟩ := p
      intro o moffs ocs cks oOut heq
      rcases hrest : InitOatClassesLoop env di rest
          (o + OatClass.byteSize ⟨classStatusOf env di ci,
            List.replicate (numMethodsOfClassDef cd) .zero⟩) with
        ⟨moffsR, ocsR, cksR, oR⟩
      simp only [InitOatClassesLoop] at heq
      rw [show (match cd.classData with
          | none => 0
          | some data =>
              data.directMethods.length + data.virtualMethods.length) =
          numMethodsOfClassDef cd from rfl] at heq
      rw [show (match env.compiler.getCompiledClass di ci with
          | some s => s
          | none =>
              if env.isClassRejected di ci then ClassStatus.kStatusError
              else ClassStatus.kStatusNotReady) =
          classStatusOf env di ci from rfl] at heq
      rw [hrest] at heq
      simp only [Prod.mk.injEq] at heq
      obtain ⟨h0, h1, h2, h3⟩ := heq
      subst h0 h1 h2 h3
      obtain ⟨hlenR, hF2R, hleR, hGR⟩ := ih _ moffsR ocsR cksR oR hrest
      have hsz : OatClass.byteSize ⟨classStatusOf env di ci,
          List.replicate (numMethodsOfClassDef cd) .zero⟩ =
          4 + 32 * numMethodsOfClassDef cd := by
        unfold OatClass.byteSize
        simp
      refine ⟨by simp [hlenR], List.Forall₂.cons ⟨by simp, rfl⟩ hF2R,
        by omega, ?_⟩
      intro ocsG hF2 gs hpos
      rcases ocsG with _ | ⟨ocG, ocsG'⟩
      · cases hF2
      rcases hF2 with _ | ⟨⟨hglen, hgstat⟩, hF2'⟩
      obtain ⟨gs1, hw1, hp1, hww1, hk1⟩ := OatClass_Write_honest ocG gs
      have hgsz : OatClass.byteSize ocG =
          4 + 32 * numMethodsOfClassDef cd := by
        unfold OatClass.byteSize
        rw [hglen]
        simp
      obtain ⟨gs2, hw2, hp2, hww2, hk2⟩ := hGR ocsG' hF2' gs1.ck
        (by simp [hp1, hpos, hgsz, hsz])
      refine ⟨gs2, ?_, hp2, ?_, ?_⟩
      · simp only [writeClassRecs, hw1, Bool.not_true, Bool.false_eq_true,
          if_false, hw2]
      · simp [hww2, hww1]
      · simp only [hk2, ck_ckpts, hk1, hp1, hpos, hgsz, hsz]
        simp

/-- The flattened (dex index, class_def index, class def) enumeration, in
the iteration order of both passes. -/
def dexClassTriples (dexes : List (Nat × DexFileRec)) :
    List (Nat × Nat × ClassDefRec) :=
  (dexes.map (fun p =>
    (idxFrom 0 p.2.classDefs).map (fun q => (p.1, q.1, q.2)))).flatten

/-- Phase 4 against the third `WriteTables` loop, plus everything later
phases need about its output: the checksum trace is exactly the OatDexFile
records' ranges, record fields are preserved, the class records match the
dex structure, and every class's status follows the documented rule. -/
theorem initOatClasses_sim (env : Env) :
    ∀ (dexes : List (Nat × DexFileRec)) (rs : List OatDexFile) (o : Nat)
      (rs4 : List OatDexFile) (ocs4 : List OatClass) (csum4 : List Chunk)
      (cks4 : List Nat) (o4 : Nat),
      InitOatClasses env dexes rs o = (rs4, ocs4, csum4, cks4, o4) →
      List.Forall₂ (fun (p : Nat × DexFileRec) r =>
        r.methods_offsets_.length = p.2.classDefs.length) dexes rs →
      csum4 = (rs4.map OatDexFile.checksumChunks).flatten ∧
      List.Forall₂ (fun r r4 => RecPres r r4 ∧
        r4.dex_file_offset_ = r.dex_file_offset_) rs rs4 ∧
      ClassesMatch dexes ocs4 ∧
      List.Forall₂ (fun (t : Nat × Nat × ClassDefRec) oc =>
        oc.status_ = classStatusOf env t.1 t.2.1 ∧
        oc.method_offsets_.length = numMethodsOfClassDef t.2.2)
        (dexClassTriples dexes) ocs4 ∧
      o ≤ o4 ∧
      ∀ (ocsG : List OatClass),
        List.Forall₂ (fun oc oc' =>
          oc'.method_offsets_.length = oc.method_offsets_.length ∧
          oc'.status_ = oc.status_) ocs4 ocsG →
        ∀ gs, gs.pos = o →
          ∃ gs', writeClassRecs honest ocsG gs = (true, gs') ∧
            gs'.pos = o4 ∧
            gs'.writes = gs.writes ++
              (ocsG.map OatClass.checksumChunks).flatten ∧
            gs'.ckpts = gs.ckpts ++ cks4 := by
  intro dexes
  induction dexes with
  | nil =>
      intro rs o rs4 ocs4 csum4 cks4 o4 heq hlen
      cases hlen
      simp only [InitOatClasses, Prod.mk.injEq] at heq
      obtain ⟨h0, h1, h2, h3, h4⟩ := heq
      subst h0 h1 h2 h3 h4
      refine ⟨by simp, List.Forall₂.nil, rfl, ?_, le_refl o, ?_⟩
      · simp only [dexClassTriples, List.map_nil, List.flatten_nil]
        exact List.Forall₂.nil
      · intro ocsG hF2 gs hpos
        cases hF2
        exact ⟨gs, rfl, hpos, by simp, by simp⟩
  | cons p drest ih =>
      obtain ⟨di, dex⟩ := p
      intro rs o rs4 ocs4 csum4 cks4 o4 heq hlen
      rcases rs with _ | ⟨r, rrest⟩
      · cases hlen
      rcases hlen with _ | ⟨hrlen, hlen'⟩
      rcases hloop : InitOatClassesLoop env di (idxFrom 0 dex.classDefs) o
        with ⟨moffs, ocsD, cksD, oD⟩
      rcases hrest : InitOatClasses env drest rrest oD with
        ⟨rsR, ocsR, csumR, cksR, oR⟩
      simp only [InitOatClasses, hloop, hrest, Prod.mk.injEq] at heq
      obtain ⟨h0, h1, h2, h3, h4⟩ := heq
      subst h0 h1 h2 h3 h4
      obtain ⟨hmlen, hF2D, hleD, hGD⟩ :=
        initOatClassesLoop_sim env di _ o moffs ocsD cksD oD hloop
      obtain ⟨hcsR, hF2R, hmatchR, hstatR, hleR, hGR⟩ :=
        ih rrest oD rsR ocsR csumR cksR oR hrest hlen'
      have hnum : List.Forall₂ (fun cd oc =>
          oc.method_offsets_.length = numMethodsOfClassDef cd)
          dex.classDefs ocsD :=
        forall₂_of_idxFrom (List.Forall₂.imp (fun _ _ h => h.1) hF2D)
      refine ⟨?_, List.Forall₂.cons ⟨⟨rfl, rfl, rfl,
        by simp [hmlen, hrlen]⟩, rfl⟩
        hF2R, ⟨ocsD, ocsR, rfl, hnum, hmatchR⟩, ?_, by omega, ?_⟩
      · simp [hcsR]
      · unfold dexClassTriples
        simp only [List.map_cons, List.flatten_cons]
        refine List.rel_append ?_ hstatR
        rw [List.forall₂_map_left_iff]
        exact hF2D.imp (fun _ _ h => ⟨h.2, h.1⟩)
      · intro ocsG hF2 gs hpos
        obtain ⟨g1, g2, hsplit, hF2a, hF2b⟩ := forall₂_append_split hF2
        subst hsplit
        obtain ⟨gs1, hw1, hp1, hww1, hk1⟩ := hGD g1 hF2a gs hpos
        obtain ⟨gs2, hw2, hp2, hww2, hk2⟩ := hGR g2 hF2b gs1 hp1
        refine ⟨gs2, ?_, hp2, ?_, ?_⟩
        · rw [writeClassRecs_append honest g1 g2 gs, hw1]
          exact hw2
        · simp [hww2, hww1]
        · simp [hk2, hk1]

/-! ### Top-level assembly -/

@[simp] theorem ctagBeq_eq_decide (a b : CTag) :
    (a == b) = decide (a = b) := by
  cases a <;> cases b <;> rfl

theorem forall₂_idxFrom_of {α β : Type} {R : α → β → Prop} :
    ∀ {i : Nat} {l : List α} {l' : List β}, List.Forall₂ R l l' →
      List.Forall₂ (fun (p : Nat × α) b => R p.2 b) (idxFrom i l) l' := by
  intro i l
  induction l generalizing i with
  | nil =>
      intro l' h
      cases h
      exact List.Forall₂.nil
  | cons x xs ih =>
      intro l' h
      rcases h with _ | ⟨hr, h'⟩
      exact List.Forall₂.cons hr (ih h')

theorem emptyMapsInvD (c d : Nat) : MapsInvD ⟨[], [], [], []⟩ c d := by
  refine ⟨?_, ?_, ?_, ?_⟩ <;> intro i o h <;> cases h

theorem flatten_filter_of_tags {t : CTag} {L : List (List Chunk)}
    (h : ∀ l ∈ L, ∀ ch ∈ l, ch.tag = t) :
    L.flatten.filter (fun ch => ch.tag == t) = L.flatten := by
  rw [List.filter_eq_self]
  intro ch hch
  rw [List.mem_flatten] at hch
  obtain ⟨l, hl, hcl⟩ := hch
  simp [h l hl ch hcl]

theorem flatten_filter_none {t : CTag} {L : List (List Chunk)}
    (h : ∀ l ∈ L, ∀ ch ∈ l, ch.tag ≠ t) :
    L.flatten.filter (fun ch => ch.tag == t) = [] := by
  rw [List.filter_eq_nil_iff]
  intro ch hch
  rw [List.mem_flatten] at hch
  obtain ⟨l, hl, hcl⟩ := hch
  simp [h l hl ch hcl]

theorem dexRecChunks_tags (r : OatDexFile) :
    ∀ ch ∈ OatDexFile.checksumChunks r, ch.tag = CTag.dexRecT := by
  unfold OatDexFile.checksumChunks
  simp

theorem forall₂_right_mem {α β : Type} {R : α → β → Prop} :
    ∀ {l : List α} {l' : List β}, List.Forall₂ R l l' →
      ∀ b ∈ l', ∃ a, R a b := by
  intro l l' h
  induction h with
  | nil =>
      intro b hb
      cases hb
  | cons hr hrest ih =>
      intro b hb
      rcases List.mem_cons.1 hb with hb | hb
      · subst hb
        exact ⟨_, hr⟩
      · exact ih b hb

theorem forall₂_imp_mem {α β : Type} {R S : α → β → Prop} :
    ∀ {l : List α} {l' : List β}, List.Forall₂ R l l' →
      (∀ a ∈ l, ∀ b, R a b → S a b) → List.Forall₂ S l l' := by
  intro l l' h
  induction h with
  | nil =>
      intro _
      exact List.Forall₂.nil
  | cons hr hrest ih =>
      intro himp
      exact List.Forall₂.cons
        (himp _ (List.mem_cons_self _ _) _ hr)
        (ih fun a ha b hab => himp a (List.mem_cons_of_mem _ ha) b hab)

/-- The combined pass-F/pass-G simulation: on any admissible input, pass G
under fault-free I/O succeeds, pass G's checkpoint trace equals pass F's,
the final stream position is pass F's planned final offset, and the emitted
chunk trace decomposes against the checksum trace tag by tag: the
OatDexFile-record ranges and OatClass-record ranges agree exactly, and the
emitted deduplicated blobs are exactly the checksummed blob ranges that are
not suppressed empty tables. -/
theorem oatWriter_master (env : Env) (d : Nat) (adm : Admissible env d) :
    (Write env (OatWriter_new env) honest).1 = true ∧
    (Write env (OatWriter_new env) honest).2.ckpts =
      (OatWriter_new env).ckpts ∧
    (Write env (OatWriter_new env) honest).2.pos =
      (OatWriter_new env).finalOffset ∧
    ((OatWriter_new env).csum.filter
        (fun ch => ch.tag == CTag.dexRecT) =
      (Write env (OatWriter_new env) honest).2.writes.filter
        (fun ch => ch.tag == CTag.dexRecT)) ∧
    ((OatWriter_new env).csum.filter
        (fun ch => ch.tag == CTag.classRecT) =
      (Write env (OatWriter_new env) honest).2.writes.filter
        (fun ch => ch.tag == CTag.classRecT)) ∧
    (((OatWriter_new env).csum.filter
        (fun ch => ch.tag == CTag.blobT)).filter
          (fun ch => !ch.data.isNil) =
      (Write env (OatWriter_new env) honest).2.writes.filter
        (fun ch => ch.tag == CTag.blobT)) ∧
    (∀ ch ∈ (OatWriter_new env).csum, ch.tag = CTag.dexRecT ∨
      ch.tag = CTag.blobT ∨ ch.tag = CTag.classRecT) := by
  -- pass F, phase by phase
  rcases h1 : InitOatDexFiles env.dexFiles (InitOatHeader env) with
    ⟨rs1, cks1, o1⟩
  rcases h2 : InitDexFiles env.dexFiles rs1 o1 with ⟨rs2, cks2, o2⟩
  rcases h3 : InitOatClasses env (idxFrom 0 env.dexFiles) rs2 o2 with
    ⟨rs4, ocs4, csum4, cks3, o3⟩
  rcases h6 : InitOatCodeDexFiles env (idxFrom 0 env.dexFiles) ocs4
      ⟨[], [], [], []⟩ [] [] [] (roundUp o3 kPageSize) with
    ⟨ocs6, maps6, csum6, regs6, cks6, o5⟩
  have hfs : OatWriter_new env =
      { oat_dex_files_ := rs4
      , oat_classes_ := ocs6
      , code_offsets_ := maps6.code
      , mapping_table_offsets_ := maps6.mapping
      , vmap_table_offsets_ := maps6.vmap
      , gc_map_offsets_ := maps6.gcMap
      , executable_offset_ := roundUp o3 kPageSize
      , executable_offset_padding_length_ := roundUp o3 kPageSize - o3
      , csum := csum4 ++ csum6
      , regUpdates := regs6
      , ckpts := [sizeOfOatHeader, InitOatHeader env] ++ cks1 ++ cks2 ++
          cks3 ++ [roundUp o3 kPageSize] ++ cks6
      , finalOffset := o5 } := by
    unfold OatWriter_new InitOatCode
    simp only [h1, h2, h3, h6]
  -- phase simulations
  obtain ⟨hF2a, hle1, G2⟩ :=
    writeDexRecs_sim env.dexFiles (InitOatHeader env) rs1 cks1 o1 h1
  obtain ⟨hF2b, hle2, G3⟩ :=
    writeDexPayloads_sim env.dexFiles rs1 o1 rs2 cks2 o2 h2
      (by rw [hF2a.length_eq]) adm.payloadLen
  obtain ⟨hcs4, hF2c, hmatch, hstat, hle3, G4⟩ :=
    initOatClasses_sim env (idxFrom 0 env.dexFiles) rs2 o2 rs4 ocs4
      csum4 cks3 o3 h3
      (forall₂_idxFrom_of
        (R := fun dex r => r.methods_offsets_.length = dex.classDefs.length)
        (forall₂_compose
          (fun dex r1 r2 h1x h2x => by
            show r2.methods_offsets_.length = dex.classDefs.length
            rw [h2x.2.2.2, h1x.1]) hF2a hF2b))
  have ho0 : 0 < InitOatHeader env := by
    unfold InitOatHeader sizeOfOatHeader
    omega
  have hle4 : o3 ≤ roundUp o3 kPageSize :=
    le_roundUp o3 (by unfold kPageSize; omega)
  obtain ⟨Δc6, Δk6, hcs6, hck6, h6tag, h6fc, hF2d, _, _, hle6, G6⟩ :=
    writeCodeDexFiles_sim env d adm.alignPos adm.methodOk adm.stubOk
      (idxFrom 0 env.dexFiles) ocs4 ⟨[], [], [], []⟩ [] [] []
      (roundUp o3 kPageSize) ocs6 maps6 csum6 regs6 cks6 o5
      (by omega) (emptyMapsInvD _ d) hmatch h6
  simp only [List.nil_append] at hcs6 hck6
  subst hcs6 hck6
  subst hcs4
  -- the frozen-record fields of the constructed writer
  have hv1 : (OatWriter_new env).oat_dex_files_ = rs4 := by rw [hfs]
  have hv2 : (OatWriter_new env).oat_classes_ = ocs6 := by rw [hfs]
  have hv3 : (OatWriter_new env).executable_offset_ =
      roundUp o3 kPageSize := by rw [hfs]
  have hv4 : (OatWriter_new env).executable_offset_padding_length_ =
      roundUp o3 kPageSize - o3 := by rw [hfs]
  have hv5 : (OatWriter_new env).code_offsets_ = maps6.code := by rw [hfs]
  have hv6 : (OatWriter_new env).mapping_table_offsets_ = maps6.mapping :=
    by rw [hfs]
  have hv7 : (OatWriter_new env).vmap_table_offsets_ = maps6.vmap := by
    rw [hfs]
  have hv8 : (OatWriter_new env).gc_map_offsets_ = maps6.gcMap := by
    rw [hfs]
  have hv9 : (OatWriter_new env).csum =
      (rs4.map OatDexFile.checksumChunks).flatten ++ csum6 := by rw [hfs]
  have hv10 : (OatWriter_new env).ckpts =
      [sizeOfOatHeader, InitOatHeader env] ++ cks1 ++ cks2 ++
        cks3 ++ [roundUp o3 kPageSize] ++ cks6 := by rw [hfs]
  have hv11 : (OatWriter_new env).finalOffset = o5 := by rw [hfs]
  -- relations feeding the three WriteTables loops
  have hRP14 : List.Forall₂ RecPres rs1 rs4 :=
    forall₂_compose (fun _ _ _ hx hy => hx.concat hy.1) hF2b hF2c
  have hG2rel : List.Forall₂ (fun r rG =>
      OatDexFile.writeLen rG = OatDexFile.byteSize r) rs1 rs4 :=
    forall₂_imp_mem hRP14 (fun r1 hr1 r4 h14 => by
      obtain ⟨dex, hd⟩ := forall₂_right_mem hF2a r1 hr1
      rw [RecPres.writeLen_eq h14, hd.2])
  -- the tables stage, for any stream state at the planned offset
  have hTab : ∀ fs2 : OatWriterS, fs2.oat_dex_files_ = rs4 →
      fs2.oat_classes_ = ocs6 →
      ∀ gs : GS, gs.pos = InitOatHeader env →
      ∃ gs', WriteTables env fs2 honest gs = (true, gs') ∧
        gs'.pos = o3 ∧
        gs'.writes = gs.writes ++
          ((rs4.map OatDexFile.checksumChunks).flatten ++
           env.dexFiles.map (fun dex =>
             (⟨CTag.payloadT, CData.u8s dex.payload⟩ : Chunk)) ++
           (ocs6.map OatClass.checksumChunks).flatten) ∧
        gs'.ckpts = gs.ckpts ++ (cks1 ++ cks2 ++ cks3) := by
    intro fs2 hd1 hd2 gs hpos
    obtain ⟨gsA, hwA, hpA, hwwA, hkA⟩ := G2 rs4 hG2rel gs hpos
    obtain ⟨gsB, hwB, hpB, hwwB, hkB⟩ :=
      G3 rs4 (hF2c.imp fun _ _ h => h.2) gsA hpA
    obtain ⟨gsD, hwD, hpD, hwwD, hkD⟩ := G4 ocs6 hF2d gsB hpB
    refine ⟨gsD, ?_, hpD, ?_, ?_⟩
    · simp only [WriteTables, hd1, hd2, hwA, Bool.not_true,
        Bool.false_eq_true, if_false, hwB, hwD]
    · simp [hwwD, hwwB, hwwA]
    · simp [hkD, hkB, hkA]
  -- the executable-gap seek, for any stream state at the tables' end
  have hCode : ∀ fs2 : OatWriterS,
      fs2.executable_offset_ = roundUp o3 kPageSize →
      fs2.executable_offset_padding_length_ = roundUp o3 kPageSize - o3 →
      ∀ gs : GS, gs.pos = o3 →
      WriteCode fs2 honest gs = (roundUp o3 kPageSize,
        ⟨roundUp o3 kPageSize, gs.writes, gs.events ++ [true], gs.wIdx,
         gs.sIdx + 1, gs.ckpts ++ [roundUp o3 kPageSize]⟩) := by
    intro fs2 hx1 hx2 gs hpos
    have hland : o3 + (roundUp o3 kPageSize - o3) = roundUp o3 kPageSize :=
      by omega
    simp only [WriteCode, hx1, hx2, hpos, hland, seekChecked_honest,
      beq_self_eq_true, Bool.not_true, Bool.false_eq_true, if_false, GS.ck]
  -- the full run
  have hMain : ∃ gsF Δw,
      Write env (OatWriter_new env) honest = (true, gsF) ∧
      gsF.pos = o5 ∧
      gsF.ckpts = [sizeOfOatHeader, InitOatHeader env] ++ cks1 ++ cks2 ++
        cks3 ++ [roundUp o3 kPageSize] ++ cks6 ∧
      gsF.writes =
        [(⟨CTag.hdrT, CData.hdr (roundUp o3 kPageSize)⟩ : Chunk),
         ⟨CTag.locT, CData.u8s env.imageFileLocation⟩] ++
        ((rs4.map OatDexFile.checksumChunks).flatten ++
         env.dexFiles.map (fun dex =>
           (⟨CTag.payloadT, CData.u8s dex.payload⟩ : Chunk)) ++
         (ocs6.map OatClass.checksumChunks).flatten) ++ Δw ∧
      (∀ ch ∈ Δw, ch.tag = CTag.sizeT ∨ ch.tag = CTag.blobT) ∧
      Δw.filter (fun ch => ch.tag == CTag.blobT) =
        (csum6.filter (fun ch => ch.tag == CTag.blobT)).filter
          (fun ch => !ch.data.isNil) := by
    have h0 : Write env (OatWriter_new env) honest =
        (match WriteTables env (OatWriter_new env) honest
            ⟨sizeOfOatHeader + env.imageFileLocation.length,
             [⟨CTag.hdrT,
               CData.hdr ((OatWriter_new env).executable_offset_)⟩,
              ⟨CTag.locT, CData.u8s env.imageFileLocation⟩],
             [true, true], 2, 0,
             [sizeOfOatHeader,
              sizeOfOatHeader + env.imageFileLocation.length]⟩ with
         | (ok, gs) =>
           if !ok then (false, gs) else
           match WriteCode (OatWriter_new env) honest gs with
           | (code_offset, gs) =>
             if code_offset == 0 then (false, gs) else
             match WriteCodeDexFiles env (OatWriter_new env) honest
                 (idxFrom 0 env.dexFiles) (OatWriter_new env).oat_classes_
                 gs code_offset with
             | (code_offset, gs) =>
               if code_offset == 0 then (false, gs) else (true, gs)) := rfl
    obtain ⟨gsC, hwTab, hpC, hwwC, hkC⟩ := hTab (OatWriter_new env) hv1 hv2
      ⟨sizeOfOatHeader + env.imageFileLocation.length,
       [⟨CTag.hdrT, CData.hdr ((OatWriter_new env).executable_offset_)⟩,
        ⟨CTag.locT, CData.u8s env.imageFileLocation⟩],
       [true, true], 2, 0,
       [sizeOfOatHeader, sizeOfOatHeader + env.imageFileLocation.length]⟩
      rfl
    have hwCode := hCode (OatWriter_new env) hv3 hv4 gsC hpC
    have hne0 : (roundUp o3 kPageSize == 0) = false := by
      simp only [beq_eq_false_iff_ne, ne_eq]
      omega
    have hMext : MapsExt maps6 ⟨(OatWriter_new env).code_offsets_,
        (OatWriter_new env).mapping_table_offsets_,
        (OatWriter_new env).vmap_table_offsets_,
        (OatWriter_new env).gc_map_offsets_⟩ := by
      rw [hv5, hv6, hv7, hv8]
      exact MapsExt.same maps6
    obtain ⟨gsE, Δw, hwCDF, hpE, hwwE, hkE, hwTagsE, hwFiltE⟩ :=
      G6 (OatWriter_new env)
        ⟨roundUp o3 kPageSize, gsC.writes, gsC.events ++ [true], gsC.wIdx,
         gsC.sIdx + 1, gsC.ckpts ++ [roundUp o3 kPageSize]⟩ hMext rfl
    have hne5 : (o5 == 0) = false := by
      simp only [beq_eq_false_iff_ne, ne_eq]
      omega
    refine ⟨gsE, Δw, ?_, hpE, ?_, ?_, hwTagsE, hwFiltE⟩
    · rw [h0]
      simp only [hwTab, Bool.not_true, Bool.false_eq_true, if_false,
        hwCode, hne0, hv2, hwCDF, hne5]
    · simp [hkE, hkC, InitOatHeader]
    · simp [hwwE, hwwC, hv3]
  -- tag bookkeeping for the final decomposition
  have hRtags : ∀ l ∈ rs4.map OatDexFile.checksumChunks, ∀ ch ∈ l,
      ch.tag = CTag.dexRecT := by
    intro l hl ch hch
    rw [List.mem_map] at hl
    obtain ⟨r, _, rfl⟩ := hl
    exact dexRecChunks_tags r ch hch
  have hCtags : ∀ l ∈ ocs6.map OatClass.checksumChunks, ∀ ch ∈ l,
      ch.tag = CTag.classRecT := by
    intro l hl ch hch
    rw [List.mem_map] at hl
    obtain ⟨oc, _, rfl⟩ := hl
    exact classChunks_tags oc ch hch
  have hfRd : ((rs4.map OatDexFile.checksumChunks).flatten).filter
      (fun ch => ch.tag == CTag.dexRecT) =
      (rs4.map OatDexFile.checksumChunks).flatten :=
    flatten_filter_of_tags hRtags
  have hfRc : ((rs4.map OatDexFile.checksumChunks).flatten).filter
      (fun ch => ch.tag == CTag.classRecT) = [] :=
    flatten_filter_none (fun l hl ch hch => by
      rw [hRtags l hl ch hch]; decide)
  have hfRb : ((rs4.map OatDexFile.checksumChunks).flatten).filter
      (fun ch => ch.tag == CTag.blobT) = [] :=
    flatten_filter_none (fun l hl ch hch => by
      rw [hRtags l hl ch hch]; decide)
  have hfCc : ((ocs6.map OatClass.checksumChunks).flatten).filter
      (fun ch => ch.tag == CTag.classRecT) =
      (ocs6.map OatClass.checksumChunks).flatten :=
    flatten_filter_of_tags hCtags
  have hfCd : ((ocs6.map OatClass.checksumChunks).flatten).filter
      (fun ch => ch.tag == CTag.dexRecT) = [] :=
    flatten_filter_none (fun l hl ch hch => by
      rw [hCtags l hl ch hch]; decide)
  have hfCb : ((ocs6.map OatClass.checksumChunks).flatten).filter
      (fun ch => ch.tag == CTag.blobT) = [] :=
    flatten_filter_none (fun l hl ch hch => by
      rw [hCtags l hl ch hch]; decide)
  have hfP : ∀ t : CTag, CTag.payloadT ≠ t →
      (env.dexFiles.map (fun dex =>
        (⟨CTag.payloadT, CData.u8s dex.payload⟩ : Chunk))).filter
        (fun ch => ch.tag == t) = [] := by
    intro t ht
    rw [List.filter_eq_nil_iff]
    intro ch hch
    rw [List.mem_map] at hch
    obtain ⟨dex, _, rfl⟩ := hch
    simp [ht]
  have hfPd := hfP CTag.dexRecT (by decide)
  have hfPc := hfP CTag.classRecT (by decide)
  have hfPb := hfP CTag.blobT (by decide)
  have hfW0d : ([(⟨CTag.hdrT, CData.hdr (roundUp o3 kPageSize)⟩ : Chunk),
      ⟨CTag.locT, CData.u8s env.imageFileLocation⟩].filter
      (fun ch => ch.tag == CTag.dexRecT)) = [] := rfl
  have hfW0c : ([(⟨CTag.hdrT, CData.hdr (roundUp o3 kPageSize)⟩ : Chunk),
      ⟨CTag.locT, CData.u8s env.imageFileLocation⟩].filter
      (fun ch => ch.tag == CTag.classRecT)) = [] := rfl
  have hfW0b : ([(⟨CTag.hdrT, CData.hdr (roundUp o3 kPageSize)⟩ : Chunk),
      ⟨CTag.locT, CData.u8s env.imageFileLocation⟩].filter
      (fun ch => ch.tag == CTag.blobT)) = [] := rfl
  obtain ⟨gsF, Δw, hWeq, hpF, hkF, hwF, hwTags, hwFilt⟩ := hMain
  have hfWd : Δw.filter (fun ch => ch.tag == CTag.dexRecT) = [] := by
    rw [List.filter_eq_nil_iff]
    intro ch hch
    rcases hwTags ch hch with h | h <;> simp [h]
  have hfWc : Δw.filter (fun ch => ch.tag == CTag.classRecT) = [] := by
    rw [List.filter_eq_nil_iff]
    intro ch hch
    rcases hwTags ch hch with h | h <;> simp [h]
  have hf6d : csum6.filter (fun ch => ch.tag == CTag.dexRecT) = [] := by
    rw [List.filter_eq_nil_iff]
    intro ch hch
    rcases h6tag ch hch with h | h <;> simp [h]
  rw [hWeq]
  dsimp only
  refine ⟨rfl, ?_, ?_, ?_, ?_, ?_, ?_⟩
  · rw [hv10]
    exact hkF
  · rw [hv11]
    exact hpF
  · rw [hv9, hwF]
    simp only [List.filter_append, hfW0d, hfRd, hfPd, hfCd, hfWd, hf6d,
      List.append_nil, List.nil_append]
  · rw [hv9, hwF]
    simp only [List.filter_append, hfW0c, hfRc, hfPc, hfCc, hfWc, h6fc,
      List.append_nil, List.nil_append]
  · rw [hv9, hwF]
    simp only [List.filter_append, hfW0b, hfRb, hfPb, hfCb, hwFilt,
      List.append_nil, List.nil_append]
  · intro ch hch
    rw [hv9] at hch
    rcases List.mem_append.1 hch with h | h
    · left
      rw [List.mem_flatten] at h
      obtain ⟨l, hl, hcl⟩ := h
      exact hRtags l hl ch hcl
    · rcases h6tag ch h with hx | hx
      · exact Or.inr (Or.inl hx)
      · exact Or.inr (Or.inr hx)

/-! ### Concrete inputs (spec §8 scenario 1 and small method-level inputs) -/

/-- A compiler that compiled nothing and has no invoke stubs. -/
def compiler0 : CompilerRec :=
  { isaAlignment := 8
  , getCompiledClass := fun _ _ => none
  , getCompiledMethod := fun _ _ => none
  , findInvokeStub := fun _ _ => none
  , isImage := false }

/-- The empty input set: no dex files, empty image location. -/
def env1 : Env :=
  { dexFiles := []
  , imageFileLocation := []
  , imageFileLocationOatChecksum := 0
  , imageFileLocationOatBegin := 0
  , compiler := compiler0
  , isClassRejected := fun _ _ => false
  , resolveMethod := fun _ _ => ⟨false, false, false⟩
  , resolutionStub := 0
  , kStackAlignment := 16 }

theorem env1_admissible : Admissible env1 1 :=
  ⟨by decide, fun _ h => (nomatch h), fun _ _ _ h => (nomatch h),
   fun _ _ _ h => (nomatch h)⟩

/-- A dex file with no classes (method-level inputs only need its shorty
lookup). -/
def dex0 : DexFileRec :=
  { location := []
  , locationChecksum := 0
  , fileSize := 0
  , payload := []
  , classDefs := []
  , methodShorty := fun _ => 0 }

/-- A compiler whose every method has the one invoke stub with code blob
identity 7. -/
def compilerS : CompilerRec :=
  { compiler0 with findInvokeStub := fun _ _ => some ⟨⟨7, [9]⟩, 1⟩ }

def envS : Env := { env1 with compiler := compilerS }

/-- The trivial compiler in boot-image mode. -/
def compilerI : CompilerRec := { compiler0 with isImage := true }

def envI : Env := { env1 with compiler := compilerI }

/-! ### The claims -/

/-- C1: on every admissible input set, pass G under fault-free I/O succeeds,
its stream position equals pass F's planned offset at every checkpoint (the
two passes' checkpoint traces are equal lists), and the total written length
equals the final offset pass F returned. -/
theorem C1_checkpoint_refinement (env : Env) (d : Nat)
    (adm : Admissible env d) :
    (Write env (OatWriter_new env) honest).1 = true ∧
    (Write env (OatWriter_new env) honest).2.ckpts =
      (OatWriter_new env).ckpts ∧
    (Write env (OatWriter_new env) honest).2.pos =
      (OatWriter_new env).finalOffset :=
  ⟨(oatWriter_master env d adm).1, (oatWriter_master env d adm).2.1,
   (oatWriter_master env d adm).2.2.1⟩

theorem C1_witness :
    (Write env1 (OatWriter_new env1) honest).1 = true ∧
    (Write env1 (OatWriter_new env1) honest).2.ckpts =
      (OatWriter_new env1).ckpts ∧
    (Write env1 (OatWriter_new env1) honest).2.pos =
      (OatWriter_new env1).finalOffset :=
  C1_checkpoint_refinement env1 1 env1_admissible

/-- C2 counterexample: the claim says pass F's checksum updates cover, in
the exact same order, the exact same byte ranges pass G emits.  Already on
the empty input set this fails: pass G writes the header image and the
image-location string, which pass F never folds into the checksum, so the
two traces differ. -/
theorem C2_counterexample :
    ¬((OatWriter_new env1).csum =
      (Write env1 (OatWriter_new env1) honest).2.writes) := by
  decide

/-- C2 (amended): pass F's checksum trace does not cover the header image,
the image-location string, the embedded DEX payloads or the u32 blob size
prefixes, and it folds a class's blobs before that class's OatClass record
while pass G writes all OatClass records before any blob.  What does hold,
on every admissible input set: the checksum trace consists exactly of
OatDexFile-record ranges, blob payloads and OatClass-record ranges; the
OatDexFile-record ranges and the OatClass-record ranges agree with the
emitted ones exactly (same order, same bytes), and the checksummed blob
payloads, after dropping the zero-length tables that are never emitted, are
exactly the emitted blob payloads in the same order. -/
theorem C2_amended_checksums (env : Env) (d : Nat)
    (adm : Admissible env d) :
    ((OatWriter_new env).csum.filter
        (fun ch => ch.tag == CTag.dexRecT) =
      (Write env (OatWriter_new env) honest).2.writes.filter
        (fun ch => ch.tag == CTag.dexRecT)) ∧
    ((OatWriter_new env).csum.filter
        (fun ch => ch.tag == CTag.classRecT) =
      (Write env (OatWriter_new env) honest).2.writes.filter
        (fun ch => ch.tag == CTag.classRecT)) ∧
    (((OatWriter_new env).csum.filter
        (fun ch => ch.tag == CTag.blobT)).filter
          (fun ch => !ch.data.isNil) =
      (Write env (OatWriter_new env) honest).2.writes.filter
        (fun ch => ch.tag == CTag.blobT)) ∧
    (∀ ch ∈ (OatWriter_new env).csum, ch.tag = CTag.dexRecT ∨
      ch.tag = CTag.blobT ∨ ch.tag = CTag.classRecT) :=
  (oatWriter_master env d adm).2.2.2

theorem C2_amended_witness :
    (OatWriter_new env1).csum.filter (fun ch => ch.tag == CTag.dexRecT) =
      (Write env1 (OatWriter_new env1) honest).2.writes.filter
        (fun ch => ch.tag == CTag.dexRecT) :=
  (C2_amended_checksums env1 1 env1_admissible).1

/-- C3 counterexample: the claim says only the first occurrence of a code
blob advances the offset cursor.  But the source aligns the cursor before
the dedup lookup (oat_writer.cc:252), so a second occurrence of an interned
blob still advances an unaligned cursor to the alignment boundary: here the
blob with identity 5 is already stored at 100, yet the cursor moves from
4102 to 4104. -/
theorem C3_counterexample :
    findOff [(5, 100)] 5 = some 100 ∧
    (codeLikePart 8 ⟨5, [1, 2, 3]⟩ 0 [(5, 100)] [] 4102).2.2.2 ≠ 4102 := by
  decide

/-- C3 (amended): an already-interned code blob records the previously
stored offset, folds nothing further into the checksum, leaves the dedup
map unchanged, and moves the cursor only to the alignment boundary (not
past it); a fresh blob records the tentative offset (aligned cursor plus
the u32 size prefix plus its code delta), is interned at it, folds its
payload once, and advances the cursor by prefix plus payload.  Hence any
later occurrence of the same blob identity — under any map extending the
interning one — records exactly the first occurrence's offset, so two
methods sharing a code blob get equal code_offset fields.  The branch pair
is the spec's `Intern`: the recorded offset and the map agree with
`Intern` at the tentative offset. -/
theorem C3_amended_code_dedup (al : Nat) (blob : Blob) (d : Nat)
    (m m2 : List (Nat × Nat)) (csum csum2 : List Chunk) (c c2 : Nat) :
    (∀ s, findOff m blob.id = some s →
      codeLikePart al blob d m csum c = (s, m, csum, roundUp c al)) ∧
    (findOff m blob.id = none →
      codeLikePart al blob d m csum c =
        (roundUp c al + 4 + d, (blob.id, roundUp c al + 4 + d) :: m,
         csum ++ [⟨CTag.blobT, CData.u8s blob.data⟩],
         roundUp c al + 4 + blob.data.length)) ∧
    (findOff m blob.id = none →
      MapExt ((blob.id, roundUp c al + 4 + d) :: m) m2 →
      (codeLikePart al blob d m2 csum2 c2).1 =
        (codeLikePart al blob d m csum c).1) ∧
    ((codeLikePart al blob d m csum c).1 =
      (Intern m blob.id (roundUp c al + 4 + d)).1 ∧
     (codeLikePart al blob d m csum c).2.1 =
      (Intern m blob.id (roundUp c al + 4 + d)).2.2) := by
  refine ⟨?_, ?_, ?_, ?_⟩
  · intro s hs
    simp [codeLikePart, hs]
  · intro hf
    simp [codeLikePart, hf]
  · intro hf hext
    have h2 : findOff m2 blob.id = some (roundUp c al + 4 + d) :=
      hext blob.id _ (by rw [findOff_cons]; simp)
    simp [codeLikePart, hf, h2]
  · rcases hf : findOff m blob.id with _ | s <;>
      simp [codeLikePart, Intern, hf]

/-- C4: every OatClass record built in pass F carries the documented status
— the compiled class's status when the compiler has one, else the error
status when the verifier rejected the class, else not-ready — and one
method-offsets slot per method of its class_def; the frozen `oat_classes_`
(after phase 6, which preserves statuses) satisfy this class by class in
iteration order. -/
theorem C4_class_status (env : Env) (d : Nat) (adm : Admissible env d) :
    List.Forall₂ (fun (t : Nat × Nat × ClassDefRec) oc =>
      oc.status_ = classStatusOf env t.1 t.2.1 ∧
      oc.method_offsets_.length = numMethodsOfClassDef t.2.2)
      (dexClassTriples (idxFrom 0 env.dexFiles))
      (OatWriter_new env).oat_classes_ := by
  rcases h1 : InitOatDexFiles env.dexFiles (InitOatHeader env) with
    ⟨rs1, cks1, o1⟩
  rcases h2 : InitDexFiles env.dexFiles rs1 o1 with ⟨rs2, cks2, o2⟩
  rcases h3 : InitOatClasses env (idxFrom 0 env.dexFiles) rs2 o2 with
    ⟨rs4, ocs4, csum4, cks3, o3⟩
  rcases h6 : InitOatCodeDexFiles env (idxFrom 0 env.dexFiles) ocs4
      ⟨[], [], [], []⟩ [] [] [] (roundUp o3 kPageSize) with
    ⟨ocs6, maps6, csum6, regs6, cks6, o5⟩
  have hoc : (OatWriter_new env).oat_classes_ = ocs6 := by
    unfold OatWriter_new InitOatCode
    simp only [h1, h2, h3, h6]
  obtain ⟨hF2a, hle1, G2⟩ :=
    writeDexRecs_sim env.dexFiles (InitOatHeader env) rs1 cks1 o1 h1
  obtain ⟨hF2b, hle2, G3⟩ :=
    writeDexPayloads_sim env.dexFiles rs1 o1 rs2 cks2 o2 h2
      (by rw [hF2a.length_eq]) adm.payloadLen
  obtain ⟨hcs4, hF2c, hmatch, hstat, hle3, G4⟩ :=
    initOatClasses_sim env (idxFrom 0 env.dexFiles) rs2 o2 rs4 ocs4
      csum4 cks3 o3 h3
      (forall₂_idxFrom_of
        (R := fun dex r => r.methods_offsets_.length = dex.classDefs.length)
        (forall₂_compose
          (fun dex r1 r2 h1x h2x => by
            show r2.methods_offsets_.length = dex.classDefs.length
            rw [h2x.2.2.2, h1x.1]) hF2a hF2b))
  have ho0 : 0 < InitOatHeader env := by
    unfold InitOatHeader sizeOfOatHeader
    omega
  have hle4 : o3 ≤ roundUp o3 kPageSize :=
    le_roundUp o3 (by unfold kPageSize; omega)
  obtain ⟨Δc6, Δk6, hcs6, hck6, h6tag, h6fc, hF2d, _, _, hle6, G6⟩ :=
    writeCodeDexFiles_sim env d adm.alignPos adm.methodOk adm.stubOk
      (idxFrom 0 env.dexFiles) ocs4 ⟨[], [], [], []⟩ [] [] []
      (roundUp o3 kPageSize) ocs6 maps6 csum6 regs6 cks6 o5
      (by omega) (emptyMapsInvD _ d) hmatch h6
  rw [hoc]
  exact forall₂_compose
    (fun t oc4 oc6 hx hy => ⟨hy.2.trans hx.1, hy.1.trans hx.2⟩) hstat hF2d

theorem C4_witness :
    List.Forall₂ (fun (t : Nat × Nat × ClassDefRec) oc =>
      oc.status_ = classStatusOf env1 t.1 t.2.1 ∧
      oc.method_offsets_.length = numMethodsOfClassDef t.2.2)
      (dexClassTriples (idxFrom 0 env1.dexFiles))
      (OatWriter_new env1).oat_classes_ :=
  C4_class_status env1 1 env1_admissible

/-- C5 counterexample: the claim says a method without a compiled method
gets an all-zero OatMethodOffsets record.  The source defaults
`frame_size_in_bytes` to `kStackAlignment`, not 0 (oat_writer.cc:237):
with the trivial compiler the record's frame size is 16. -/
theorem C5_counterexample :
    ((InitOatCodeMethod env1 0 dex0 InvokeType.kDirect 0 ⟨[], [], [], []⟩
        [] [] [] 100).2.2.2.2.2).frame_size_in_bytes_ ≠ 0 := by
  decide

/-- C5 (amended): a method the compiler did not compile (and with no invoke
stub, outside image mode) emits no code, leaves the dedup maps, checksum
trace, registry trace, checkpoints and the offset cursor untouched, and its
OatMethodOffsets record is the zero record except that the frame size
defaults to the build constant `kStackAlignment`. -/
theorem C5_amended_default_record (env : Env) (di : Nat) (dex : DexFileRec)
    (type : InvokeType) (mi : Nat) (maps : DedupMaps) (csum : List Chunk)
    (regs : List RegistryUpdate) (cks : List Nat) (off : Nat)
    (hg : env.compiler.getCompiledMethod di mi = none)
    (hs : env.compiler.findInvokeStub (type == InvokeType.kStatic)
        (dex.methodShorty mi) = none)
    (himg : env.compiler.isImage = false) :
    InitOatCodeMethod env di dex type mi maps csum regs cks off =
      (maps, csum, regs, cks, off,
       { OatMethodOffsets.zero with
           frame_size_in_bytes_ := env.kStackAlignment }) := by
  simp [InitOatCodeMethod, hg, hs, himg, OatMethodOffsets.zero]

theorem C5_amended_witness :
    InitOatCodeMethod env1 0 dex0 InvokeType.kDirect 0 ⟨[], [], [], []⟩
        [] [] [] 100 =
      (⟨[], [], [], []⟩, [], [], [], 100,
       { OatMethodOffsets.zero with
           frame_size_in_bytes_ := env1.kStackAlignment }) :=
  C5_amended_default_record env1 0 dex0 InvokeType.kDirect 0
    ⟨[], [], [], []⟩ [] [] [] 100 rfl rfl rfl

/-- C7: the frozen executable-section offset is the phase-4 end offset
rounded up to the page size — so it is page-aligned — and the remembered
padding is the difference between the rounded and unrounded offsets, with
`executable_offset = offset + pad`. -/
theorem C7_exec_offset (env : Env) (rs1 : List OatDexFile)
    (cks1 : List Nat) (o1 : Nat) (rs2 : List OatDexFile) (cks2 : List Nat)
    (o2 : Nat) (rs4 : List OatDexFile) (ocs4 : List OatClass)
    (csum4 : List Chunk) (cks3 : List Nat) (o3 : Nat)
    (h1 : InitOatDexFiles env.dexFiles (InitOatHeader env) =
      (rs1, cks1, o1))
    (h2 : InitDexFiles env.dexFiles rs1 o1 = (rs2, cks2, o2))
    (h3 : InitOatClasses env (idxFrom 0 env.dexFiles) rs2 o2 =
      (rs4, ocs4, csum4, cks3, o3)) :
    (OatWriter_new env).executable_offset_ = roundUp o3 kPageSize ∧
    (OatWriter_new env).executable_offset_ % kPageSize = 0 ∧
    (OatWriter_new env).executable_offset_padding_length_ =
      roundUp o3 kPageSize - o3 ∧
    (OatWriter_new env).executable_offset_ =
      o3 + (OatWriter_new env).executable_offset_padding_length_ := by
  rcases h6 : InitOatCodeDexFiles env (idxFrom 0 env.dexFiles) ocs4
      ⟨[], [], [], []⟩ [] [] [] (roundUp o3 kPageSize) with
    ⟨ocs6, maps6, csum6, regs6, cks6, o5⟩
  have hv : (OatWriter_new env).executable_offset_ =
      roundUp o3 kPageSize ∧
      (OatWriter_new env).executable_offset_padding_length_ =
        roundUp o3 kPageSize - o3 := by
    unfold OatWriter_new InitOatCode
    simp [h1, h2, h3, h6]
  have hle := le_roundUp o3 (show 0 < kPageSize by unfold kPageSize; omega)
  refine ⟨hv.1, ?_, hv.2, ?_⟩
  · rw [hv.1]
    exact roundUp_mod o3 kPageSize
  · rw [hv.1, hv.2]
    omega

theorem C7_witness :
    (OatWriter_new env1).executable_offset_ = roundUp 36 kPageSize ∧
    (OatWriter_new env1).executable_offset_ % kPageSize = 0 ∧
    (OatWriter_new env1).executable_offset_padding_length_ =
      roundUp 36 kPageSize - 36 ∧
    (OatWriter_new env1).executable_offset_ =
      36 + (OatWriter_new env1).executable_offset_padding_length_ :=
  C7_exec_offset env1 [] [] 36 [] [] 36 [] [] [] [] 36 rfl rfl rfl

/-- C8: in boot-image mode every processed method appends exactly one
registry update that unconditionally stores the frame size, spill masks and
the mapping/vmap/GC-map and invoke-stub offsets of its OatMethodOffsets
record, stores the code offset exactly when the method is non-static or a
constructor or its class is already initialized, and otherwise points the
method's code at the runtime's resolution trampoline. -/
theorem C8_image_registry (env : Env) (di : Nat) (dex : DexFileRec)
    (type : InvokeType) (mi : Nat) (maps : DedupMaps) (csum : List Chunk)
    (regs : List RegistryUpdate) (cks : List Nat) (off : Nat)
    (maps' : DedupMaps) (csum' : List Chunk) (regs' : List RegistryUpdate)
    (cks' : List Nat) (off' : Nat) (mrec : OatMethodOffsets)
    (himg : env.compiler.isImage = true)
    (heq : InitOatCodeMethod env di dex type mi maps csum regs cks off =
      (maps', csum', regs', cks', off', mrec)) :
    regs' = regs ++
      [{ dexIdx := di, methodIdx := mi
       , frameSize := mrec.frame_size_in_bytes_
       , coreSpill := mrec.core_spill_mask_
       , fpSpill := mrec.fp_spill_mask_
       , mappingOff := mrec.mapping_table_offset_
       , vmapOff := mrec.vmap_table_offset_
       , gcOff := mrec.gc_map_offset_
       , stubOff := mrec.invoke_stub_offset_
       , codeOffset :=
           if !(env.resolveMethod di mi).isStatic ||
               (env.resolveMethod di mi).isConstructor ||
               (env.resolveMethod di mi).classInited
           then some mrec.code_offset_ else none
       , codeAddr :=
           if !(env.resolveMethod di mi).isStatic ||
               (env.resolveMethod di mi).isConstructor ||
               (env.resolveMethod di mi).classInited
           then none else some env.resolutionStub }] := by
  rcases hg : env.compiler.getCompiledMethod di mi with _ | cm
  · rcases hs : env.compiler.findInvokeStub (type == InvokeType.kStatic)
        (dex.methodShorty mi) with _ | stub
    · simp only [InitOatCodeMethod, hg, hs, himg, if_true,
        Prod.mk.injEq] at heq
      obtain ⟨e1, e2, e3, e4, e5, e6⟩ := heq
      subst e3 e6
      simp
    · rcases hE : codeLikePart env.compiler.isaAlignment stub.code
          stub.codeDelta maps.code csum off with ⟨so, codeM, cs1, off1⟩
      simp only [InitOatCodeMethod, hg, hs, hE, himg, if_true,
        Prod.mk.injEq] at heq
      obtain ⟨e1, e2, e3, e4, e5, e6⟩ := heq
      subst e3 e6
      simp
  · rcases hA : codeLikePart env.compiler.isaAlignment cm.code
        cm.codeDelta maps.code csum off with ⟨co, codeM, cs1, o1⟩
    rcases hB : mappingTablePart cm.mappingTable maps.mapping cs1 o1 with
      ⟨mo, mapM, cs2, o2⟩
    rcases hC : vmapTablePart cm.vmapTable maps.vmap cs2 o2 with
      ⟨vo, vmapM, cs3, o3⟩
    rcases hD : gcMapPart cm.gcMap maps.gcMap cs3 o3 with
      ⟨go, gcM, cs4, o4⟩
    rcases hs : env.compiler.findInvokeStub (type == InvokeType.kStatic)
        (dex.methodShorty mi) with _ | stub
    · simp only [InitOatCodeMethod, hg, hA, hB, hC, hD, hs, himg, if_true,
        Prod.mk.injEq] at heq
      obtain ⟨e1, e2, e3, e4, e5, e6⟩ := heq
      subst e3 e6
      simp
    · rcases hE : codeLikePart env.compiler.isaAlignment stub.code
          stub.codeDelta codeM cs4 o4 with ⟨so, codeM2, cs5, o5⟩
      simp only [InitOatCodeMethod, hg, hA, hB, hC, hD, hs, hE, himg,
        if_true, Prod.mk.injEq] at heq
      obtain ⟨e1, e2, e3, e4, e5, e6⟩ := heq
      subst e3 e6
      simp

theorem C8_witness :
    (InitOatCodeMethod envI 0 dex0 InvokeType.kDirect 0 ⟨[], [], [], []⟩
        [] [] [] 0).2.2.1 =
      [{ dexIdx := 0, methodIdx := 0, frameSize := 16, coreSpill := 0
       , fpSpill := 0, mappingOff := 0, vmapOff := 0, gcOff := 0
       , stubOff := 0, codeOffset := some 0, codeAddr := none }] :=
  C8_image_registry envI 0 dex0 InvokeType.kDirect 0 ⟨[], [], [], []⟩ []
    [] [] 0 ⟨[], [], [], []⟩ []
    [⟨0, 0, 16, 0, 0, 0, 0, 0, 0, some 0, none⟩] [] 0
    ⟨0, 16, 0, 0, 0, 0, 0, 0⟩ rfl rfl

/-- C9: each of the mapping table (u32 words), vmap table (u16 words) and
GC map (u8 bytes) records the current cursor as its tentative offset with
no size prefix and no code delta; a zero-length table records offset 0
unconditionally (its stored dedup entries are 0 and a fresh one interns 0);
an interned table records the stored offset and moves nothing; a fresh
non-empty table records the cursor, is interned at it, and advances the
cursor by exactly the table's byte size. -/
theorem C9_table_offsets (blob : Blob) (m : List (Nat × Nat))
    (csum : List Chunk) (c : Nat)
    (hz : blob.data.length = 0 → ∀ s, findOff m blob.id = some s →
      s = 0) :
    ((blob.data.length = 0 → (mappingTablePart blob m csum c).1 = 0 ∧
        (mappingTablePart blob m csum c).2.2.2 = c) ∧
     (∀ s, findOff m blob.id = some s →
        mappingTablePart blob m csum c = (s, m, csum, c)) ∧
     (findOff m blob.id = none → 0 < blob.data.length →
        mappingTablePart blob m csum c =
          (c, (blob.id, c) :: m,
           csum ++ [⟨CTag.blobT, CData.u32s blob.data⟩],
           c + 4 * blob.data.length))) ∧
    ((blob.data.length = 0 → (vmapTablePart blob m csum c).1 = 0 ∧
        (vmapTablePart blob m csum c).2.2.2 = c) ∧
     (∀ s, findOff m blob.id = some s →
        vmapTablePart blob m csum c = (s, m, csum, c)) ∧
     (findOff m blob.id = none → 0 < blob.data.length →
        vmapTablePart blob m csum c =
          (c, (blob.id, c) :: m,
           csum ++ [⟨CTag.blobT, CData.u16s blob.data⟩],
           c + 2 * blob.data.length))) ∧
    ((blob.data.length = 0 → (gcMapPart blob m csum c).1 = 0 ∧
        (gcMapPart blob m csum c).2.2.2 = c) ∧
     (∀ s, findOff m blob.id = some s →
        gcMapPart blob m csum c = (s, m, csum, c)) ∧
     (findOff m blob.id = none → 0 < blob.data.length →
        gcMapPart blob m csum c =
          (c, (blob.id, c) :: m,
           csum ++ [⟨CTag.blobT, CData.u8s blob.data⟩],
           c + blob.data.length))) := by
  refine ⟨⟨?_, ?_, ?_⟩, ⟨?_, ?_, ?_⟩, ⟨?_, ?_, ?_⟩⟩
  · intro h0
    rcases hf : findOff m blob.id with _ | s
    · simp [mappingTablePart, hf, h0]
    · simp [mappingTablePart, hf, hz h0 s hf]
  · intro s hs
    simp [mappingTablePart, hs]
  · intro hf hl
    have hne : ¬(4 * blob.data.length = 0) := by omega
    simp [mappingTablePart, hf, hne]
  · intro h0
    rcases hf : findOff m blob.id with _ | s
    · simp [vmapTablePart, hf, h0]
    · simp [vmapTablePart, hf, hz h0 s hf]
  · intro s hs
    simp [vmapTablePart, hs]
  · intro hf hl
    have hne : ¬(2 * blob.data.length = 0) := by omega
    simp [vmapTablePart, hf, hne]
  · intro h0
    rcases hf : findOff m blob.id with _ | s
    · simp [gcMapPart, hf, h0]
    · simp [gcMapPart, hf, hz h0 s hf]
  · intro s hs
    simp [gcMapPart, hs]
  · intro hf hl
    have hne : ¬(blob.data.length = 0) := by omega
    simp [gcMapPart, hf, hne]

theorem C9_witness :
    (mappingTablePart ⟨1, []⟩ [] [] 5).1 = 0 ∧
    (mappingTablePart ⟨1, []⟩ [] [] 5).2.2.2 = 5 :=
  (C9_table_offsets ⟨1, []⟩ [] [] 5 (fun _ _ h => nomatch h)).1.1 rfl

/-- C10 counterexample: the claim says the offset cursor does not advance
for an invoke stub whose blob identity is already interned.  The stub block
aligns the cursor before the dedup lookup (oat_writer.cc:337), so with the
stub's blob (identity 7) already stored at 50 in the shared code map, the
cursor still advances from 4102 to the 8-byte alignment boundary 4104. -/
theorem C10_counterexample :
    findOff (⟨[(7, 50)], [], [], []⟩ : DedupMaps).code 7 = some 50 ∧
    (InitOatCodeMethod envS 0 dex0 InvokeType.kStatic 0
        ⟨[(7, 50)], [], [], []⟩ [] [] [] 4102).2.2.2.2.1 ≠ 4102 := by
  decide

/-- C10 (amended): invoke stubs are deduplicated through the same code map
as method code: a stub whose blob identity is already stored there (whether
from a method's code or an earlier stub) records the stored offset as its
invoke-stub offset, adds nothing to the checksum, leaves every dedup map
unchanged, and moves the cursor only to the alignment boundary; pass G then
emits nothing for it. -/
theorem C10_amended_stub_dedup (env : Env) (di : Nat) (dex : DexFileRec)
    (type : InvokeType) (mi : Nat) (maps : DedupMaps) (csum : List Chunk)
    (regs : List RegistryUpdate) (cks : List Nat) (off : Nat)
    (stub : CompiledInvokeStub) (s : Nat)
    (hg : env.compiler.getCompiledMethod di mi = none)
    (hs : env.compiler.findInvokeStub (type == InvokeType.kStatic)
        (dex.methodShorty mi) = some stub)
    (hdup : findOff maps.code stub.code.id = some s) :
    (InitOatCodeMethod env di dex type mi maps csum regs cks off).1 =
      maps ∧
    (InitOatCodeMethod env di dex type mi maps csum regs cks off).2.1 =
      csum ∧
    (InitOatCodeMethod env di dex type mi maps csum regs cks
        off).2.2.2.2.1 = roundUp off env.compiler.isaAlignment ∧
    ((InitOatCodeMethod env di dex type mi maps csum regs cks
        off).2.2.2.2.2).invoke_stub_offset_ = s ∧
    wBlobChunksCode stub.code maps.code = [] := by
  refine ⟨?_, ?_, ?_, ?_, ?_⟩ <;>
    simp [InitOatCodeMethod, hg, hs, codeLikePart, hdup, wBlobChunksCode]

theorem C10_amended_witness :
    (InitOatCodeMethod envS 0 dex0 InvokeType.kStatic 0
        ⟨[(7, 50)], [], [], []⟩ [] [] [] 4102).1 =
      ⟨[(7, 50)], [], [], []⟩ ∧
    (InitOatCodeMethod envS 0 dex0 InvokeType.kStatic 0
        ⟨[(7, 50)], [], [], []⟩ [] [] [] 4102).2.1 = [] ∧
    (InitOatCodeMethod envS 0 dex0 InvokeType.kStatic 0
        ⟨[(7, 50)], [], [], []⟩ [] [] [] 4102).2.2.2.2.1 =
      roundUp 4102 envS.compiler.isaAlignment ∧
    ((InitOatCodeMethod envS 0 dex0 InvokeType.kStatic 0
        ⟨[(7, 50)], [], [], []⟩ [] [] [] 4102).2.2.2.2.2
      ).invoke_stub_offset_ = 50 ∧
    wBlobChunksCode (⟨7, [9]⟩ : Blob)
      (⟨[(7, 50)], [], [], []⟩ : DedupMaps).code = [] :=
  C10_amended_stub_dedup envS 0 dex0 InvokeType.kStatic 0
    ⟨[(7, 50)], [], [], []⟩ [] [] [] 4102 ⟨⟨7, [9]⟩, 1⟩ 50 rfl rfl rfl

/-! ### C6: failure propagation through pass G

Every pass-G component only ever appends write/seek outcomes to `events`,
and returns success only along paths whose appended outcomes are all
`true`; a failed write or a seek landing off its expected offset makes the
component — and hence `Write` — report failure. -/

/-- Between two stream states of one successful component: only successful
outcomes were appended. -/
def EventsOk (gs gs' : GS) : Prop :=
  ∃ Δ, gs'.events = gs.events ++ Δ ∧ ∀ b ∈ Δ, b = true

theorem EventsOk.nil (gs : GS) : EventsOk gs gs :=
  ⟨[], by simp, fun _ h => (nomatch h)⟩

theorem EventsOk.seq {a b c : GS} (h1 : EventsOk a b) (h2 : EventsOk b c) :
    EventsOk a c := by
  obtain ⟨d1, e1, t1⟩ := h1
  obtain ⟨d2, e2, t2⟩ := h2
  refine ⟨d1 ++ d2, by simp [e2, e1], ?_⟩
  intro x hx
  rcases List.mem_append.1 hx with h | h
  · exact t1 x h
  · exact t2 x h

theorem EventsOk.ckG {a b : GS} (h : EventsOk a b) : EventsOk a b.ck := h

theorem writeFully_eventsOk (ora : Oracle) (gs : GS) (c : Chunk) :
    ∀ ok gs', writeFully ora gs c = (ok, gs') → ok = true →
      EventsOk gs gs' := by
  intro ok gs' heq hok
  subst hok
  unfold writeFully at heq
  by_cases hW : ora.writeFails gs.wIdx = true
  · rw [if_pos hW] at heq
    simp at heq
  · rw [if_neg hW] at heq
    simp only [Prod.mk.injEq] at heq
    rw [← heq.2]
    exact ⟨[true], by simp, by simp⟩

theorem seekChecked_eventsOk (ora : Oracle) (gs : GS) (t e : Nat) :
    ∀ ok gs', seekChecked ora gs t e = (ok, gs') → ok = true →
      EventsOk gs gs' := by
  intro ok gs' heq hok
  subst hok
  simp only [seekChecked, Prod.mk.injEq] at heq
  obtain ⟨h1, h2⟩ := heq
  subst h2
  refine ⟨[(ora.seekLand gs.sIdx).getD t == e], by simp, ?_⟩
  intro b hb
  rw [List.mem_singleton] at hb
  subst hb
  exact h1

theorem wAlignCode_eventsOk (ora : Oracle) (al : Nat) (gs : GS) (c : Nat) :
    ∀ ok gs' c', wAlignCode ora al gs c = (ok, gs', c') → ok = true →
      EventsOk gs gs' := by
  intro ok gs' c' heq hok
  subst hok
  simp only [wAlignCode] at heq
  split at heq
  · rcases hS : seekChecked ora gs (gs.pos + (roundUp c al - c))
        (roundUp c al) with ⟨ok1, gs1⟩
    simp only [hS, Prod.mk.injEq] at heq
    obtain ⟨e1, e2, e3⟩ := heq
    subst e2
    exact seekChecked_eventsOk ora gs _ _ ok1 _ hS e1
  · simp only [Prod.mk.injEq] at heq
    obtain ⟨e1, e2, e3⟩ := heq
    subst e2
    exact EventsOk.nil gs

theorem wCodeLikePart_eventsOk (ora : Oracle) (al : Nat) (blob : Blob)
    (d : Nat) (mF : List (Nat × Nat)) (recorded : Nat) (gs : GS)
    (c : Nat) :
    ∀ x gs', wCodeLikePart ora al blob d mF recorded gs c =
      (some x, gs') → EventsOk gs gs' := by
  intro x gs' heq
  rcases hA : wAlignCode ora al gs c with ⟨ok1, gs1, c1⟩
  simp only [wCodeLikePart, hA] at heq
  rcases ok1 with _ | _
  · simp at heq
  · have hE1 := wAlignCode_eventsOk ora al gs c true gs1 c1 hA rfl
    simp only [Bool.not_true, Bool.false_eq_true, if_false] at heq
    by_cases hdup : ((findOff mF blob.id).isSome &&
        (c1 + 4 + d != recorded)) = true
    · rw [if_pos hdup] at heq
      simp only [Prod.mk.injEq] at heq
      obtain ⟨e1, e2⟩ := heq
      subst e2
      exact hE1
    · rw [if_neg hdup] at heq
      rcases hW1 : writeFully ora gs1
          ⟨CTag.sizeT, CData.u32 blob.data.length⟩ with ⟨ok2, gs2⟩
      simp only [hW1] at heq
      rcases ok2 with _ | _
      · simp at heq
      · have hE2 := writeFully_eventsOk ora gs1 _ true gs2 hW1 rfl
        simp only [Bool.not_true, Bool.false_eq_true, if_false] at heq
        rcases hW2 : writeFully ora gs2 ⟨CTag.blobT, CData.u8s blob.data⟩
          with ⟨ok3, gs3⟩
        simp only [hW2] at heq
        rcases ok3 with _ | _
        · simp at heq
        · have hE3 := writeFully_eventsOk ora gs2 _ true gs3 hW2 rfl
          simp only [Bool.not_true, Bool.false_eq_true, if_false,
            Prod.mk.injEq] at heq
          obtain ⟨e1, e2⟩ := heq
          subst e2
          exact (hE1.seq hE2).seq hE3

theorem wMappingTablePart_eventsOk (ora : Oracle) (blob : Blob)
    (mF : List (Nat × Nat)) (recorded : Nat) (gs : GS) (c : Nat) :
    ∀ x gs', wMappingTablePart ora blob mF recorded gs c =
      (some x, gs') → EventsOk gs gs' := by
  intro x gs' heq
  simp only [wMappingTablePart] at heq
  by_cases hdup : ((findOff mF blob.id).isSome && (c != recorded)) = true
  · rw [if_pos hdup] at heq
    simp only [Prod.mk.injEq] at heq
    obtain ⟨e1, e2⟩ := heq
    subst e2
    exact EventsOk.nil gs
  · rw [if_neg hdup] at heq
    rcases hW : writeFully ora gs ⟨CTag.blobT, CData.u32s blob.data⟩
      with ⟨ok1, gs1⟩
    simp only [hW] at heq
    rcases ok1 with _ | _
    · simp at heq
    · simp only [Bool.not_true, Bool.false_eq_true, if_false,
        Prod.mk.injEq] at heq
      obtain ⟨e1, e2⟩ := heq
      subst e2
      exact writeFully_eventsOk ora gs _ true gs1 hW rfl

theorem wVmapTablePart_eventsOk (ora : Oracle) (blob : Blob)
    (mF : List (Nat × Nat)) (recorded : Nat) (gs : GS) (c : Nat) :
    ∀ x gs', wVmapTablePart ora blob mF recorded gs c =
      (some x, gs') → EventsOk gs gs' := by
  intro x gs' heq
  simp only [wVmapTablePart] at heq
  by_cases hdup : ((findOff mF blob.id).isSome && (c != recorded)) = true
  · rw [if_pos hdup] at heq
    simp only [Prod.mk.injEq] at heq
    obtain ⟨e1, e2⟩ := heq
    subst e2
    exact EventsOk.nil gs
  · rw [if_neg hdup] at heq
    rcases hW : writeFully ora gs ⟨CTag.blobT, CData.u16s blob.data⟩
      with ⟨ok1, gs1⟩
    simp only [hW] at heq
    rcases ok1 with _ | _
    · simp at heq
    · simp only [Bool.not_true, Bool.false_eq_true, if_false,
        Prod.mk.injEq] at heq
      obtain ⟨e1, e2⟩ := heq
      subst e2
      exact writeFully_eventsOk ora gs _ true gs1 hW rfl

theorem wGcMapPart_eventsOk (ora : Oracle) (blob : Blob)
    (mF : List (Nat × Nat)) (recorded : Nat) (gs : GS) (c : Nat) :
    ∀ x gs', wGcMapPart ora blob mF recorded gs c =
      (some x, gs') → EventsOk gs gs' := by
  intro x gs' heq
  simp only [wGcMapPart] at heq
  by_cases hdup : ((findOff mF blob.id).isSome && (c != recorded)) = true
  · rw [if_pos hdup] at heq
    simp only [Prod.mk.injEq] at heq
    obtain ⟨e1, e2⟩ := heq
    subst e2
    exact EventsOk.nil gs
  · rw [if_neg hdup] at heq
    rcases hW : writeFully ora gs ⟨CTag.blobT, CData.u8s blob.data⟩
      with ⟨ok1, gs1⟩
    simp only [hW] at heq
    rcases ok1 with _ | _
    · simp at heq
    · simp only [Bool.not_true, Bool.false_eq_true, if_false,
        Prod.mk.injEq] at heq
      obtain ⟨e1, e2⟩ := heq
      subst e2
      exact writeFully_eventsOk ora gs _ true gs1 hW rfl

theorem WriteCodeMethod_eventsOk (env : Env) (fs : OatWriterS)
    (ora : Oracle) (di : Nat) (dex : DexFileRec) (is_static : Bool)
    (mi : Nat) (mrec : OatMethodOffsets) (gs : GS) (c : Nat) :
    ∀ c' gs', WriteCodeMethod env fs ora di dex is_static mi mrec gs c =
      (c', gs') → c' ≠ 0 → EventsOk gs gs' := by
  intro c' gs' heq hne
  rcases hg : env.compiler.getCompiledMethod di mi with _ | cm
  · simp only [WriteCodeMethod, hg] at heq
    rcases hst : env.compiler.findInvokeStub is_static
        (dex.methodShorty mi) with _ | stub
    · rw [hst] at heq
      simp only [Prod.mk.injEq] at heq
      obtain ⟨e1, e2⟩ := heq
      subst e2
      exact EventsOk.nil gs
    · rw [hst] at heq
      rcases hW : wCodeLikePart ora env.compiler.isaAlignment stub.code
          stub.codeDelta fs.code_offsets_ mrec.invoke_stub_offset_ gs c
        with ⟨o1, gs1⟩
      simp only [hW] at heq
      rcases o1 with _ | c1
      · simp only [Prod.mk.injEq] at heq
        exact absurd heq.1.symm hne
      · simp only [Prod.mk.injEq] at heq
        obtain ⟨e1, e2⟩ := heq
        subst e2
        exact (wCodeLikePart_eventsOk ora _ _ _ _ _ gs c c1 gs1 hW).ckG
  · rcases hP1 : wCodeLikePart ora env.compiler.isaAlignment cm.code
        cm.codeDelta fs.code_offsets_ mrec.code_offset_ gs c with ⟨o1, gs1⟩
    simp only [WriteCodeMethod, hg, hP1] at heq
    rcases o1 with _ | c1
    · simp only [Prod.mk.injEq] at heq
      exact absurd heq.1.symm hne
    · have hE1 :=
        (wCodeLikePart_eventsOk ora _ _ _ _ _ gs c c1 gs1 hP1).ckG
      rcases hP2 : wMappingTablePart ora cm.mappingTable
          fs.mapping_table_offsets_ mrec.mapping_table_offset_ gs1.ck c1
        with ⟨o2, gs2⟩
      simp only [hP2] at heq
      rcases o2 with _ | c2
      · simp only [Prod.mk.injEq] at heq
        exact absurd heq.1.symm hne
      · have hE2 := hE1.seq
          (wMappingTablePart_eventsOk ora _ _ _ gs1.ck c1 c2 gs2 hP2).ckG
        rcases hP3 : wVmapTablePart ora cm.vmapTable
            fs.vmap_table_offsets_ mrec.vmap_table_offset_ gs2.ck c2
          with ⟨o3, gs3⟩
        simp only [hP3] at heq
        rcases o3 with _ | c3
        · simp only [Prod.mk.injEq] at heq
          exact absurd heq.1.symm hne
        · have hE3 := hE2.seq
            (wVmapTablePart_eventsOk ora _ _ _ gs2.ck c2 c3 gs3 hP3).ckG
          rcases hP4 : wGcMapPart ora cm.gcMap fs.gc_map_offsets_
              mrec.gc_map_offset_ gs3.ck c3 with ⟨o4, gs4⟩
          simp only [hP4] at heq
          rcases o4 with _ | c4
          · simp only [Prod.mk.injEq] at heq
            exact absurd heq.1.symm hne
          · have hE4 := hE3.seq
              (wGcMapPart_eventsOk ora _ _ _ gs3.ck c3 c4 gs4 hP4).ckG
            rcases hst : env.compiler.findInvokeStub is_static
                (dex.methodShorty mi) with _ | stub
            · rw [hst] at heq
              simp only [Prod.mk.injEq] at heq
              obtain ⟨e1, e2⟩ := heq
              subst e2
              exact hE4
            · rw [hst] at heq
              rcases hW : wCodeLikePart ora env.compiler.isaAlignment
                  stub.code stub.codeDelta fs.code_offsets_
                  mrec.invoke_stub_offset_ gs4.ck c4 with ⟨o5, gs5⟩
              simp only [hW] at heq
              rcases o5 with _ | c5
              · simp only [Prod.mk.injEq] at heq
                exact absurd heq.1.symm hne
              · simp only [Prod.mk.injEq] at heq
                obtain ⟨e1, e2⟩ := heq
                subst e2
                exact hE4.seq
                  (wCodeLikePart_eventsOk ora _ _ _ _ _ gs4.ck c4 c5
                    gs5 hW).ckG

theorem WriteCodeMethods_eventsOk (env : Env) (fs : OatWriterS)
    (ora : Oracle) (di : Nat) (dex : DexFileRec) :
    ∀ (ms : List (Bool × MethodDef)) (mrecs : List OatMethodOffsets)
      (gs : GS) (c c' : Nat) (gs' : GS),
      WriteCodeMethods env fs ora di dex ms mrecs gs c = (c', gs') →
      c' ≠ 0 → EventsOk gs gs' := by
  intro ms
  induction ms with
  | nil =>
      intro mrecs gs c c' gs' heq hne
      simp only [WriteCodeMethods, Prod.mk.injEq] at heq
      obtain ⟨e1, e2⟩ := heq
      subst e2
      exact EventsOk.nil gs
  | cons hd rest ih =>
      obtain ⟨isDirect, m⟩ := hd
      intro mrecs gs c c' gs' heq hne
      rcases mrecs with _ | ⟨mrec, mrest⟩
      · simp only [WriteCodeMethods, Prod.mk.injEq] at heq
        exact absurd heq.1.symm hne
      · rcases hM : WriteCodeMethod env fs ora di dex
            (if isDirect then (m.accessFlags &&& kAccStatic) != 0
             else false) m.methodIdx mrec gs c with ⟨c1, gs1⟩
        simp only [WriteCodeMethods, hM] at heq
        by_cases hc1 : (c1 == 0) = true
        · rw [if_pos hc1] at heq
          simp only [Prod.mk.injEq] at heq
          exact absurd heq.1.symm hne
        · rw [if_neg hc1] at heq
          have h1 := WriteCodeMethod_eventsOk env fs ora di dex _
            m.methodIdx mrec gs c c1 gs1 hM (by simpa using hc1)
          exact h1.seq (ih mrest gs1 c1 c' gs' heq hne)

theorem WriteCodeClassDef_eventsOk (env : Env) (fs : OatWriterS)
    (ora : Oracle) (di : Nat) (dex : DexFileRec) (cd : ClassDefRec)
    (oc : OatClass) (gs : GS) (c : Nat) :
    ∀ c' gs', WriteCodeClassDef env fs ora di dex cd oc gs c =
      (c', gs') → c' ≠ 0 → EventsOk gs gs' := by
  intro c' gs' heq hne
  rcases hcd : cd.classData with _ | data
  · simp only [WriteCodeClassDef, hcd, Prod.mk.injEq] at heq
    obtain ⟨e1, e2⟩ := heq
    subst e2
    exact EventsOk.nil gs
  · simp only [WriteCodeClassDef, hcd] at heq
    exact WriteCodeMethods_eventsOk env fs ora di dex (taggedMethods data)
      oc.method_offsets_ gs c c' gs' heq hne

theorem WriteCodeDexFile_eventsOk (env : Env) (fs : OatWriterS)
    (ora : Oracle) (di : Nat) (dex : DexFileRec) :
    ∀ (cds : List ClassDefRec) (ocs : List OatClass) (gs : GS)
      (c c' : Nat) (pend : List OatClass) (gs' : GS),
      WriteCodeDexFile env fs ora di dex cds ocs gs c =
        (c', pend, gs') → c' ≠ 0 → EventsOk gs gs' := by
  intro cds
  induction cds with
  | nil =>
      intro ocs gs c c' pend gs' heq hne
      simp only [WriteCodeDexFile, Prod.mk.injEq] at heq
      obtain ⟨e1, e2, e3⟩ := heq
      subst e3
      exact EventsOk.nil gs
  | cons cd crest ih =>
      intro ocs gs c c' pend gs' heq hne
      rcases ocs with _ | ⟨oc, orest⟩
      · simp only [WriteCodeDexFile, Prod.mk.injEq] at heq
        exact absurd heq.1.symm hne
      · rcases hC : WriteCodeClassDef env fs ora di dex cd oc gs c with
          ⟨c1, gs1⟩
        simp only [WriteCodeDexFile, hC] at heq
        by_cases hc1 : (c1 == 0) = true
        · rw [if_pos hc1] at heq
          simp only [Prod.mk.injEq] at heq
          exact absurd heq.1.symm hne
        · rw [if_neg hc1] at heq
          have h1 := WriteCodeClassDef_eventsOk env fs ora di dex cd oc
            gs c c1 gs1 hC (by simpa using hc1)
          exact h1.seq (ih orest gs1 c1 c' pend gs' heq hne)

theorem WriteCodeDexFiles_eventsOk (env : Env) (fs : OatWriterS)
    (ora : Oracle) :
    ∀ (dexes : List (Nat × DexFileRec)) (ocs : List OatClass) (gs : GS)
      (c c' : Nat) (gs' : GS),
      WriteCodeDexFiles env fs ora dexes ocs gs c = (c', gs') →
      c' ≠ 0 → EventsOk gs gs' := by
  intro dexes
  induction dexes with
  | nil =>
      intro ocs gs c c' gs' heq hne
      simp only [WriteCodeDexFiles, Prod.mk.injEq] at heq
      obtain ⟨e1, e2⟩ := heq
      subst e2
      exact EventsOk.nil gs
  | cons hd drest ih =>
      obtain ⟨di, dex⟩ := hd
      intro ocs gs c c' gs' heq hne
      rcases hD : WriteCodeDexFile env fs ora di dex dex.classDefs ocs
          gs c with ⟨c1, pend, gs1⟩
      simp only [WriteCodeDexFiles, hD] at heq
      by_cases hc1 : (c1 == 0) = true
      · rw [if_pos hc1] at heq
        simp only [Prod.mk.injEq] at heq
        exact absurd heq.1.symm hne
      · rw [if_neg hc1] at heq
        have h1 := WriteCodeDexFile_eventsOk env fs ora di dex
          dex.classDefs ocs gs c c1 pend gs1 hD (by simpa using hc1)
        exact h1.seq (ih pend gs1 c1 c' gs' heq hne)

theorem OatDexFile_Write_eventsOk (ora : Oracle) (r : OatDexFile)
    (gs : GS) :
    ∀ ok gs', OatDexFile_Write ora r gs = (ok, gs') → ok = true →
      EventsOk gs gs' := by
  intro ok gs' heq hok
  subst hok
  rcases h1 : writeFully ora gs
      ⟨CTag.dexRecT, CData.u32 r.dex_file_location_size_⟩ with ⟨ok1, gs1⟩
  simp only [OatDexFile_Write, h1] at heq
  rcases ok1 with _ | _
  · simp at heq
  · simp only [Bool.not_true, Bool.false_eq_true, if_false] at heq
    rcases h2 : writeFully ora gs1
        ⟨CTag.dexRecT, CData.u8s r.dex_file_location_data_⟩ with
      ⟨ok2, gs2⟩
    simp only [h2] at heq
    rcases ok2 with _ | _
    · simp at heq
    · simp only [Bool.not_true, Bool.false_eq_true, if_false] at heq
      rcases h3 : writeFully ora gs2
          ⟨CTag.dexRecT, CData.u32 r.dex_file_location_checksum_⟩ with
        ⟨ok3, gs3⟩
      simp only [h3] at heq
      rcases ok3 with _ | _
      · simp at heq
      · simp only [Bool.not_true, Bool.false_eq_true, if_false] at heq
        rcases h4 : writeFully ora gs3
            ⟨CTag.dexRecT, CData.u32 r.dex_file_offset_⟩ with ⟨ok4, gs4⟩
        simp only [h4] at heq
        rcases ok4 with _ | _
        · simp at heq
        · simp only [Bool.not_true, Bool.false_eq_true, if_false] at heq
          rcases h5 : writeFully ora gs4
              ⟨CTag.dexRecT, CData.u32s r.methods_offsets_⟩ with
            ⟨ok5, gs5⟩
          simp only [h5] at heq
          simp only [Prod.mk.injEq] at heq
          obtain ⟨e1, e2⟩ := heq
          subst e2
          exact ((((writeFully_eventsOk ora gs _ true gs1 h1 rfl).seq
            (writeFully_eventsOk ora gs1 _ true gs2 h2 rfl)).seq
            (writeFully_eventsOk ora gs2 _ true gs3 h3 rfl)).seq
            (writeFully_eventsOk ora gs3 _ true gs4 h4 rfl)).seq
            (writeFully_eventsOk ora gs4 _ ok5 gs5 h5 e1)

theorem OatClass_Write_eventsOk (ora : Oracle) (oc : OatClass) (gs : GS) :
    ∀ ok gs', OatClass_Write ora oc gs = (ok, gs') → ok = true →
      EventsOk gs gs' := by
  intro ok gs' heq hok
  subst hok
  rcases h1 : writeFully ora gs ⟨CTag.classRecT, CData.cst oc.status_⟩
    with ⟨ok1, gs1⟩
  simp only [OatClass_Write, h1] at heq
  rcases ok1 with _ | _
  · simp at heq
  · simp only [Bool.not_true, Bool.false_eq_true, if_false] at heq
    rcases h2 : writeFully ora gs1
        ⟨CTag.classRecT, CData.mOffs oc.method_offsets_⟩ with ⟨ok2, gs2⟩
    simp only [h2] at heq
    simp only [Prod.mk.injEq] at heq
    obtain ⟨e1, e2⟩ := heq
    subst e2
    exact (writeFully_eventsOk ora gs _ true gs1 h1 rfl).seq
      (writeFully_eventsOk ora gs1 _ ok2 gs2 h2 e1)

theorem writeDexRecs_eventsOk (ora : Oracle) :
    ∀ (rs : List OatDexFile) (gs : GS) (ok : Bool) (gs' : GS),
      writeDexRecs ora rs gs = (ok, gs') → ok = true →
      EventsOk gs gs' := by
  intro rs
  induction rs with
  | nil =>
      intro gs ok gs' heq hok
      subst hok
      simp only [writeDexRecs, Prod.mk.injEq] at heq
      obtain ⟨e1, e2⟩ := heq
      subst e2
      exact EventsOk.nil gs
  | cons r rest ih =>
      intro gs ok gs' heq hok
      subst hok
      rcases h1 : OatDexFile_Write ora r gs with ⟨ok1, gs1⟩
      simp only [writeDexRecs, h1] at heq
      rcases ok1 with _ | _
      · simp at heq
      · simp only [Bool.not_true, Bool.false_eq_true, if_false] at heq
        exact ((OatDexFile_Write_eventsOk ora r gs true gs1 h1 rfl).ckG).seq
          (ih gs1.ck true gs' heq rfl)

theorem writeDexPayloads_eventsOk (ora : Oracle) :
    ∀ (ds : List DexFileRec) (rs : List OatDexFile) (gs : GS) (ok : Bool)
      (gs' : GS),
      writeDexPayloads ora ds rs gs = (ok, gs') → ok = true →
      EventsOk gs gs' := by
  intro ds
  induction ds with
  | nil =>
      intro rs gs ok gs' heq hok
      subst hok
      simp only [writeDexPayloads, Prod.mk.injEq] at heq
      obtain ⟨e1, e2⟩ := heq
      subst e2
      exact EventsOk.nil gs
  | cons dex drest ih =>
      intro rs gs ok gs' heq hok
      subst hok
      rcases rs with _ | ⟨r, rrest⟩
      · simp [writeDexPayloads] at heq
      · rcases h1 : seekChecked ora gs r.dex_file_offset_
            r.dex_file_offset_ with ⟨ok1, gs1⟩
        simp only [writeDexPayloads, h1] at heq
        rcases ok1 with _ | _
        · simp at heq
        · simp only [Bool.not_true, Bool.false_eq_true, if_false] at heq
          rcases h2 : writeFully ora gs1
              ⟨CTag.payloadT, CData.u8s dex.payload⟩ with ⟨ok2, gs2⟩
          simp only [h2] at heq
          rcases ok2 with _ | _
          · simp at heq
          · simp only [Bool.not_true, Bool.false_eq_true, if_false] at heq
            exact ((seekChecked_eventsOk ora gs _ _ true gs1 h1 rfl).seq
              ((writeFully_eventsOk ora gs1 _ true gs2 h2 rfl).ckG)).seq
              (ih rrest gs2.ck true gs' heq rfl)

theorem writeClassRecs_eventsOk (ora : Oracle) :
    ∀ (ocs : List OatClass) (gs : GS) (ok : Bool) (gs' : GS),
      writeClassRecs ora ocs gs = (ok, gs') → ok = true →
      EventsOk gs gs' := by
  intro ocs
  induction ocs with
  | nil =>
      intro gs ok gs' heq hok
      subst hok
      simp only [writeClassRecs, Prod.mk.injEq] at heq
      obtain ⟨e1, e2⟩ := heq
      subst e2
      exact EventsOk.nil gs
  | cons oc rest ih =>
      intro gs ok gs' heq hok
      subst hok
      rcases h1 : OatClass_Write ora oc gs with ⟨ok1, gs1⟩
      simp only [writeClassRecs, h1] at heq
      rcases ok1 with _ | _
      · simp at heq
      · simp only [Bool.not_true, Bool.false_eq_true, if_false] at heq
        exact ((OatClass_Write_eventsOk ora oc gs true gs1 h1 rfl).ckG).seq
          (ih gs1.ck true gs' heq rfl)

theorem WriteTables_eventsOk (env : Env) (fs : OatWriterS) (ora : Oracle)
    (gs : GS) :
    ∀ ok gs', WriteTables env fs ora gs = (ok, gs') → ok = true →
      EventsOk gs gs' := by
  intro ok gs' heq hok
  subst hok
  rcases h1 : writeDexRecs ora fs.oat_dex_files_ gs with ⟨ok1, gs1⟩
  simp only [WriteTables, h1] at heq
  rcases ok1 with _ | _
  · simp at heq
  · simp only [Bool.not_true, Bool.false_eq_true, if_false] at heq
    rcases h2 : writeDexPayloads ora env.dexFiles fs.oat_dex_files_ gs1
      with ⟨ok2, gs2⟩
    simp only [h2] at heq
    rcases ok2 with _ | _
    · simp at heq
    · simp only [Bool.not_true, Bool.false_eq_true, if_false] at heq
      exact ((writeDexRecs_eventsOk ora _ gs true gs1 h1 rfl).seq
        (writeDexPayloads_eventsOk ora _ _ gs1 true gs2 h2 rfl)).seq
        (writeClassRecs_eventsOk ora _ gs2 true gs' heq rfl)

theorem WriteCode_eventsOk (fs : OatWriterS) (ora : Oracle) (gs : GS) :
    ∀ co gs', WriteCode fs ora gs = (co, gs') → co ≠ 0 →
      EventsOk gs gs' := by
  intro co gs' heq hne
  rcases h1 : seekChecked ora gs
      (gs.pos + fs.executable_offset_padding_length_)
      fs.executable_offset_ with ⟨ok1, gs1⟩
  simp only [WriteCode, h1] at heq
  rcases ok1 with _ | _
  · simp only [Bool.not_false, if_true, Prod.mk.injEq] at heq
    exact absurd heq.1.symm hne
  · simp only [Bool.not_true, Bool.false_eq_true, if_false,
      Prod.mk.injEq] at heq
    obtain ⟨e1, e2⟩ := heq
    subst e2
    exact (seekChecked_eventsOk ora gs _ _ true gs1 h1 rfl).ckG

/-- C6: `Write` reports success only when every `WriteFully` call succeeded
and every seek landed exactly at its expected offset: whenever its result
is `true`, every recorded write/seek outcome of the run is `true`;
contrapositively, any failed write or mislanded seek during pass G makes
the top-level `Write` return `false`. -/
theorem C6_failure_propagation (env : Env) (fs : OatWriterS)
    (ora : Oracle) (h : (Write env fs ora).1 = true) :
    ∀ b ∈ (Write env fs ora).2.events, b = true := by
  rcases hW : Write env fs ora with ⟨ok, gsF⟩
  rw [hW] at h
  replace h : ok = true := h
  subst h
  have hE : EventsOk GS.init gsF := by
    rcases h1 : writeFully ora GS.init
        ⟨CTag.hdrT, CData.hdr fs.executable_offset_⟩ with ⟨ok1, gs1⟩
    simp only [Write, h1] at hW
    rcases ok1 with _ | _
    · simp at hW
    · simp only [Bool.not_true, Bool.false_eq_true, if_false] at hW
      rcases h2 : writeFully ora gs1.ck
          ⟨CTag.locT, CData.u8s env.imageFileLocation⟩ with ⟨ok2, gs2⟩
      rw [h2] at hW
      rcases ok2 with _ | _
      · simp at hW
      · simp only [Bool.not_true, Bool.false_eq_true, if_false] at hW
        rcases h3 : WriteTables env fs ora gs2.ck with ⟨ok3, gs3⟩
        rw [h3] at hW
        rcases ok3 with _ | _
        · simp at hW
        · simp only [Bool.not_true, Bool.false_eq_true, if_false] at hW
          rcases h4 : WriteCode fs ora gs3 with ⟨co4, gs4⟩
          rw [h4] at hW
          by_cases hc4 : (co4 == 0) = true
          · rw [if_pos hc4] at hW
            simp at hW
          · rw [if_neg hc4] at hW
            rcases h5 : WriteCodeDexFiles env fs ora
                (idxFrom 0 env.dexFiles) fs.oat_classes_ gs4 co4 with
              ⟨co5, gs5⟩
            rw [h5] at hW
            by_cases hc5 : (co5 == 0) = true
            · rw [if_pos hc5] at hW
              simp at hW
            · rw [if_neg hc5] at hW
              simp only [Prod.mk.injEq] at hW
              obtain ⟨e1, e2⟩ := hW
              subst e2
              exact (((((writeFully_eventsOk ora GS.init _ true gs1 h1
                rfl).ckG).seq
                ((writeFully_eventsOk ora gs1.ck _ true gs2 h2
                  rfl).ckG)).seq
                (WriteTables_eventsOk env fs ora gs2.ck true gs3 h3
                  rfl)).seq
                (WriteCode_eventsOk fs ora gs3 co4 gs4 h4
                  (by simpa using hc4))).seq
                (WriteCodeDexFiles_eventsOk env fs ora _ _ gs4 co4 co5
                  _ h5 (by simpa using hc5))
  obtain ⟨Δ, hEv, hT⟩ := hE
  intro b hb
  simp only [hW] at hb
  rw [hEv] at hb
  simp only [GS.init, List.nil_append] at hb
  exact hT b hb

theorem C6_witness :
    (Write env1 (OatWriter_new env1) honest).1 = true ∧
    ∀ b ∈ (Write env1 (OatWriter_new env1) honest).2.events, b = true :=
  ⟨rfl, C6_failure_propagation env1 (OatWriter_new env1) honest rfl⟩

end Oat
